import Mathlib

/-!
# Line recognition pipeline (`image.h`, `image.cc`)

A shallow embedding of the gray-level image container and of the pipeline
stages built on it (binarisation, Sobel edge detection, Hough voting, the
accumulator text format, peak extraction, back-projection and the line
rasteriser), followed by theorems about them.

Conventions of the embedding

* `size_t` and `int` values are `Nat` and `Int`.  Image dimensions always come
  from `int` values (`ReadImage`, `h3.cc`), so `GetNumberOfRows` and
  `GetNumberOfColumns`, which return a `size_t` as an `int`, are exact.
* `int` arithmetic that can leave the 32-bit range is wrapped with `wrap32`.
* `abort()`, an out-of-range `vector` access and a failed allocation are all
  modelled as `none`: a computation that can fault returns an `Option`.
* `int **pixels_` is raw storage: a total function from index pairs to `Int`,
  of which only the cells inside `num_rows_ × num_columns_` are ever accessed.
* `double` computations are taken in exact real arithmetic (`Real.cos`,
  `Real.sin`, `Real.sqrt`); the conversion of a non-negative `double` to an
  integer type truncates.  The square root of an `int` is exact in this sense:
  the correctly rounded double root of `n < 2^31` truncates to `Nat.sqrt n`.
* A loop that is left early by overwriting its counters (`ly = lx = 5`) is a
  `forLoop` over a state with a `stopped` flag.
* Sums of a loop index and a small constant (`ly + r`, `i + x`) are not
  wrapped: the index is bounded by the size of an object held in memory.
* The loop `while (!done)` of `DrawLine` is run with a bound on the number of
  iterations (`DrawLine.fuel`); `DrawLine.run` shows that for all `int`
  arguments the loop ends within that bound.  All `int` operations of
  `DrawLine` are wrapped.
* The quotient of the back-projection is converted to `int` by truncation
  towards zero, taken exactly; a zero divisor gives `INT_MIN`, the value
  produced on x86-64 for an infinite or NaN operand.
-/

namespace ComputerVisionProjects

/-! ## Machine integers and loops -/

/-- Two's complement reduction of an integer to the 32-bit `int` range. -/
def wrap32 (z : Int) : Int := (z + 2147483648) % 4294967296 - 2147483648

/-- Conversion of an `int` to `size_t` (64 bit), as in `GetPixel(i+x, j+y)`. -/
def toSizeT (z : Int) : Nat :=
  if 0 ≤ z then z.toNat else (18446744073709551616 + z).toNat

/-- The loop `for (int k = 0; k < n; ++k) body(k)` over a state `σ`;
any iteration may fault, which ends the whole computation. -/
def forLoop {σ : Type} (n : Nat) (body : Nat → σ → Option σ) (s : σ) : Option σ :=
  match n with
  | 0 => some s
  | k + 1 => (forLoop k body s).bind (body k)

/-! ## The image container (`class Image`) -/

/-- The data members of `class Image`. -/
structure Image where
  num_rows_ : Nat
  num_columns_ : Nat
  num_gray_levels_ : Nat
  pixels_ : Nat → Nat → Int

namespace Image

/-- The method `int GetNumberOfRows()`. -/
def GetNumberOfRows (img : Image) : Nat := img.num_rows_

/-- The method `int GetNumberOfColumns()`. -/
def GetNumberOfColumns (img : Image) : Nat := img.num_columns_

/-- The method `void SetNumberGrayLevels(size_t gray_levels)`. -/
def SetNumberGrayLevels (img : Image) (gray_levels : Nat) : Image :=
  { img with num_gray_levels_ := gray_levels }

/-- The method `void SetPixel(size_t i, size_t j, int gray_level)`:
`if (i >= num_rows_ || j >= num_columns_) abort(); pixels_[i][j] = gray_level;` -/
def SetPixel (img : Image) (i j : Nat) (gray_level : Int) : Option Image :=
  if i ≥ img.num_rows_ ∨ j ≥ img.num_columns_ then none
  else some { img with
    pixels_ := fun a b => if a = i ∧ b = j then gray_level else img.pixels_ a b }

/-- The method `int GetPixel(size_t i, size_t j) const`:
`if (i >= num_rows_ || j >= num_columns_) abort(); return pixels_[i][j];` -/
def GetPixel (img : Image) (i j : Nat) : Option Int :=
  if i ≥ img.num_rows_ ∨ j ≥ img.num_columns_ then none
  else some (img.pixels_ i j)

end Image

/-! ## Binarisation (`ConvertToBinary`) -/

/-- The body of the inner loop of `ConvertToBinary` at pixel `(i, j)`. -/
def ConvertToBinary.step (threshold_value : Int) (i j : Nat) (img : Image) : Option Image :=
  (img.GetPixel i j).bind fun pixel =>
    if pixel ≤ threshold_value then img.SetPixel i j 0 else img.SetPixel i j 1

/-- The function `void ConvertToBinary(const int threshold_value, Image *an_image)`. -/
def ConvertToBinary (threshold_value : Int) (an_image : Image) : Option Image :=
  let row := an_image.GetNumberOfRows
  let column := an_image.GetNumberOfColumns
  (forLoop row (fun i img =>
      forLoop column (fun j img => ConvertToBinary.step threshold_value i j img) img)
    an_image).map fun img => img.SetNumberGrayLevels 1

/-- The value the loop body of `ConvertToBinary` stores for a pixel `v`:
`if (pixel <= threshold_value) 0 else 1`. -/
def binarise (threshold_value v : Int) : Int := if v ≤ threshold_value then 0 else 1

/-- A 1 x 1 grid holding the value 2, gray-level ceiling 255. -/
def gridOne : Image := ⟨1, 1, 255, fun _ _ => 2⟩

/-! ## Edge detection (`LocateEdges`) -/

/-- The table `int sobel_x[3][3]`, the Sobel operator in the x direction. -/
def sobel_x : List (List Int) := [[-1, 0, 1], [-2, 0, 2], [-1, 0, 1]]

/-- The table `int sobel_y[3][3]`, the Sobel operator in the y direction. -/
def sobel_y : List (List Int) := [[-1, -2, -1], [0, 0, 0], [1, 2, 1]]

/-- The entry `kernel[a][b]` of a 3 x 3 table. -/
def kernelAt (kernel : List (List Int)) (a b : Nat) : Int := (kernel.getD a []).getD b 0

/-- Conversion of a `double` holding `sqrt(n)` for an `int` `n` to `int`.
For `0 ≤ n < 2^31` the correctly rounded double square root truncates to the
integer square root.  For `n < 0` (reachable only after an overflow) the root
is NaN, whose conversion is not defined by the language; the value produced
on x86-64, `INT_MIN`, is used. -/
def sqrtToInt (n : Int) : Int := if 0 ≤ n then (Nat.sqrt n.toNat : Int) else -2147483648

/-- One tap of the convolution in `LocateEdges`, the body of the loops over
`x` and `y` (both from -1 to 1) at pixel `(i, j)`:
`pixel = (i == 0 || i == row-1 || j == 0 || j == column-1) ? 0 : GetPixel(i+x, j+y)`,
then both running sums are updated. -/
def LocateEdges.tap (an_image : Image) (row column i j : Nat) (x y : Int)
    (conv : Int × Int) : Option (Int × Int) :=
  (if (i : Int) = 0 ∨ (i : Int) = (row : Int) - 1 ∨ (j : Int) = 0 ∨ (j : Int) = (column : Int) - 1
    then some 0
    else an_image.GetPixel (toSizeT (i + x)) (toSizeT (j + y))).map fun pixel =>
      (wrap32 (conv.1 + wrap32 (pixel * kernelAt sobel_x (1 + x).toNat (1 + y).toNat)),
       wrap32 (conv.2 + wrap32 (pixel * kernelAt sobel_y (1 + x).toNat (1 + y).toNat)))

/-- The pair `(x_convolution, y_convolution)` that `LocateEdges` computes for
pixel `(i, j)`: both sums start at 0 and the nine taps are visited with `x`
in the outer loop and `y` in the inner one. -/
def LocateEdges.convolve (an_image : Image) (row column i j : Nat) : Option (Int × Int) :=
  forLoop 3 (fun kx conv =>
    forLoop 3 (fun ky conv =>
      LocateEdges.tap an_image row column i j ((kx : Int) - 1) ((ky : Int) - 1) conv) conv)
    (0, 0)

/-- The local arrays `image_x[row][column]` and `image_y[row][column]`. -/
structure LocateEdges.Sums where
  image_x : Nat → Nat → Int
  image_y : Nat → Nat → Int

/-- The body of the first pair of loops of `LocateEdges` at `(i, j)`: the two
convolution sums are stored in `image_x[i][j]` and `image_y[i][j]`. -/
def LocateEdges.store (an_image : Image) (row column i j : Nat)
    (sums : LocateEdges.Sums) : Option LocateEdges.Sums :=
  (LocateEdges.convolve an_image row column i j).map fun conv =>
    { image_x := fun a b => if a = i ∧ b = j then conv.1 else sums.image_x a b,
      image_y := fun a b => if a = i ∧ b = j then conv.2 else sums.image_y a b }

/-- The body of the second pair of loops of `LocateEdges` at `(i, j)`:
`sqrt(image_x[i][j]*image_x[i][j] + image_y[i][j]*image_y[i][j])` is passed
to `SetPixel`, which takes an `int`. -/
def LocateEdges.write (sums : LocateEdges.Sums) (i j : Nat) (img : Image) : Option Image :=
  img.SetPixel i j
    (sqrtToInt (wrap32 (wrap32 (sums.image_x i j * sums.image_x i j) +
      wrap32 (sums.image_y i j * sums.image_y i j))))

/-- The function `void LocateEdges(Image *an_image)`. -/
def LocateEdges (an_image : Image) : Option Image :=
  let row := an_image.GetNumberOfRows
  let column := an_image.GetNumberOfColumns
  (forLoop row (fun i sums =>
      forLoop column (fun j sums => LocateEdges.store an_image row column i j sums) sums)
    { image_x := fun _ _ => 0, image_y := fun _ _ => 0 }).bind fun sums =>
  forLoop row (fun i img =>
      forLoop column (fun j img => LocateEdges.write sums i j img) img)
    an_image

/-- The weighted sum of the 3 x 3 neighbourhood of `(i, j)` in `g` under a
kernel, kernel rows following image rows and kernel columns image columns,
in exact integer arithmetic. -/
def neighbourhoodSum (kernel : List (List Int)) (g : Image) (i j : Nat) : Int :=
  ∑ a ∈ Finset.range 3, ∑ b ∈ Finset.range 3,
    kernelAt kernel a b * g.pixels_ (i + a - 1) (j + b - 1)

/-- A 3 x 3 grid that is 0 everywhere except for the value 2 at (2, 2). -/
def gridCorner : Image := ⟨3, 3, 255, fun a b => if a = 2 ∧ b = 2 then 2 else 0⟩

/-- The gradient magnitude `LocateEdges` stores for a pair of convolution sums. -/
def LocateEdges.magnitude (conv : Int × Int) : Int :=
  sqrtToInt (wrap32 (wrap32 (conv.1 * conv.1) + wrap32 (conv.2 * conv.2)))

/-! ## Hough voting (`HoughTransform`, first part) -/

/-- The accumulator height, `int accu_row = sqrt((row*row) + (column*column));`. -/
def HoughTransform.accu_row (row column : Nat) : Int :=
  sqrtToInt (wrap32 (wrap32 ((row : Int) * (row : Int)) + wrap32 ((column : Int) * (column : Int))))

/-- The accumulator width, `int accu_col = 360;`. -/
def HoughTransform.accu_col : Int := 360

/-- The declaration
`std::vector<std::vector<int>> accumulator(accu_row, std::vector<int>(accu_col, 0))`.
A negative size converts to a huge `size_t` and the constructor throws. -/
def newAccumulator (accu_row accu_col : Int) : Option (List (List Int)) :=
  if accu_row < 0 ∨ accu_col < 0 then none
  else some (List.replicate accu_row.toNat (List.replicate accu_col.toNat 0))

/-- The value of `accumulator[r][t]`; indexing a `vector` outside its size is
undefined and modelled as a fault. -/
def readCell (accumulator : List (List Int)) (r t : Nat) : Option Int :=
  (accumulator[r]?).bind fun ln => ln[t]?

/-- The assignment `accumulator[r][t] = v`, with the same fault. -/
def writeCell (accumulator : List (List Int)) (r t : Nat) (v : Int) :
    Option (List (List Int)) :=
  (accumulator[r]?).bind fun ln =>
    if t < ln.length then some (accumulator.set r (ln.set t v)) else none

/-- The statement `accumulator[r][t]++`. -/
def incrCell (accumulator : List (List Int)) (r t : Nat) : Option (List (List Int)) :=
  (readCell accumulator r t).bind fun v => writeCell accumulator r t (wrap32 (v + 1))

/-- The radius `r = (x * cos(t * theta)) + (y * sin(t * theta))` with
`theta = pi/360`, in exact real arithmetic. -/
noncomputable def HoughTransform.radius (x y t : Nat) : ℝ :=
  (x : ℝ) * Real.cos ((t : ℝ) * (Real.pi / 360)) + (y : ℝ) * Real.sin ((t : ℝ) * (Real.pi / 360))

/-- The body of the loop over `t` for the edge pixel at column `x`, row `y`:
`if (r >= 0) accumulator[r][t]++;` where the `double` index `r` is converted
to `size_t` by truncation. -/
noncomputable def HoughTransform.vote (x y t : Nat) (accumulator : List (List Int)) :
    Option (List (List Int)) :=
  if 0 ≤ HoughTransform.radius x y t then
    incrCell accumulator ⌊HoughTransform.radius x y t⌋₊ t
  else some accumulator

/-- The body of the loops over `y` and `x`: a non-zero pixel votes in each of
the 360 angle bins. -/
noncomputable def HoughTransform.pixelVotes (an_image : Image) (y x : Nat)
    (accumulator : List (List Int)) : Option (List (List Int)) :=
  (an_image.GetPixel y x).bind fun pixel =>
    if pixel ≠ 0 then
      forLoop 360 (fun t accumulator => HoughTransform.vote x y t accumulator) accumulator
    else some accumulator

/-- The accumulator `HoughTransform` holds when its voting loops are over. -/
noncomputable def HoughTransform.accumulate (an_image : Image) : Option (List (List Int)) :=
  let row := an_image.GetNumberOfRows
  let column := an_image.GetNumberOfColumns
  (newAccumulator (HoughTransform.accu_row row column) HoughTransform.accu_col).bind
    fun accumulator =>
      forLoop row (fun y accumulator =>
        forLoop column (fun x accumulator => HoughTransform.pixelVotes an_image y x accumulator)
          accumulator) accumulator

/-- The method `void AllocateSpaceAndSetSize(size_t num_rows, size_t num_columns)`; the
new storage is not initialised. -/
def Image.AllocateSpaceAndSetSize (img : Image) (num_rows num_columns : Nat) : Image :=
  { img with num_rows_ := num_rows, num_columns_ := num_columns }

/-- The default constructor `Image()`. -/
def Image.empty : Image := ⟨0, 0, 0, fun _ _ => 0⟩

/-- The visualisation grid that `main` of `h3.cc` prepares for `an_image`:
`_accu_h = sqrt((row*row) + (column*column))`, `_accu_w = 360`, allocation of
`_accu_h x _accu_w` pixels (which throws for a negative height) and a
gray-level ceiling of 255. -/
def h3.hough_image (an_image : Image) : Option Image :=
  let row := an_image.GetNumberOfRows
  let column := an_image.GetNumberOfColumns
  let _accu_h : Int :=
    sqrtToInt (wrap32 (wrap32 ((row : Int) * (row : Int)) + wrap32 ((column : Int) * (column : Int))))
  let _accu_w : Int := 360
  if _accu_h < 0 then none
  else some ((Image.empty.AllocateSpaceAndSetSize _accu_h.toNat _accu_w.toNat).SetNumberGrayLevels 255)

/-- The entry `accumulator[r][t]` of a well-shaped accumulator, 0 outside it. -/
def cellAt (accumulator : List (List Int)) (r t : Nat) : Int :=
  (accumulator.getD r []).getD t 0

/-- An accumulator has `rows` lines of `cols` cells each. -/
def Shaped (accumulator : List (List Int)) (rows cols : Nat) : Prop :=
  accumulator.length = rows ∧ ∀ line ∈ accumulator, line.length = cols

/-- Whether the pixel at column `x`, row `y` of `g` casts a vote into cell
`(rho, t)`: it is non-zero, its radius for bin `t` is non-negative and
truncates to `rho`. -/
noncomputable def votesFor (g : Image) (rho t y x : Nat) : Nat :=
  if g.pixels_ y x ≠ 0 ∧ 0 ≤ HoughTransform.radius x y t ∧
    ⌊HoughTransform.radius x y t⌋₊ = rho then 1 else 0

/-- The number of non-zero pixels of `g` whose radius for bin `t` is
non-negative and truncates to `rho`. -/
noncomputable def voteCount (g : Image) (rho t : Nat) : Nat :=
  ∑ y ∈ Finset.range g.num_rows_, ∑ x ∈ Finset.range g.num_columns_, votesFor g rho t y x

/-- A 1 x 1 grid holding 0. -/
def gridZero : Image := ⟨1, 1, 1, fun _ _ => 0⟩

/-- The votes for cell `(rho, t)` cast by the pixels that `HoughTransform` has
visited when its loops stand at row `i`, column `j`. -/
noncomputable def votesBefore (g : Image) (rho t i j : Nat) : Nat :=
  (∑ y ∈ Finset.range i, ∑ x ∈ Finset.range g.num_columns_, votesFor g rho t y x) +
    ∑ x ∈ Finset.range j, votesFor g rho t i x

/-- The count the specification describes for cell `(rho, t)`: the number of
non-zero pixels of `g` whose radius for bin `t` is non-negative and rounds to
`rho` (nearest integer). -/
noncomputable def roundedVoteCount (g : Image) (rho t : Nat) : Nat :=
  ∑ y ∈ Finset.range g.num_rows_, ∑ x ∈ Finset.range g.num_columns_,
    if g.pixels_ y x ≠ 0 ∧ 0 ≤ HoughTransform.radius x y t ∧
      round (HoughTransform.radius x y t) = (rho : Int) then 1 else 0

/-- A grid of 1 row and 2 columns, both pixels set to 1. -/
def gridPair : Image := ⟨1, 2, 1, fun _ _ => 1⟩

/-! ## The accumulator text (`HoughTransform`, second part) -/

/-- The decimal digits of a natural number, most significant first. -/
def showNat (n : Nat) : List Char :=
  if n < 10 then [Nat.digitChar n] else showNat (n / 10) ++ [Nat.digitChar (n % 10)]

/-- The characters `output_file << v` writes for an `int` `v`. -/
def showInt (v : Int) : List Char :=
  if v < 0 then '-' :: showNat v.natAbs else showNat v.natAbs

/-- The body of the output loops of `HoughTransform` at `(y, x)`:
`hough_image->SetPixel(y, x, accumulator[y][x]);`
`output_file << accumulator[y][x] << " ";`.
The state is the visualisation grid and the text written so far. -/
def HoughTransform.emit (accumulator : List (List Int)) (y x : Nat)
    (st : Image × List Char) : Option (Image × List Char) :=
  (readCell accumulator y x).bind fun v =>
    (st.1.SetPixel y x v).map fun img => (img, st.2 ++ showInt v ++ [' '])

/-- The function
`void HoughTransform(Image *an_image, Image *hough_image, std::ostream &output_file)`;
the result is the visualisation grid and the text sent to `output_file`. -/
noncomputable def HoughTransform (an_image hough_image : Image) : Option (Image × List Char) :=
  let row := an_image.GetNumberOfRows
  let column := an_image.GetNumberOfColumns
  let accu_row := HoughTransform.accu_row row column
  let accu_col := HoughTransform.accu_col
  (HoughTransform.accumulate an_image).bind fun accumulator =>
    (forLoop accu_row.toNat (fun y st =>
        forLoop accu_col.toNat (fun x st => HoughTransform.emit accumulator y x st) st)
      (hough_image, showInt accu_row ++ [' '] ++ showInt accu_col ++ ['\n'])).map
      fun st => (st.1, st.2 ++ ['\n'])

/-! ## Reading the accumulator text (`DrawDetectedLines`, first part) -/

/-- An input stream: the characters not yet read and whether the stream is
still good (neither `eofbit` nor `failbit` is set). -/
structure IStream where
  buf : List Char
  good : Bool
  deriving DecidableEq

/-- The call `getline(stream, line)`: on a stream that is not good nothing is read and
`line` keeps its value; otherwise the characters up to the next newline are
stored and the newline is dropped.  Reaching the end of the input sets
`eofbit` (and `failbit` when nothing at all was read). -/
def getline (s : IStream) (line : List Char) : IStream × List Char :=
  if s.good then
    match s.buf.dropWhile (fun c => c ≠ '\n') with
    | [] => ({ buf := [], good := false }, s.buf.takeWhile (fun c => c ≠ '\n'))
    | _ :: rest => ({ buf := rest, good := true }, s.buf.takeWhile (fun c => c ≠ '\n'))
  else (s, line)

/-- The white space `operator>>` skips (`isspace` in the "C" locale). -/
def isSpace (c : Char) : Bool :=
  c = ' ' ∨ c = '\t' ∨ c = '\n' ∨ c = '\r' ∨ c.toNat = 11 ∨ c.toNat = 12

/-- The value of a run of decimal digits. -/
def digitsValue (ds : List Char) : Nat :=
  ds.foldl (fun a d => 10 * a + (d.toNat - 48)) 0

/-- The extraction `stream >> value` for an `int`: the stream afterwards and the value stored
in the variable, `none` when the variable is left untouched.  A stream that
is not good, or that ends while white space is skipped, stores nothing.
Otherwise an optional sign and the following digits are consumed; without a
digit 0 is stored and the stream fails; a value outside the `int` range is
stored clamped and the stream fails; consuming the last character of the
input sets `eofbit`. -/
def extractInt (s : IStream) : IStream × Option Int :=
  if s.good then
    let rest := s.buf.dropWhile isSpace
    if rest = [] then ({ buf := [], good := false }, none)
    else
      let neg : Bool := rest.head? = some '-'
      let body := if rest.head? = some '-' ∨ rest.head? = some '+' then rest.tail else rest
      let digits := body.takeWhile Char.isDigit
      let after := body.dropWhile Char.isDigit
      if digits = [] then ({ buf := after, good := false }, some 0)
      else
        let z : Int := if neg then -(digitsValue digits : Int) else (digitsValue digits : Int)
        if z > 2147483647 then ({ buf := after, good := false }, some 2147483647)
        else if z < -2147483648 then ({ buf := after, good := false }, some (-2147483648))
        else ({ buf := after, good := !after.isEmpty }, some z)
  else (s, none)

/-- The body of the loops that fill the accumulator at `(i, j)`:
`int token; number_stream >> token; accumulator[i][j] = token;`.
`indet` stands for the indeterminate value of `token` when the extraction
stores nothing. -/
def DrawDetectedLines.fill (indet : Int) (i j : Nat) (st : IStream × List (List Int)) :
    Option (IStream × List (List Int)) :=
  (writeCell st.2 i j ((extractInt st.1).2.getD indet)).map fun accumulator =>
    ((extractInt st.1).1, accumulator)

/-- The part of `DrawDetectedLines` that rebuilds the accumulator from the
content `file` of the voting-array file: the header line gives `accu_row` and
`accu_col`, the second line the cells.  The result is
`(accu_row, accu_col, accumulator)`.  `indet` stands for the indeterminate
value of an `int` that is read before anything was stored in it. -/
def DrawDetectedLines.readAccumulator (indet : Int) (file : List Char) :
    Option (Int × Int × List (List Int)) :=
  let first := getline { buf := file, good := true } []
  let header : IStream := { buf := first.2, good := true }
  let accu_row := (extractInt header).2.getD indet
  let accu_col := (extractInt (extractInt header).1).2.getD indet
  (newAccumulator accu_row accu_col).bind fun accumulator =>
    let second := getline first.1 first.2
    (forLoop accu_row.toNat (fun i st =>
        forLoop accu_col.toNat (fun j st => DrawDetectedLines.fill indet i j st) st)
      ({ buf := second.2, good := true }, accumulator)).map
      fun st => (accu_row, accu_col, st.2)

/-- The text of one accumulator cell: its decimal form and a blank. -/
def cellText (v : Int) : List Char := showInt v ++ [' ']

/-- The text of one accumulator line: its cells from left to right. -/
def lineText (ln : List Int) : List Char := ln.flatMap cellText

/-- A value of type `int`. -/
def IsInt32 (v : Int) : Prop := -2147483648 ≤ v ∧ v < 2147483648

/-- Every cell of an accumulator is a value of type `int`. -/
def Int32Cells (accumulator : List (List Int)) : Prop :=
  ∀ ln ∈ accumulator, ∀ v ∈ ln, IsInt32 v

/-- A visualisation grid of 1 row and 360 columns, as `h3.cc` allocates for a
1 x 1 image. -/
def houghOne : Image := ⟨1, 360, 255, fun _ _ => 0⟩

/-! ## Peak extraction (`DrawDetectedLines`, second part) -/

/-- The state of the local-maximum search: the variable `max` and whether
`ly = lx = 5` has been executed, which ends both loops of the search. -/
structure Scan where
  max : Int
  stopped : Bool
  deriving DecidableEq

/-- The body of the loops over `ly` and `lx` (both from -4 to 4) for the
candidate cell `(r, t)`:
`if ((ly+r>=0 && ly+r<accu_row) && (lx+t>=0 && lx+t<accu_col))`
`  if (accumulator[ly+r][lx+t] > max) { max = accumulator[ly+r][lx+t]; ly = lx = 5; }`. -/
def DrawDetectedLines.probe (accumulator : List (List Int)) (accu_row accu_col : Int)
    (r t : Nat) (ly lx : Int) (s : Scan) : Option Scan :=
  if s.stopped then some s
  else if (ly + r ≥ 0 ∧ ly + r < accu_row) ∧ (lx + t ≥ 0 ∧ lx + t < accu_col) then
    (readCell accumulator (toSizeT (ly + r)) (toSizeT (lx + t))).map fun v =>
      if v > s.max then { max := v, stopped := true } else s
  else some s

/-- The local-maximum search around `(r, t)`, started with `max = start`. -/
def DrawDetectedLines.scan (accumulator : List (List Int)) (accu_row accu_col : Int)
    (r t : Nat) (start : Int) : Option Scan :=
  forLoop 9 (fun ky s =>
      forLoop 9 (fun kx s =>
        DrawDetectedLines.probe accumulator accu_row accu_col r t ((ky : Int) - 4)
          ((kx : Int) - 4) s) s)
    { max := start, stopped := false }

/-- The body of the loops over `r` and `t`: a cell at or above the threshold
is searched for a strictly greater neighbour; without one, the segment
computed for `(r, t)` is appended to `lines`.  `segment r t` stands for the
pair of end points computed by the back-projection. -/
def DrawDetectedLines.visit {α : Type} (segment : Nat → Nat → α)
    (accumulator : List (List Int)) (accu_row accu_col threshold_value : Int) (r t : Nat)
    (lines : List α) : Option (List α) :=
  (readCell accumulator r t).bind fun v =>
    if v ≥ threshold_value then
      (DrawDetectedLines.scan accumulator accu_row accu_col r t v).map fun s =>
        if s.max > v then lines else lines ++ [segment r t]
    else some lines

/-- The vector `lines` at the end of the loops over the accumulator. -/
def DrawDetectedLines.detect {α : Type} (segment : Nat → Nat → α)
    (accumulator : List (List Int)) (accu_row accu_col threshold_value : Int) :
    Option (List α) :=
  forLoop accu_row.toNat (fun r lines =>
      forLoop accu_col.toNat (fun t lines =>
        DrawDetectedLines.visit segment accumulator accu_row accu_col threshold_value r t lines)
        lines)
    []

/-- Some cell of the window `r-4..r+4`, `t-4..t+4`, clipped to an accumulator
of `rows x cols` cells, holds a count strictly greater than that of `(r, t)`. -/
def Dominated (accumulator : List (List Int)) (rows cols r t : Nat) : Prop :=
  ∃ ly lx : Int, -4 ≤ ly ∧ ly ≤ 4 ∧ -4 ≤ lx ∧ lx ≤ 4 ∧
    0 ≤ ly + r ∧ ly + r < rows ∧ 0 ≤ lx + t ∧ lx + t < cols ∧
    cellAt accumulator (ly + r).toNat (lx + t).toNat > cellAt accumulator r t

/-- The cell `(r, t)` of a `rows x cols` accumulator is at or above the
threshold and no cell of its clipped window is strictly greater. -/
def IsPeak (accumulator : List (List Int)) (rows cols : Nat) (threshold_value : Int)
    (r t : Nat) : Prop :=
  r < rows ∧ t < cols ∧ cellAt accumulator r t ≥ threshold_value ∧
    ¬ Dominated accumulator rows cols r t

/-- A 2 x 2 accumulator with a plateau of two equal maxima. -/
def accuPlateau : List (List Int) := [[5, 5], [1, 7]]

/-- A grid of 65536 rows and 1 column whose only non-zero pixel is at row 1. -/
def gridTall : Image := ⟨65536, 1, 1, fun a _ => if a = 1 then 1 else 0⟩

/-! ## The line rasteriser (`DrawLine`) -/

/-- The constant `DIR_X` of `DrawLine`. -/
def DrawLine.DIR_X : Int := 0

/-- The constant `DIR_Y` of `DrawLine`. -/
def DrawLine.DIR_Y : Int := 1

/-- The variables of `DrawLine` that are fixed before the scan starts. -/
structure DrawLine.Setup where
  dir : Int
  mpCase : Int
  xmin : Int
  ymin : Int
  xmax : Int
  ymax : Int
  d : Int
  incrE : Int
  incrNE : Int
  incrSE : Int
  deriving DecidableEq

/-- The running variables `x`, `y` and `d` of the scan. -/
structure DrawLine.Vars where
  x : Int
  y : Int
  d : Int
  deriving DecidableEq

/-- The part of `DrawLine` before `/// Start the scan.`: with
`dx = x1 - x0`, `dy = y1 - y0`, a horizontal scan is chosen when
`dx * dx > dy * dy`, a vertical one otherwise; the end points are exchanged
when the scan would run backwards (`SWAP` on both coordinates), the deltas are
recomputed, and the case and the increments of the midpoint algorithm are
set.  All `int` operations wrap. -/
def DrawLine.setup (x0 y0 x1 y1 : Int) : DrawLine.Setup :=
  if wrap32 (wrap32 (x1 - x0) * wrap32 (x1 - x0)) > wrap32 (wrap32 (y1 - y0) * wrap32 (y1 - y0)) then
    let xmin := if x1 < x0 then x1 else x0
    let xmax := if x1 < x0 then x0 else x1
    let ymin := if x1 < x0 then y1 else y0
    let ymax := if x1 < x0 then y0 else y1
    let dx := wrap32 (xmax - xmin)
    let dy := wrap32 (ymax - ymin)
    DrawLine.Setup.mk DrawLine.DIR_X (if dy ≥ 0 then 1 else 2) xmin ymin xmax ymax
      (if dy ≥ 0 then wrap32 (wrap32 (2 * dy) - dx) else wrap32 (wrap32 (2 * dy) + dx))
      (wrap32 (2 * dy)) (wrap32 (2 * wrap32 (dy - dx))) (wrap32 (2 * wrap32 (dy + dx)))
  else
    let xmin := if y1 < y0 then x1 else x0
    let xmax := if y1 < y0 then x0 else x1
    let ymin := if y1 < y0 then y1 else y0
    let ymax := if y1 < y0 then y0 else y1
    let dx := wrap32 (xmax - xmin)
    let dy := wrap32 (ymax - ymin)
    DrawLine.Setup.mk DrawLine.DIR_Y (if dx ≥ 0 then 1 else 2) xmin ymin xmax ymax
      (if dx ≥ 0 then wrap32 (wrap32 (2 * dx) - dy) else wrap32 (wrap32 (2 * dx) + dy))
      (wrap32 (2 * dx)) (wrap32 (2 * wrap32 (dx - dy))) (wrap32 (2 * wrap32 (dx + dy)))

/-- The test that keeps the scan going after a pixel is written:
`x < xmax` in a horizontal scan, `y < ymax` in a vertical one. -/
def DrawLine.more (s : DrawLine.Setup) (v : DrawLine.Vars) : Bool :=
  if s.dir = DrawLine.DIR_X then decide (v.x < s.xmax) else decide (v.y < s.ymax)

/-- The block `// Move to the next point.` when the scan goes on: the
`switch` on `dir` and on `mpCase` with the test `d <= 0`. -/
def DrawLine.next (s : DrawLine.Setup) (v : DrawLine.Vars) : DrawLine.Vars :=
  if s.dir = DrawLine.DIR_X then
    if s.mpCase = 1 then
      if v.d ≤ 0 then DrawLine.Vars.mk (wrap32 (v.x + 1)) v.y (wrap32 (v.d + s.incrE))
      else DrawLine.Vars.mk (wrap32 (v.x + 1)) (wrap32 (v.y + 1)) (wrap32 (v.d + s.incrNE))
    else
      if v.d ≤ 0 then DrawLine.Vars.mk (wrap32 (v.x + 1)) (wrap32 (v.y - 1)) (wrap32 (v.d + s.incrSE))
      else DrawLine.Vars.mk (wrap32 (v.x + 1)) v.y (wrap32 (v.d + s.incrE))
  else
    if s.mpCase = 1 then
      if v.d ≤ 0 then DrawLine.Vars.mk v.x (wrap32 (v.y + 1)) (wrap32 (v.d + s.incrE))
      else DrawLine.Vars.mk (wrap32 (v.x + 1)) (wrap32 (v.y + 1)) (wrap32 (v.d + s.incrNE))
    else
      if v.d ≤ 0 then DrawLine.Vars.mk (wrap32 (v.x - 1)) (wrap32 (v.y + 1)) (wrap32 (v.d + s.incrSE))
      else DrawLine.Vars.mk v.x (wrap32 (v.y + 1)) (wrap32 (v.d + s.incrE))

/-- The loop `while (!done)` of `DrawLine`, run for at most `fuel`
iterations: `SetPixel(x, y, color)`, then either the move to the next point or
`done = 1`.  The result is `none` when the fuel runs out, `some none` when
`SetPixel` aborts and `some (some img)` when the loop ends with the image
`img`. -/
def DrawLine.loop (fuel : Nat) (s : DrawLine.Setup) (color : Int) (v : DrawLine.Vars)
    (img : Image) : Option (Option Image) :=
  match fuel with
  | 0 => none
  | fuel + 1 =>
    match img.SetPixel (toSizeT v.x) (toSizeT v.y) color with
    | none => some none
    | some img' =>
      if DrawLine.more s v then DrawLine.loop fuel s color (DrawLine.next s v) img'
      else some (some img')

/-- A number of iterations that is enough for the loop: one more than the
distance between the start and the end of the scan on its dominant axis. -/
def DrawLine.fuel (s : DrawLine.Setup) : Nat :=
  if s.dir = DrawLine.DIR_X then (s.xmax - s.xmin).toNat + 1 else (s.ymax - s.ymin).toNat + 1

/-- The function `void DrawLine(int x0, int y0, int x1, int y1, int color, Image *an_image)`. -/
def DrawLine (x0 y0 x1 y1 color : Int) (an_image : Image) : Option Image :=
  (DrawLine.loop (DrawLine.fuel (DrawLine.setup x0 y0 x1 y1)) (DrawLine.setup x0 y0 x1 y1) color
    (DrawLine.Vars.mk (DrawLine.setup x0 y0 x1 y1).xmin (DrawLine.setup x0 y0 x1 y1).ymin
      (DrawLine.setup x0 y0 x1 y1).d) an_image).join

/-- The points the loop of `DrawLine` passes to `SetPixel`, in order, when no
call aborts. -/
def DrawLine.trace (fuel : Nat) (s : DrawLine.Setup) (v : DrawLine.Vars) : List (Int × Int) :=
  match fuel with
  | 0 => []
  | fuel + 1 =>
    (v.x, v.y) :: (if DrawLine.more s v then DrawLine.trace fuel s (DrawLine.next s v) else [])

/-- The points `DrawLine(x0, y0, x1, y1, ...)` passes to `SetPixel`. -/
def DrawLine.points (x0 y0 x1 y1 : Int) : List (Int × Int) :=
  DrawLine.trace (DrawLine.fuel (DrawLine.setup x0 y0 x1 y1)) (DrawLine.setup x0 y0 x1 y1)
    (DrawLine.Vars.mk (DrawLine.setup x0 y0 x1 y1).xmin (DrawLine.setup x0 y0 x1 y1).ymin
      (DrawLine.setup x0 y0 x1 y1).d)

/-- The calls `SetPixel(x, y, color)` for a list of points, in order, up to
the first one that aborts. -/
def drawPoints (color : Int) (pts : List (Int × Int)) (img : Image) : Option Image :=
  match pts with
  | [] => some img
  | p :: rest => (img.SetPixel (toSizeT p.1) (toSizeT p.2) color).bind (drawPoints color rest)

/-- The point `(x, y)`, passed to `SetPixel` as row `x` and column `y`, is
inside the grid. -/
def InGrid (img : Image) (x y : Int) : Prop :=
  0 ≤ x ∧ x < img.num_rows_ ∧ 0 ≤ y ∧ y < img.num_columns_

/-- The running variables with the roles of `x` and `y` exchanged. -/
def DrawLine.Vars.flip (v : DrawLine.Vars) : DrawLine.Vars := DrawLine.Vars.mk v.y v.x v.d

/-- The fixed variables with the roles of `x` and `y` exchanged: a vertical
scan becomes a horizontal one and conversely. -/
def DrawLine.Setup.flip (s : DrawLine.Setup) : DrawLine.Setup :=
  DrawLine.Setup.mk (if s.dir = DrawLine.DIR_X then DrawLine.DIR_Y else DrawLine.DIR_X) s.mpCase
    s.ymin s.xmin s.ymax s.xmax s.d s.incrE s.incrNE s.incrSE

/-- The state of the scan after `k` moves from the state `v`. -/
def DrawLine.state (s : DrawLine.Setup) (v : DrawLine.Vars) (k : Nat) : DrawLine.Vars :=
  match k with
  | 0 => v
  | k + 1 => DrawLine.next s (DrawLine.state s v k)

/-- The fixed variables describe a horizontal scan over `a + 1` columns with
minor delta `b`, computed without overflow: `a = xmax - xmin`,
`b = ymax - ymin`, `|b| ≤ a ≤ 46340`, and the case, the start value of `d` and
the increments have their exact values. -/
def DrawLine.Exact (s : DrawLine.Setup) (a b : Int) : Prop :=
  s.dir = DrawLine.DIR_X ∧ s.xmax - s.xmin = a ∧ s.ymax - s.ymin = b ∧
  0 ≤ a ∧ a ≤ 46340 ∧ -a ≤ b ∧ b ≤ a ∧
  IsInt32 s.xmin ∧ IsInt32 s.xmax ∧ IsInt32 s.ymin ∧ IsInt32 s.ymax ∧
  s.mpCase = (if b ≥ 0 then 1 else 2) ∧
  s.d = (if b ≥ 0 then 2 * b - a else 2 * b + a) ∧
  s.incrE = 2 * b ∧ s.incrNE = 2 * (b - a) ∧ s.incrSE = 2 * (b + a)

/-- A 5 x 5 grid of zeros. -/
def gridFive : Image := ⟨5, 5, 255, fun _ _ => 0⟩

/-! ## Back-projection and drawing (`DrawDetectedLines`, third part) -/

/-- Conversion of a `double` to `int`: truncation towards zero.  The values
converted by `DrawDetectedLines` are bounded by a small multiple of the sizes
of the image and of the accumulator, so the conversion is taken exactly. -/
noncomputable def truncToInt (z : ℝ) : Int := if 0 ≤ z then ⌊z⌋ else ⌈z⌉

/-- The `int` obtained from the quotient `num / den` of two `double`s.  With a
divisor that is exactly zero the quotient is infinite or NaN and its
conversion is not defined by the language; the value produced on x86-64,
`INT_MIN`, is used (as in `sqrtToInt`). -/
noncomputable def divToInt (num den : ℝ) : Int :=
  if den = 0 then -2147483648 else truncToInt (num / den)

/-- The test `(t >= 45 && t <= 135) || (t >= 225 && t <= 315)` that selects
the branch dividing by `sin(t * theta)`. -/
def DrawDetectedLines.sinBranch (t : Nat) : Prop :=
  (t ≥ 45 ∧ t ≤ 135) ∨ (t ≥ 225 ∧ t ≤ 315)

instance (t : Nat) : Decidable (DrawDetectedLines.sinBranch t) := by
  unfold DrawDetectedLines.sinBranch; infer_instance

/-- The two end points `((x1, y1), (x2, y2))` that `DrawDetectedLines`
computes for the peak `(r, t)` with `theta = pi/360`: in the branch selected
by `sinBranch`, `x1 = 0`, `y1 = (r - x1*cos(t*theta)) / sin(t*theta)`,
`x2 = column`, `y2 = (r - x2*cos(t*theta)) / sin(t*theta)`; otherwise
`y1 = 0`, `x1 = (r - y1*sin(t*theta)) / cos(t*theta)`, `y2 = row`,
`x2 = (r - y2*sin(t*theta)) / cos(t*theta)`.  The trigonometric functions are
exact. -/
noncomputable def DrawDetectedLines.segment (row column : Nat) (r t : Nat) :
    (Int × Int) × (Int × Int) :=
  if DrawDetectedLines.sinBranch t then
    (((0 : Int),
      divToInt ((r : ℝ) - ((0 : Int) : ℝ) * Real.cos ((t : ℝ) * (Real.pi / 360)))
        (Real.sin ((t : ℝ) * (Real.pi / 360)))),
     ((column : Int),
      divToInt ((r : ℝ) - ((column : Int) : ℝ) * Real.cos ((t : ℝ) * (Real.pi / 360)))
        (Real.sin ((t : ℝ) * (Real.pi / 360)))))
  else
    ((divToInt ((r : ℝ) - ((0 : Int) : ℝ) * Real.sin ((t : ℝ) * (Real.pi / 360)))
        (Real.cos ((t : ℝ) * (Real.pi / 360))),
      (0 : Int)),
     (divToInt ((r : ℝ) - ((row : Int) : ℝ) * Real.sin ((t : ℝ) * (Real.pi / 360)))
        (Real.cos ((t : ℝ) * (Real.pi / 360))),
      (row : Int)))

/-- The divisor the back-projection uses for angle bin `t`. -/
noncomputable def DrawDetectedLines.divisor (t : Nat) : ℝ :=
  if DrawDetectedLines.sinBranch t then Real.sin ((t : ℝ) * (Real.pi / 360))
  else Real.cos ((t : ℝ) * (Real.pi / 360))

/-- The function `abs` on `int`; `abs(INT_MIN)` wraps. -/
def absInt (z : Int) : Int := wrap32 |z|

/-- The body of the loop that draws the computed lines, for one element
`((x1, y1), (x2, y2))` of `lines`: a `y` coordinate whose absolute value
exceeds `column` is replaced by `column`, and the segment between the
absolute values of the coordinates is drawn with colour 255. -/
def DrawDetectedLines.draw (column : Int) (ln : (Int × Int) × (Int × Int)) (img : Image) :
    Option Image :=
  if absInt ln.1.2 > column then
    DrawLine (absInt ln.1.1) column (absInt ln.2.1) (absInt ln.2.2) 255 img
  else if absInt ln.2.2 > column then
    DrawLine (absInt ln.1.1) (absInt ln.1.2) (absInt ln.2.1) column 255 img
  else if absInt ln.2.2 > column ∧ absInt ln.1.1 > column then
    DrawLine (absInt ln.1.1) column (absInt ln.2.1) column 255 img
  else
    DrawLine (absInt ln.1.1) (absInt ln.1.2) (absInt ln.2.1) (absInt ln.2.2) 255 img

/-- The loop over `lines` that draws every segment, in order. -/
def DrawDetectedLines.drawAll (column : Int) (lines : List ((Int × Int) × (Int × Int)))
    (img : Image) : Option Image :=
  match lines with
  | [] => some img
  | ln :: rest => (DrawDetectedLines.draw column ln img).bind (DrawDetectedLines.drawAll column rest)

/-- The function
`void DrawDetectedLines(const string input_hough_voting_array, int threshold_value, Image *an_image)`.
The argument `file` is the content of the file named by
`input_hough_voting_array`, `none` when it cannot be opened (`exit(1)`);
`indet` is the value of an `int` read before anything was stored in it. -/
noncomputable def DrawDetectedLines (indet : Int) (file : Option (List Char))
    (threshold_value : Int) (an_image : Image) : Option Image :=
  let row := an_image.GetNumberOfRows
  let column := an_image.GetNumberOfColumns
  file.bind fun text =>
    (DrawDetectedLines.readAccumulator indet text).bind fun acc =>
      (DrawDetectedLines.detect (DrawDetectedLines.segment row column) acc.2.2 acc.1 acc.2.1
        threshold_value).bind fun lines =>
        DrawDetectedLines.drawAll column lines an_image

/-! ## Grids used in the examples -/

/-- The 5 x 5 grid whose pixels `(k, k)` are 1 and all others 0. -/
def gridDiag : Image := ⟨5, 5, 1, fun a b => if a = b then 1 else 0⟩

/-- The radius bin into which the diagonal pixel `(k, k)` votes at angle bin 90. -/
def diagBin (k : Nat) : Nat := [0, 1, 2, 4, 5].getD k 0

/-- A 3 x 3 grid with gray-level ceiling 255 whose last column holds 255 and
whose other pixels are 0. -/
def gridEdge : Image := ⟨3, 3, 255, fun _ b => if b = 2 then 255 else 0⟩

/-- A grid of 1 row and 2 columns holding zeros. -/
def gridWide : Image := ⟨1, 2, 255, fun _ _ => 0⟩

/-- A grid of 50001 rows and 2 columns, all zero. -/
def gridLong : Image := ⟨50001, 2, 255, fun _ _ => 0⟩

/-- The number of non-zero pixels of a grid. -/
def nonZeroPixels (g : Image) : Nat :=
  ∑ y ∈ Finset.range g.num_rows_, ∑ x ∈ Finset.range g.num_columns_,
    if g.pixels_ y x ≠ 0 then 1 else 0

/-- The sum over all radius indices of `accumulator[rho][t]`. -/
def columnSum (accumulator : List (List Int)) (t : Nat) : Int :=
  (accumulator.map fun ln => ln.getD t 0).sum

/-- A square grid of 65536 rows and 65536 columns, all zero. -/
def gridHuge : Image := ⟨65536, 65536, 255, fun _ _ => 0⟩

/-! ## Theorems -/

/-- Loop invariant rule for `forLoop`: an invariant that holds initially and
is carried by every iteration (which then does not fault) holds at the end,
and the loop does not fault. -/
theorem forLoop_inv {σ : Type} (P : Nat → σ → Prop) (n : Nat)
    (body : Nat → σ → Option σ) (s : σ) (h0 : P 0 s)
    (hstep : ∀ k st, k < n → P k st → ∃ st', body k st = some st' ∧ P (k + 1) st') :
    ∃ st', forLoop n body s = some st' ∧ P n st' := by
  induction n with
  | zero => exact ⟨s, rfl, h0⟩
  | succ k ih =>
    obtain ⟨st, hst, hP⟩ := ih (fun j st hj hp => hstep j st (Nat.lt_succ_of_lt hj) hp)
    obtain ⟨st', hst', hP'⟩ := hstep k st (Nat.lt_succ_self k) hP
    exact ⟨st', by simp [forLoop, hst, hst'], hP'⟩

/-- One row of `ConvertToBinary`: the inner loop over the columns of row `i`
does not fault and rewrites exactly the cells of that row. -/
theorem ConvertToBinary_row (t : Int) (g img : Image) (i : Nat) (hi : i < g.num_rows_)
    (hr : img.num_rows_ = g.num_rows_) (hc : img.num_columns_ = g.num_columns_)
    (hg : img.num_gray_levels_ = g.num_gray_levels_)
    (hp : ∀ a b, img.pixels_ a b =
      if a < i ∧ b < g.num_columns_ then binarise t (g.pixels_ a b) else g.pixels_ a b) :
    ∃ im, forLoop g.num_columns_ (fun j im => ConvertToBinary.step t i j im) img = some im ∧
      im.num_rows_ = g.num_rows_ ∧ im.num_columns_ = g.num_columns_ ∧
      im.num_gray_levels_ = g.num_gray_levels_ ∧
      ∀ a b, im.pixels_ a b =
        if a < i + 1 ∧ b < g.num_columns_ then binarise t (g.pixels_ a b) else g.pixels_ a b := by
  have inner := forLoop_inv
    (fun j (im : Image) => im.num_rows_ = g.num_rows_ ∧ im.num_columns_ = g.num_columns_ ∧
      im.num_gray_levels_ = g.num_gray_levels_ ∧
      ∀ a b, im.pixels_ a b =
        if (a < i ∧ b < g.num_columns_) ∨ (a = i ∧ b < j)
        then binarise t (g.pixels_ a b) else g.pixels_ a b)
    g.num_columns_ (fun j im => ConvertToBinary.step t i j im) img
    ⟨hr, hc, hg, fun a b => by simp [hp a b]⟩
  have step : ∀ k st, k < g.num_columns_ →
      (st.num_rows_ = g.num_rows_ ∧ st.num_columns_ = g.num_columns_ ∧
        st.num_gray_levels_ = g.num_gray_levels_ ∧
        ∀ a b, st.pixels_ a b =
          if (a < i ∧ b < g.num_columns_) ∨ (a = i ∧ b < k)
          then binarise t (g.pixels_ a b) else g.pixels_ a b) →
      ∃ st', ConvertToBinary.step t i k st = some st' ∧
        (st'.num_rows_ = g.num_rows_ ∧ st'.num_columns_ = g.num_columns_ ∧
        st'.num_gray_levels_ = g.num_gray_levels_ ∧
        ∀ a b, st'.pixels_ a b =
          if (a < i ∧ b < g.num_columns_) ∨ (a = i ∧ b < k + 1)
          then binarise t (g.pixels_ a b) else g.pixels_ a b) := by
    intro j im hj h
    obtain ⟨hr', hc', hg', hp'⟩ := h
    have hcell : im.pixels_ i j = g.pixels_ i j := by
      rw [hp' i j]; simp
    have hin : ¬ (i ≥ im.num_rows_ ∨ j ≥ im.num_columns_) := by
      rw [hr', hc']; omega
    have hget : im.GetPixel i j = some (g.pixels_ i j) := by
      simp only [Image.GetPixel, hin, if_false, hcell]
    refine ⟨{ im with pixels_ := fun a b =>
        if a = i ∧ b = j then binarise t (g.pixels_ i j) else im.pixels_ a b }, ?_, hr', hc', hg', ?_⟩
    · simp only [ConvertToBinary.step, hget, Option.some_bind, Image.SetPixel, hin,
        if_false, binarise]
      split <;> rfl
    · intro a b
      simp only [hp' a b]
      split_ifs with h1 h2 h3 h4 h5 <;>
        first
          | rfl
          | (obtain ⟨rfl, rfl⟩ := h1; rfl)
          | (exfalso; omega)
  obtain ⟨im, him, hr', hc', hg', hp'⟩ := inner step
  refine ⟨im, him, hr', hc', hg', ?_⟩
  intro a b
  rw [hp' a b]
  have : ((a < i ∧ b < g.num_columns_) ∨ (a = i ∧ b < g.num_columns_)) ↔
      (a < i + 1 ∧ b < g.num_columns_) := by omega
  simp only [this]

/-- Full description of the result of `ConvertToBinary`: it never faults,
keeps the dimensions, sets the gray-level ceiling to 1 and rewrites exactly
the cells inside the grid. -/
theorem ConvertToBinary_result (t : Int) (g : Image) :
    ConvertToBinary t g = some
      { num_rows_ := g.num_rows_, num_columns_ := g.num_columns_, num_gray_levels_ := 1,
        pixels_ := fun a b =>
          if a < g.num_rows_ ∧ b < g.num_columns_ then binarise t (g.pixels_ a b)
          else g.pixels_ a b } := by
  have outer := forLoop_inv
    (fun i (img : Image) => img.num_rows_ = g.num_rows_ ∧ img.num_columns_ = g.num_columns_ ∧
      img.num_gray_levels_ = g.num_gray_levels_ ∧
      ∀ a b, img.pixels_ a b =
        if a < i ∧ b < g.num_columns_ then binarise t (g.pixels_ a b) else g.pixels_ a b)
    g.num_rows_
    (fun i img => forLoop g.num_columns_ (fun j img => ConvertToBinary.step t i j img) img)
    g ⟨rfl, rfl, rfl, fun a b => by simp⟩
  have step : ∀ k st, k < g.num_rows_ →
      (st.num_rows_ = g.num_rows_ ∧ st.num_columns_ = g.num_columns_ ∧
        st.num_gray_levels_ = g.num_gray_levels_ ∧
        ∀ a b, st.pixels_ a b =
          if a < k ∧ b < g.num_columns_ then binarise t (g.pixels_ a b) else g.pixels_ a b) →
      ∃ st', forLoop g.num_columns_ (fun j img => ConvertToBinary.step t k j img) st = some st' ∧
        (st'.num_rows_ = g.num_rows_ ∧ st'.num_columns_ = g.num_columns_ ∧
        st'.num_gray_levels_ = g.num_gray_levels_ ∧
        ∀ a b, st'.pixels_ a b =
          if a < k + 1 ∧ b < g.num_columns_ then binarise t (g.pixels_ a b)
          else g.pixels_ a b) := by
    intro k st hk h
    exact ConvertToBinary_row t g st k hk h.1 h.2.1 h.2.2.1 h.2.2.2
  obtain ⟨img, himg, hr, hc, hg, hp⟩ := outer step
  simp only [ConvertToBinary, Image.GetNumberOfRows, Image.GetNumberOfColumns, himg,
    Option.map_some', Image.SetNumberGrayLevels]
  congr 1
  cases img
  simp only at hr hc hg hp
  subst hr hc
  simp only [Image.mk.injEq, true_and]
  funext a b
  exact hp a b

/-- C1. For every grid `g` and threshold `t`, `ConvertToBinary t g` completes
and yields a grid with the same number of rows and columns, gray-level
ceiling 1, in which every pixel reads 0 when the original value `v` at that
position satisfies `v ≤ t` and 1 otherwise. -/
theorem ConvertToBinary_spec (t : Int) (g : Image) :
    ∃ g', ConvertToBinary t g = some g' ∧
      g'.num_rows_ = g.num_rows_ ∧ g'.num_columns_ = g.num_columns_ ∧
      g'.num_gray_levels_ = 1 ∧
      ∀ i j v, g.GetPixel i j = some v →
        g'.GetPixel i j = some (if v ≤ t then 0 else 1) := by
  refine ⟨_, ConvertToBinary_result t g, rfl, rfl, rfl, ?_⟩
  intro i j v hv
  unfold Image.GetPixel at hv ⊢
  by_cases h : i ≥ g.num_rows_ ∨ j ≥ g.num_columns_
  · simp [h] at hv
  · have h' : i < g.num_rows_ ∧ j < g.num_columns_ := by omega
    simp only [h, if_false, Option.some.injEq] at hv
    simp only [h, if_false, h', and_self, if_true, binarise, hv]

/-- C2, as stated, fails: on the 1 x 1 grid holding 2 with threshold 1, one
pass of `ConvertToBinary` leaves pixel (0,0) at 1 and a second pass with the
same threshold turns it into 0. -/
theorem ConvertToBinary_twice_differs :
    (ConvertToBinary 1 gridOne).bind (fun g1 => g1.GetPixel 0 0) = some 1 ∧
    ((ConvertToBinary 1 gridOne).bind (ConvertToBinary 1)).bind
      (fun g2 => g2.GetPixel 0 0) = some 0 := by
  decide

/-- C2, amended. For a threshold `t ≥ 0`, binarising the output of
`ConvertToBinary t g` again with the same threshold gives the same grid
(pixels, dimensions and gray-level ceiling) exactly when `t = 0` or no pixel
of `g` exceeds `t`; in particular binarisation at threshold 0 is idempotent. -/
theorem ConvertToBinary_idempotent_iff (t : Int) (g : Image) (ht : 0 ≤ t) :
    (ConvertToBinary t g).bind (ConvertToBinary t) = ConvertToBinary t g ↔
      (t = 0 ∨ ∀ i j, i < g.num_rows_ → j < g.num_columns_ → g.pixels_ i j ≤ t) := by
  rw [ConvertToBinary_result t g, Option.some_bind, ConvertToBinary_result]
  simp only [Option.some.injEq, Image.mk.injEq, true_and]
  constructor
  · intro h
    by_cases h0 : t = 0
    · exact Or.inl h0
    · right
      intro i j hi hj
      have := congrFun (congrFun h i) j
      simp only [hi, hj, and_self, if_true, binarise] at this
      by_contra hgt
      simp only [hgt, if_false] at this
      have h1 : (1 : Int) ≤ t := by omega
      simp [h1] at this
  · intro h
    funext a b
    by_cases hab : a < g.num_rows_ ∧ b < g.num_columns_
    · simp only [hab, and_self, if_true, binarise]
      rcases h with h | h
      · subst h
        split <;> simp
      · have := h a b hab.1 hab.2
        simp [this, ht]
    · simp only [hab, if_false]

/-- Witness for C2 (amended): threshold 0 on the 1 x 1 grid holding 2. -/
theorem ConvertToBinary_idempotent_iff_witness :
    (0 : Int) ≤ 0 ∧
    ((ConvertToBinary 0 gridOne).bind (ConvertToBinary 0) = ConvertToBinary 0 gridOne ↔
      ((0 : Int) = 0 ∨ ∀ i j, i < gridOne.num_rows_ → j < gridOne.num_columns_ →
        gridOne.pixels_ i j ≤ 0)) :=
  ⟨le_refl 0, ConvertToBinary_idempotent_iff 0 gridOne (le_refl 0)⟩

/-- C5. On a `rows x cols` grid, `SetPixel i j v` and `GetPixel i j` fault
exactly when `i ≥ rows` or `j ≥ cols`; when `SetPixel i j v` succeeds, reading
`(i, j)` back gives `v`, every other position reads as before, and the
dimensions and the gray-level ceiling are unchanged. -/
theorem SetPixel_GetPixel_spec (g : Image) (i j : Nat) (v : Int) :
    (g.SetPixel i j v = none ↔ (i ≥ g.num_rows_ ∨ j ≥ g.num_columns_)) ∧
    (g.GetPixel i j = none ↔ (i ≥ g.num_rows_ ∨ j ≥ g.num_columns_)) ∧
    ∀ g', g.SetPixel i j v = some g' →
      g'.GetPixel i j = some v ∧
      (∀ a b, ¬ (a = i ∧ b = j) → g'.GetPixel a b = g.GetPixel a b) ∧
      g'.num_rows_ = g.num_rows_ ∧ g'.num_columns_ = g.num_columns_ ∧
      g'.num_gray_levels_ = g.num_gray_levels_ := by
  unfold Image.SetPixel Image.GetPixel
  by_cases h : i ≥ g.num_rows_ ∨ j ≥ g.num_columns_
  · simp [h]
  · simp only [h, if_false, iff_false, not_false_eq_true, Option.some.injEq, true_and,
      reduceCtorEq]
    intro g' hg'
    subst hg'
    simp only [h, if_false, and_self, if_true, and_true, true_and]
    intro a b hab
    simp only [hab, if_false]

/-- Invariant rule for two nested `forLoop`s over a `rows x cols` index grid.
`P i j st` reads: the rows before `i` are done and so are the first `j`
columns of row `i`. -/
theorem forLoop_nested_inv {σ : Type} (P : Nat → Nat → σ → Prop) (rows cols : Nat)
    (body : Nat → Nat → σ → Option σ) (s : σ) (h0 : P 0 0 s)
    (hrow : ∀ i st, i < rows → P i cols st → P (i + 1) 0 st)
    (hstep : ∀ i j st, i < rows → j < cols → P i j st →
      ∃ st', body i j st = some st' ∧ P i (j + 1) st') :
    ∃ st', forLoop rows (fun i st => forLoop cols (fun j st => body i j st) st) s = some st' ∧
      P rows 0 st' := by
  apply forLoop_inv (fun i st => P i 0 st) rows _ s h0
  intro i st hi hP
  obtain ⟨st', hst', hP'⟩ :=
    forLoop_inv (fun j st => P i j st) cols (fun j st => body i j st) st hP
      (fun j st hj hp => hstep i j st hi hj hp)
  exact ⟨st', hst', hrow i st' hi hP'⟩

theorem wrap32_id (z : Int) (h1 : -2147483648 ≤ z) (h2 : z < 2147483648) : wrap32 z = z := by
  unfold wrap32; omega

theorem wrap32_zero : wrap32 0 = 0 := by decide

theorem toSizeT_natCast_add (i k : Nat) (h : 1 ≤ i) :
    toSizeT ((i : Int) + ((k : Int) - 1)) = i + k - 1 := by
  unfold toSizeT
  have : (0 : Int) ≤ (i : Int) + ((k : Int) - 1) := by omega
  simp only [this, if_true]
  omega

/-- On the outer ring a tap reads 0 and leaves sums that are 0 at 0. -/
theorem LocateEdges.tap_border (g : Image) (rows cols i j : Nat) (x y : Int)
    (hb : i = 0 ∨ (i : Int) = (rows : Int) - 1 ∨ j = 0 ∨ (j : Int) = (cols : Int) - 1) :
    LocateEdges.tap g rows cols i j x y (0, 0) = some (0, 0) := by
  have hb' : (i : Int) = 0 ∨ (i : Int) = (rows : Int) - 1 ∨ (j : Int) = 0 ∨
      (j : Int) = (cols : Int) - 1 := by omega
  unfold LocateEdges.tap
  rw [if_pos hb']
  simp only [Option.map_some', zero_mul, wrap32_zero, add_zero]

/-- On the outer ring every tap reads 0, so both convolution sums are 0. -/
theorem LocateEdges.convolve_border (g : Image) (rows cols i j : Nat)
    (hb : i = 0 ∨ (i : Int) = (rows : Int) - 1 ∨ j = 0 ∨ (j : Int) = (cols : Int) - 1) :
    LocateEdges.convolve g rows cols i j = some (0, 0) := by
  simp only [LocateEdges.convolve, forLoop, LocateEdges.tap_border g rows cols i j _ _ hb,
    Option.some_bind]

/-- One tap at an interior pixel reads the neighbour inside the grid. -/
theorem LocateEdges.tap_interior (g : Image) (i j kx ky : Nat) (conv : Int × Int)
    (hi : 1 ≤ i) (hi' : i + 1 < g.num_rows_) (hj : 1 ≤ j) (hj' : j + 1 < g.num_columns_)
    (hkx : kx < 3) (hky : ky < 3) :
    LocateEdges.tap g g.num_rows_ g.num_columns_ i j ((kx : Int) - 1) ((ky : Int) - 1) conv =
      some (wrap32 (conv.1 + wrap32 (g.pixels_ (i + kx - 1) (j + ky - 1) * kernelAt sobel_x kx ky)),
            wrap32 (conv.2 + wrap32 (g.pixels_ (i + kx - 1) (j + ky - 1) * kernelAt sobel_y kx ky))) := by
  have hb : ¬ ((i : Int) = 0 ∨ (i : Int) = (g.num_rows_ : Int) - 1 ∨ (j : Int) = 0 ∨
      (j : Int) = (g.num_columns_ : Int) - 1) := by omega
  have hin : ¬ (i + kx - 1 ≥ g.num_rows_ ∨ j + ky - 1 ≥ g.num_columns_) := by omega
  have h1 : (1 + ((kx : Int) - 1)).toNat = kx := by omega
  have h2 : (1 + ((ky : Int) - 1)).toNat = ky := by omega
  simp only [LocateEdges.tap, hb, if_false, toSizeT_natCast_add i kx hi,
    toSizeT_natCast_add j ky hj, Image.GetPixel, hin, Option.map_some', h1, h2]

/-- At an interior pixel all nine taps succeed. -/
theorem LocateEdges.convolve_interior_some (g : Image) (i j : Nat)
    (hi : 1 ≤ i) (hi' : i + 1 < g.num_rows_) (hj : 1 ≤ j) (hj' : j + 1 < g.num_columns_) :
    ∃ conv, LocateEdges.convolve g g.num_rows_ g.num_columns_ i j = some conv := by
  simp only [LocateEdges.convolve, forLoop, Option.some_bind,
    LocateEdges.tap_interior g i j 0 0 _ hi hi' hj hj' (by decide) (by decide),
    LocateEdges.tap_interior g i j 0 1 _ hi hi' hj hj' (by decide) (by decide),
    LocateEdges.tap_interior g i j 0 2 _ hi hi' hj hj' (by decide) (by decide),
    LocateEdges.tap_interior g i j 1 0 _ hi hi' hj hj' (by decide) (by decide),
    LocateEdges.tap_interior g i j 1 1 _ hi hi' hj hj' (by decide) (by decide),
    LocateEdges.tap_interior g i j 1 2 _ hi hi' hj hj' (by decide) (by decide),
    LocateEdges.tap_interior g i j 2 0 _ hi hi' hj hj' (by decide) (by decide),
    LocateEdges.tap_interior g i j 2 1 _ hi hi' hj hj' (by decide) (by decide),
    LocateEdges.tap_interior g i j 2 2 _ hi hi' hj hj' (by decide) (by decide)]
  exact ⟨_, rfl⟩

/-- At an interior pixel whose 3 x 3 neighbourhood holds values of absolute
value at most 8191, no tap overflows and the two sums are the exact weighted
sums of the neighbourhood. -/
theorem LocateEdges.convolve_interior_exact (g : Image) (i j : Nat)
    (hi : 1 ≤ i) (hi' : i + 1 < g.num_rows_) (hj : 1 ≤ j) (hj' : j + 1 < g.num_columns_)
    (hpix : ∀ a b, a < g.num_rows_ → b < g.num_columns_ →
      -8191 ≤ g.pixels_ a b ∧ g.pixels_ a b ≤ 8191) :
    LocateEdges.convolve g g.num_rows_ g.num_columns_ i j =
      some (neighbourhoodSum sobel_x g i j, neighbourhoodSum sobel_y g i j) := by
  simp only [LocateEdges.convolve, forLoop, Option.some_bind,
    LocateEdges.tap_interior g i j 0 0 _ hi hi' hj hj' (by decide) (by decide),
    LocateEdges.tap_interior g i j 0 1 _ hi hi' hj hj' (by decide) (by decide),
    LocateEdges.tap_interior g i j 0 2 _ hi hi' hj hj' (by decide) (by decide),
    LocateEdges.tap_interior g i j 1 0 _ hi hi' hj hj' (by decide) (by decide),
    LocateEdges.tap_interior g i j 1 1 _ hi hi' hj hj' (by decide) (by decide),
    LocateEdges.tap_interior g i j 1 2 _ hi hi' hj hj' (by decide) (by decide),
    LocateEdges.tap_interior g i j 2 0 _ hi hi' hj hj' (by decide) (by decide),
    LocateEdges.tap_interior g i j 2 1 _ hi hi' hj hj' (by decide) (by decide),
    LocateEdges.tap_interior g i j 2 2 _ hi hi' hj hj' (by decide) (by decide)]
  have k00 : kernelAt sobel_x 0 0 = -1 := rfl
  have k01 : kernelAt sobel_x 0 1 = 0 := rfl
  have k02 : kernelAt sobel_x 0 2 = 1 := rfl
  have k10 : kernelAt sobel_x 1 0 = -2 := rfl
  have k11 : kernelAt sobel_x 1 1 = 0 := rfl
  have k12 : kernelAt sobel_x 1 2 = 2 := rfl
  have k20 : kernelAt sobel_x 2 0 = -1 := rfl
  have k21 : kernelAt sobel_x 2 1 = 0 := rfl
  have k22 : kernelAt sobel_x 2 2 = 1 := rfl
  have l00 : kernelAt sobel_y 0 0 = -1 := rfl
  have l01 : kernelAt sobel_y 0 1 = -2 := rfl
  have l02 : kernelAt sobel_y 0 2 = -1 := rfl
  have l10 : kernelAt sobel_y 1 0 = 0 := rfl
  have l11 : kernelAt sobel_y 1 1 = 0 := rfl
  have l12 : kernelAt sobel_y 1 2 = 0 := rfl
  have l20 : kernelAt sobel_y 2 0 = 1 := rfl
  have l21 : kernelAt sobel_y 2 1 = 2 := rfl
  have l22 : kernelAt sobel_y 2 2 = 1 := rfl
  simp only [neighbourhoodSum, Finset.sum_range_succ, Finset.sum_range_zero, zero_add,
    k00, k01, k02, k10, k11, k12, k20, k21, k22, l00, l01, l02, l10, l11, l12, l20, l21, l22]
  have p00 := hpix (i + 0 - 1) (j + 0 - 1) (by omega) (by omega)
  have p01 := hpix (i + 0 - 1) (j + 1 - 1) (by omega) (by omega)
  have p02 := hpix (i + 0 - 1) (j + 2 - 1) (by omega) (by omega)
  have p10 := hpix (i + 1 - 1) (j + 0 - 1) (by omega) (by omega)
  have p11 := hpix (i + 1 - 1) (j + 1 - 1) (by omega) (by omega)
  have p12 := hpix (i + 1 - 1) (j + 2 - 1) (by omega) (by omega)
  have p20 := hpix (i + 2 - 1) (j + 0 - 1) (by omega) (by omega)
  have p21 := hpix (i + 2 - 1) (j + 1 - 1) (by omega) (by omega)
  have p22 := hpix (i + 2 - 1) (j + 2 - 1) (by omega) (by omega)
  generalize g.pixels_ (i + 0 - 1) (j + 0 - 1) = q00 at *
  generalize g.pixels_ (i + 0 - 1) (j + 1 - 1) = q01 at *
  generalize g.pixels_ (i + 0 - 1) (j + 2 - 1) = q02 at *
  generalize g.pixels_ (i + 1 - 1) (j + 0 - 1) = q10 at *
  generalize g.pixels_ (i + 1 - 1) (j + 1 - 1) = q11 at *
  generalize g.pixels_ (i + 1 - 1) (j + 2 - 1) = q12 at *
  generalize g.pixels_ (i + 2 - 1) (j + 0 - 1) = q20 at *
  generalize g.pixels_ (i + 2 - 1) (j + 1 - 1) = q21 at *
  generalize g.pixels_ (i + 2 - 1) (j + 2 - 1) = q22 at *
  simp (disch := omega) only [wrap32_id]
  simp only [Option.some.injEq, Prod.mk.injEq]
  constructor <;> ring

/-- Inside the grid the convolution at `(i, j)` never faults. -/
theorem LocateEdges.convolve_some (g : Image) (i j : Nat)
    (hi : i < g.num_rows_) (hj : j < g.num_columns_) :
    ∃ conv, LocateEdges.convolve g g.num_rows_ g.num_columns_ i j = some conv := by
  by_cases hb : i = 0 ∨ (i : Int) = (g.num_rows_ : Int) - 1 ∨ j = 0 ∨
      (j : Int) = (g.num_columns_ : Int) - 1
  · exact ⟨_, LocateEdges.convolve_border g _ _ i j hb⟩
  · exact LocateEdges.convolve_interior_some g i j (by omega) (by omega) (by omega) (by omega)

/-- Full description of the result of `LocateEdges`: it never faults, keeps
the dimensions and the gray-level ceiling, stores at every position inside
the grid the magnitude of the convolution sums computed from the input grid,
and leaves the storage outside the grid alone. -/
theorem LocateEdges_result (g : Image) :
    ∃ g', LocateEdges g = some g' ∧
      g'.num_rows_ = g.num_rows_ ∧ g'.num_columns_ = g.num_columns_ ∧
      g'.num_gray_levels_ = g.num_gray_levels_ ∧
      ∀ a b, g'.pixels_ a b =
        if a < g.num_rows_ ∧ b < g.num_columns_ then
          ((LocateEdges.convolve g g.num_rows_ g.num_columns_ a b).map
            LocateEdges.magnitude).getD 0
        else g.pixels_ a b := by
  obtain ⟨sums, hsums, hP⟩ := forLoop_nested_inv
    (fun i j (sums : LocateEdges.Sums) => ∀ a b,
      ((a < i ∧ b < g.num_columns_) ∨ (a = i ∧ b < j)) →
        LocateEdges.convolve g g.num_rows_ g.num_columns_ a b =
          some (sums.image_x a b, sums.image_y a b))
    g.num_rows_ g.num_columns_
    (fun i j sums => LocateEdges.store g g.num_rows_ g.num_columns_ i j sums)
    { image_x := fun _ _ => 0, image_y := fun _ _ => 0 }
    (fun a b h => by omega)
    (fun i st _ h a b hab => h a b (by omega))
    (by
      intro i j st hi hj h
      obtain ⟨conv, hconv⟩ := LocateEdges.convolve_some g i j hi hj
      refine ⟨_, by simp only [LocateEdges.store, hconv, Option.map_some']; rfl, ?_⟩
      intro a b hab
      by_cases hij : a = i ∧ b = j
      · obtain ⟨rfl, rfl⟩ := hij
        simp only [and_self, if_true, hconv]
      · simp only [hij, if_false]
        exact h a b (by omega))
  obtain ⟨g', hg', hr, hc, hgl, hpix⟩ := forLoop_nested_inv
    (fun i j (img : Image) => img.num_rows_ = g.num_rows_ ∧
      img.num_columns_ = g.num_columns_ ∧ img.num_gray_levels_ = g.num_gray_levels_ ∧
      ∀ a b, img.pixels_ a b =
        if (a < i ∧ b < g.num_columns_) ∨ (a = i ∧ b < j)
        then LocateEdges.magnitude (sums.image_x a b, sums.image_y a b) else g.pixels_ a b)
    g.num_rows_ g.num_columns_
    (fun i j img => LocateEdges.write sums i j img) g
    ⟨rfl, rfl, rfl, fun a b => by simp⟩
    (by
      intro i st _ h
      refine ⟨h.1, h.2.1, h.2.2.1, fun a b => ?_⟩
      rw [h.2.2.2 a b]
      have : ((a < i ∧ b < g.num_columns_) ∨ (a = i ∧ b < g.num_columns_)) ↔
          ((a < i + 1 ∧ b < g.num_columns_) ∨ (a = i + 1 ∧ b < 0)) := by omega
      simp only [this])
    (by
      intro i j st hi hj h
      obtain ⟨hr, hc, hgl, hp⟩ := h
      have hin : ¬ (i ≥ st.num_rows_ ∨ j ≥ st.num_columns_) := by
        rw [hr, hc]; omega
      refine ⟨{ st with pixels_ := fun a b =>
          if a = i ∧ b = j then LocateEdges.magnitude (sums.image_x i j, sums.image_y i j)
          else st.pixels_ a b }, ?_, hr, hc, hgl, ?_⟩
      · simp only [LocateEdges.write, Image.SetPixel, hin, if_false, LocateEdges.magnitude]
      intro a b
      simp only [hp a b]
      split_ifs with h1 h2 h3 h4 h5 <;>
        first
          | rfl
          | (obtain ⟨rfl, rfl⟩ := h1; rfl)
          | (exfalso; omega))
  refine ⟨g', ?_, hr, hc, hgl, ?_⟩
  · simp only [LocateEdges, Image.GetNumberOfRows, Image.GetNumberOfColumns, hsums,
      Option.some_bind, hg']
  · intro a b
    rw [hpix a b]
    by_cases hab : a < g.num_rows_ ∧ b < g.num_columns_
    · have h1 : (a < g.num_rows_ ∧ b < g.num_columns_) ∨ (a = g.num_rows_ ∧ b < 0) :=
        Or.inl hab
      rw [if_pos h1, if_pos hab, hP a b h1]
      rfl
    · have h1 : ¬ ((a < g.num_rows_ ∧ b < g.num_columns_) ∨ (a = g.num_rows_ ∧ b < 0)) := by
        omega
      rw [if_neg h1, if_neg hab]

theorem LocateEdges.magnitude_zero : LocateEdges.magnitude (0, 0) = 0 := by
  simp [LocateEdges.magnitude, wrap32_zero, sqrtToInt]

/-- The magnitude stored for exact sums that are small enough not to overflow
is the integer part of the real square root of the sum of their squares. -/
theorem LocateEdges.magnitude_exact (gx gy : Int)
    (hx : -32764 ≤ gx ∧ gx ≤ 32764) (hy : -32764 ≤ gy ∧ gy ≤ 32764) :
    LocateEdges.magnitude (gx, gy) = ⌊Real.sqrt (((gx ^ 2 + gy ^ 2 : Int) : Real))⌋ := by
  have h1 : 0 ≤ gx * gx := mul_self_nonneg gx
  have h2 : 0 ≤ gy * gy := mul_self_nonneg gy
  have h3 : gx * gx ≤ 1073479696 := by nlinarith [hx.1, hx.2]
  have h4 : gy * gy ≤ 1073479696 := by nlinarith [hy.1, hy.2]
  have e1 : wrap32 (gx * gx) = gx * gx := wrap32_id _ (by omega) (by omega)
  have e2 : wrap32 (gy * gy) = gy * gy := wrap32_id _ (by omega) (by omega)
  have e3 : wrap32 (gx * gx + gy * gy) = gx * gx + gy * gy := wrap32_id _ (by omega) (by omega)
  have h5 : (0 : Int) ≤ gx * gx + gy * gy := by omega
  simp only [LocateEdges.magnitude, e1, e2, e3, sqrtToInt, h5, if_true]
  have e4 : ((gx ^ 2 + gy ^ 2 : Int) : Real) = (((gx * gx + gy * gy).toNat : Nat) : Real) := by
    have : (((gx * gx + gy * gy).toNat : Nat) : Int) = gx * gx + gy * gy := Int.toNat_of_nonneg h5
    have h6 : ((((gx * gx + gy * gy).toNat : Nat) : Int) : Real) = ((gx * gx + gy * gy : Int) : Real) := by
      rw [this]
    rw [Int.cast_natCast] at h6
    rw [h6]
    push_cast
    ring
  rw [e4, Real.floor_real_sqrt_eq_nat_sqrt]

/-- C3. For every grid with at least 3 rows and 3 columns, whatever its
content, `LocateEdges` completes and every pixel on the outer ring (row 0,
row `rows-1`, column 0, column `cols-1`) of the result is exactly 0. -/
theorem LocateEdges_border_zero (g : Image) (hrows : 3 ≤ g.num_rows_)
    (hcols : 3 ≤ g.num_columns_) :
    ∃ g', LocateEdges g = some g' ∧
      g'.num_rows_ = g.num_rows_ ∧ g'.num_columns_ = g.num_columns_ ∧
      ∀ i j, i < g.num_rows_ → j < g.num_columns_ →
        (i = 0 ∨ i = g.num_rows_ - 1 ∨ j = 0 ∨ j = g.num_columns_ - 1) →
        g'.GetPixel i j = some 0 := by
  obtain ⟨g', hg', hr, hc, _, hp⟩ := LocateEdges_result g
  refine ⟨g', hg', hr, hc, ?_⟩
  intro i j hi hj hb
  have hin : ¬ (i ≥ g'.num_rows_ ∨ j ≥ g'.num_columns_) := by
    rw [hr, hc]; omega
  have hb' : i = 0 ∨ (i : Int) = (g.num_rows_ : Int) - 1 ∨ j = 0 ∨
      (j : Int) = (g.num_columns_ : Int) - 1 := by omega
  simp only [Image.GetPixel, hin, if_false, hp i j, hi, hj, and_self, if_true,
    LocateEdges.convolve_border g _ _ i j hb', Option.map_some', Option.getD_some,
    LocateEdges.magnitude_zero]

/-- Witness for C3: the 3 x 3 grid `gridCorner`. -/
theorem LocateEdges_border_zero_witness :
    ∃ g', LocateEdges gridCorner = some g' ∧
      g'.num_rows_ = gridCorner.num_rows_ ∧ g'.num_columns_ = gridCorner.num_columns_ ∧
      ∀ i j, i < gridCorner.num_rows_ → j < gridCorner.num_columns_ →
        (i = 0 ∨ i = gridCorner.num_rows_ - 1 ∨ j = 0 ∨ j = gridCorner.num_columns_ - 1) →
        g'.GetPixel i j = some 0 :=
  LocateEdges_border_zero gridCorner (by decide) (by decide)

theorem gridCorner_pixels (a b : Nat) :
    -4095 ≤ gridCorner.pixels_ a b ∧ gridCorner.pixels_ a b ≤ 4095 := by
  unfold gridCorner
  simp only
  split <;> omega

theorem gridCorner_sums :
    neighbourhoodSum sobel_x gridCorner 1 1 = 2 ∧ neighbourhoodSum sobel_y gridCorner 1 1 = 2 := by
  decide

/-- C4, as stated, fails: on the 3 x 3 grid that holds 2 at (2, 2) and 0
elsewhere the sums at the interior pixel (1, 1) are `gx = gy = 2`, the root
of `gx^2 + gy^2 = 8` rounds to 3, and `LocateEdges` stores 2. -/
theorem LocateEdges_not_rounded :
    (LocateEdges gridCorner).bind (fun g' => g'.GetPixel 1 1) = some 2 ∧
    round (Real.sqrt (((neighbourhoodSum sobel_x gridCorner 1 1 ^ 2 +
      neighbourhoodSum sobel_y gridCorner 1 1 ^ 2 : Int) : Real))) = 3 := by
  constructor
  · obtain ⟨g', hg', hr, hc, _, hp⟩ := LocateEdges_result gridCorner
    have hconv := LocateEdges.convolve_interior_exact gridCorner 1 1 (by decide) (by decide)
      (by decide) (by decide)
      (fun a b _ _ => ⟨by linarith [(gridCorner_pixels a b).1],
        by linarith [(gridCorner_pixels a b).2]⟩)
    rw [gridCorner_sums.1, gridCorner_sums.2] at hconv
    have hin : ¬ (1 ≥ g'.num_rows_ ∨ 1 ≥ g'.num_columns_) := by
      rw [hr, hc]; decide
    have h11 : (1 < gridCorner.num_rows_ ∧ 1 < gridCorner.num_columns_) := by decide
    have hs : Nat.sqrt 8 = 2 := by norm_num [Nat.sqrt]
    have h8 : Int.toNat 8 = 8 := rfl
    have hm : LocateEdges.magnitude (2, 2) = 2 := by
      simp only [LocateEdges.magnitude]
      norm_num [wrap32, sqrtToInt, h8, hs]
    rw [hg', Option.some_bind]
    simp only [Image.GetPixel, hin, if_false, hp 1 1, h11, and_self, if_true, hconv,
      Option.map_some', Option.getD_some, hm]
  · rw [gridCorner_sums.1, gridCorner_sums.2, round_eq, Int.floor_eq_iff]
    have h1 : (2.5 : ℝ) ≤ Real.sqrt 8 := by
      apply Real.le_sqrt_of_sq_le; norm_num
    have h2 : Real.sqrt 8 < 3 := by
      rw [Real.sqrt_lt' (by norm_num)]; norm_num
    norm_num
    constructor <;> linarith

/-- C4, amended. For every grid whose pixel values lie in [-4095, 4095] (so
that no `int` operation overflows) and every interior pixel `(i, j)`,
`LocateEdges` completes and the pixel it leaves at `(i, j)` is the square root
of `gx^2 + gy^2` truncated to an integer (not rounded to the nearest one),
where `gx` and `gy` are the sums of the 3 x 3 neighbourhood of `(i, j)` in the
input grid weighted by the kernels `sobel_x` and `sobel_y`, kernel rows
following image rows and kernel columns image columns. -/
theorem LocateEdges_interior_truncated (g : Image) (i j : Nat)
    (hpix : ∀ a b, a < g.num_rows_ → b < g.num_columns_ →
      -4095 ≤ g.pixels_ a b ∧ g.pixels_ a b ≤ 4095)
    (hi : 0 < i) (hi' : i + 1 < g.num_rows_) (hj : 0 < j) (hj' : j + 1 < g.num_columns_) :
    ∃ g', LocateEdges g = some g' ∧
      g'.GetPixel i j = some ⌊Real.sqrt (((neighbourhoodSum sobel_x g i j ^ 2 +
        neighbourhoodSum sobel_y g i j ^ 2 : Int) : Real))⌋ := by
  obtain ⟨g', hg', hr, hc, _, hp⟩ := LocateEdges_result g
  refine ⟨g', hg', ?_⟩
  have hconv := LocateEdges.convolve_interior_exact g i j hi hi' hj hj'
    (fun a b ha hb => ⟨by linarith [(hpix a b ha hb).1], by linarith [(hpix a b ha hb).2]⟩)
  have hin : ¬ (i ≥ g'.num_rows_ ∨ j ≥ g'.num_columns_) := by
    rw [hr, hc]; omega
  have hij : i < g.num_rows_ ∧ j < g.num_columns_ := by omega
  have bx : -32764 ≤ neighbourhoodSum sobel_x g i j ∧ neighbourhoodSum sobel_x g i j ≤ 32764 := by
    have p00 := hpix (i + 0 - 1) (j + 0 - 1) (by omega) (by omega)
    have p02 := hpix (i + 0 - 1) (j + 2 - 1) (by omega) (by omega)
    have p10 := hpix (i + 1 - 1) (j + 0 - 1) (by omega) (by omega)
    have p12 := hpix (i + 1 - 1) (j + 2 - 1) (by omega) (by omega)
    have p20 := hpix (i + 2 - 1) (j + 0 - 1) (by omega) (by omega)
    have p22 := hpix (i + 2 - 1) (j + 2 - 1) (by omega) (by omega)
    simp only [neighbourhoodSum, Finset.sum_range_succ, Finset.sum_range_zero, zero_add,
      kernelAt, sobel_x, List.getD_cons_zero, List.getD_cons_succ]
    constructor <;> omega
  have by' : -32764 ≤ neighbourhoodSum sobel_y g i j ∧ neighbourhoodSum sobel_y g i j ≤ 32764 := by
    have p00 := hpix (i + 0 - 1) (j + 0 - 1) (by omega) (by omega)
    have p01 := hpix (i + 0 - 1) (j + 1 - 1) (by omega) (by omega)
    have p02 := hpix (i + 0 - 1) (j + 2 - 1) (by omega) (by omega)
    have p20 := hpix (i + 2 - 1) (j + 0 - 1) (by omega) (by omega)
    have p21 := hpix (i + 2 - 1) (j + 1 - 1) (by omega) (by omega)
    have p22 := hpix (i + 2 - 1) (j + 2 - 1) (by omega) (by omega)
    simp only [neighbourhoodSum, Finset.sum_range_succ, Finset.sum_range_zero, zero_add,
      kernelAt, sobel_y, List.getD_cons_zero, List.getD_cons_succ]
    constructor <;> omega
  simp only [Image.GetPixel, hin, if_false, hp i j, hij, and_self, if_true, hconv,
    Option.map_some', Option.getD_some, LocateEdges.magnitude_exact _ _ bx by']

/-- Witness for C4 (amended): the interior pixel (1, 1) of `gridCorner`. -/
theorem LocateEdges_interior_truncated_witness :
    ∃ g', LocateEdges gridCorner = some g' ∧
      g'.GetPixel 1 1 = some ⌊Real.sqrt (((neighbourhoodSum sobel_x gridCorner 1 1 ^ 2 +
        neighbourhoodSum sobel_y gridCorner 1 1 ^ 2 : Int) : Real))⌋ :=
  LocateEdges_interior_truncated gridCorner 1 1 (fun a b _ _ => gridCorner_pixels a b)
    (by decide) (by decide) (by decide) (by decide)

/-- Cauchy-Schwarz for the voting radius: `r^2 ≤ x^2 + y^2`. -/
theorem HoughTransform.radius_sq_le (x y t : Nat) :
    HoughTransform.radius x y t ^ 2 ≤ (x : ℝ) ^ 2 + (y : ℝ) ^ 2 := by
  unfold HoughTransform.radius
  have h := Real.sin_sq_add_cos_sq ((t : ℝ) * (Real.pi / 360))
  nlinarith [sq_nonneg ((x : ℝ) * Real.sin ((t : ℝ) * (Real.pi / 360)) -
    (y : ℝ) * Real.cos ((t : ℝ) * (Real.pi / 360)))]

/-- The truncated radius of a pixel inside a `rows x cols` grid is below the
integer square root of `rows^2 + cols^2`. -/
theorem HoughTransform.index_lt (rows cols x y t : Nat) (hx : x < cols) (hy : y < rows) :
    ⌊HoughTransform.radius x y t⌋₊ < Nat.sqrt (rows * rows + cols * cols) := by
  by_cases hr : 0 ≤ HoughTransform.radius x y t
  · set m := ⌊HoughTransform.radius x y t⌋₊ with hm
    have h1 : (m : ℝ) ≤ HoughTransform.radius x y t := Nat.floor_le hr
    have h2 : (m : ℝ) ^ 2 ≤ (x : ℝ) ^ 2 + (y : ℝ) ^ 2 := by
      have := HoughTransform.radius_sq_le x y t
      have h0 : (0 : ℝ) ≤ (m : ℝ) := Nat.cast_nonneg m
      nlinarith
    have h3 : m * m ≤ x * x + y * y := by
      have : ((m * m : Nat) : ℝ) ≤ ((x * x + y * y : Nat) : ℝ) := by
        push_cast; nlinarith
      exact_mod_cast this
    have h4 : m ≤ x + y := by
      by_contra hlt
      push_neg at hlt
      nlinarith
    rw [Nat.lt_iff_add_one_le, Nat.le_sqrt]
    nlinarith
  · push_neg at hr
    rw [Nat.floor_of_nonpos hr.le]
    rw [Nat.lt_iff_add_one_le, Nat.le_sqrt]
    nlinarith

/-- When `row^2 + column^2` fits an `int`, `accu_row` is its integer square root. -/
theorem HoughTransform.accu_row_eq (rows cols : Nat)
    (h : rows * rows + cols * cols < 2147483648) :
    HoughTransform.accu_row rows cols = (Nat.sqrt (rows * rows + cols * cols) : Int) := by
  have h1 : (0 : Int) ≤ (rows : Int) * (rows : Int) := mul_self_nonneg _
  have h2 : (0 : Int) ≤ (cols : Int) * (cols : Int) := mul_self_nonneg _
  have h3 : (rows : Int) * (rows : Int) + (cols : Int) * (cols : Int) < 2147483648 := by
    exact_mod_cast h
  have e1 : wrap32 ((rows : Int) * (rows : Int)) = (rows : Int) * (rows : Int) :=
    wrap32_id _ (by omega) (by omega)
  have e2 : wrap32 ((cols : Int) * (cols : Int)) = (cols : Int) * (cols : Int) :=
    wrap32_id _ (by omega) (by omega)
  have e3 : wrap32 ((rows : Int) * (rows : Int) + (cols : Int) * (cols : Int)) =
      (rows : Int) * (rows : Int) + (cols : Int) * (cols : Int) :=
    wrap32_id _ (by omega) (by omega)
  have h4 : (0 : Int) ≤ (rows : Int) * (rows : Int) + (cols : Int) * (cols : Int) := by omega
  have e4 : ((rows : Int) * (rows : Int) + (cols : Int) * (cols : Int)).toNat =
      rows * rows + cols * cols := by
    have : (rows : Int) * (rows : Int) + (cols : Int) * (cols : Int) =
        ((rows * rows + cols * cols : Nat) : Int) := by push_cast; ring
    rw [this, Int.toNat_natCast]
  simp only [HoughTransform.accu_row, e1, e2, e3, sqrtToInt, h4, if_true, e4]

theorem Shaped.replicate (rows cols : Nat) :
    Shaped (List.replicate rows (List.replicate cols (0 : Int))) rows cols := by
  refine ⟨List.length_replicate _ _, ?_⟩
  intro ln hln
  rw [List.eq_of_mem_replicate hln, List.length_replicate]

theorem cellAt_replicate (rows cols r t : Nat) :
    cellAt (List.replicate rows (List.replicate cols (0 : Int))) r t = 0 := by
  unfold cellAt
  simp only [List.getD_eq_getElem?_getD, List.getElem?_replicate]
  by_cases hr : r < rows
  · by_cases ht : t < cols <;> simp [hr, ht]
  · simp [hr]

theorem Shaped.getElem?_line {acc : List (List Int)} {rows cols : Nat} (h : Shaped acc rows cols)
    {r : Nat} (hr : r < rows) : ∃ ln, acc[r]? = some ln ∧ ln.length = cols := by
  have hlt : r < acc.length := by rw [h.1]; exact hr
  exact ⟨acc[r], List.getElem?_eq_getElem hlt, h.2 _ (List.getElem_mem hlt)⟩

theorem readCell_shaped {acc : List (List Int)} {rows cols : Nat} (h : Shaped acc rows cols)
    {r t : Nat} (hr : r < rows) (ht : t < cols) : readCell acc r t = some (cellAt acc r t) := by
  obtain ⟨ln, hln, hlen⟩ := h.getElem?_line hr
  have htl : t < ln.length := by rw [hlen]; exact ht
  simp only [readCell, cellAt, hln, Option.some_bind, List.getD_eq_getElem?_getD,
    Option.getD_some, List.getElem?_eq_getElem htl]

theorem writeCell_shaped {acc : List (List Int)} {rows cols : Nat} (h : Shaped acc rows cols)
    {r t : Nat} (hr : r < rows) (ht : t < cols) (v : Int) :
    ∃ acc', writeCell acc r t v = some acc' ∧ Shaped acc' rows cols ∧
      ∀ a b, cellAt acc' a b = if a = r ∧ b = t then v else cellAt acc a b := by
  obtain ⟨ln, hln, hlen⟩ := h.getElem?_line hr
  have htl : t < ln.length := by rw [hlen]; exact ht
  have hlt : r < acc.length := by rw [h.1]; exact hr
  refine ⟨acc.set r (ln.set t v), ?_, ⟨?_, ?_⟩, ?_⟩
  · simp only [writeCell, hln, Option.some_bind, htl, if_true]
  · rw [List.length_set, h.1]
  · intro l hl
    rcases List.mem_or_eq_of_mem_set hl with hl | hl
    · exact h.2 l hl
    · rw [hl, List.length_set, hlen]
  · intro a b
    unfold cellAt
    simp only [List.getD_eq_getElem?_getD, List.getElem?_set]
    by_cases har : r = a
    · subst har
      simp only [hlt, if_true, Option.getD_some, hln, true_and]
      by_cases hbt : t = b
      · subst hbt
        simp [htl]
      · have : ¬ b = t := fun hh => hbt hh.symm
        simp [hbt, this]
    · have : ¬ a = r := fun hh => har hh.symm
      simp [har, this]

theorem incrCell_shaped {acc : List (List Int)} {rows cols : Nat} (h : Shaped acc rows cols)
    {r t : Nat} (hr : r < rows) (ht : t < cols) :
    ∃ acc', incrCell acc r t = some acc' ∧ Shaped acc' rows cols ∧
      ∀ a b, cellAt acc' a b =
        if a = r ∧ b = t then wrap32 (cellAt acc a b + 1) else cellAt acc a b := by
  obtain ⟨acc', h1, h2, h3⟩ := writeCell_shaped h hr ht (wrap32 (cellAt acc r t + 1))
  refine ⟨acc', ?_, h2, ?_⟩
  · simp only [incrCell, readCell_shaped h hr ht, Option.some_bind, h1]
  · intro a b
    rw [h3 a b]
    by_cases hab : a = r ∧ b = t
    · obtain ⟨rfl, rfl⟩ := hab
      simp
    · simp [hab]

theorem votesFor_le_one (g : Image) (rho t y x : Nat) : votesFor g rho t y x ≤ 1 := by
  unfold votesFor
  split <;> omega

theorem votesBefore_le (g : Image) (rho t i j : Nat) :
    votesBefore g rho t i j ≤ i * g.num_columns_ + j := by
  unfold votesBefore
  have h1 : ∑ y ∈ Finset.range i, ∑ x ∈ Finset.range g.num_columns_, votesFor g rho t y x ≤
      ∑ _y ∈ Finset.range i, ∑ _x ∈ Finset.range g.num_columns_, 1 :=
    Finset.sum_le_sum fun y _ => Finset.sum_le_sum fun x _ => votesFor_le_one g rho t y x
  have h2 : ∑ x ∈ Finset.range j, votesFor g rho t i x ≤ ∑ _x ∈ Finset.range j, 1 :=
    Finset.sum_le_sum fun x _ => votesFor_le_one g rho t i x
  simp only [Finset.sum_const, Finset.card_range, smul_eq_mul, mul_one] at h1 h2
  omega

theorem votesBefore_succ (g : Image) (rho t i j : Nat) :
    votesBefore g rho t i (j + 1) = votesBefore g rho t i j + votesFor g rho t i j := by
  unfold votesBefore
  rw [Finset.sum_range_succ]
  omega

theorem votesBefore_row (g : Image) (rho t i : Nat) :
    votesBefore g rho t (i + 1) 0 = votesBefore g rho t i g.num_columns_ := by
  unfold votesBefore
  rw [Finset.sum_range_succ, Finset.sum_range_zero]
  omega

/-- The 360 votes of a non-zero pixel at row `i`, column `j`: none leaves the
accumulator, and each cell gains the vote the pixel has for it. -/
theorem HoughTransform.votes_of_pixel (g : Image) (i j : Nat) (acc : List (List Int))
    (hov : g.num_rows_ * g.num_rows_ + g.num_columns_ * g.num_columns_ < 2147483648)
    (hi : i < g.num_rows_) (hj : j < g.num_columns_) (hp : g.pixels_ i j ≠ 0)
    (hS : Shaped acc (Nat.sqrt (g.num_rows_ * g.num_rows_ + g.num_columns_ * g.num_columns_)) 360)
    (hc : ∀ rho t, t < 360 → cellAt acc rho t = (votesBefore g rho t i j : Int)) :
    ∃ acc', forLoop 360 (fun t acc => HoughTransform.vote j i t acc) acc = some acc' ∧
      Shaped acc' (Nat.sqrt (g.num_rows_ * g.num_rows_ + g.num_columns_ * g.num_columns_)) 360 ∧
      ∀ rho t, t < 360 → cellAt acc' rho t = (votesBefore g rho t i (j + 1) : Int) := by
  have hbound : i * g.num_columns_ + j + 1 < 2147483648 := by
    have h1 : (i + 1) * g.num_columns_ ≤ g.num_rows_ * g.num_columns_ :=
      Nat.mul_le_mul_right _ hi
    nlinarith [sq_nonneg ((g.num_rows_ : Int) - (g.num_columns_ : Int))]
  obtain ⟨acc', h1, h2, h3⟩ := forLoop_inv
    (fun k (a : List (List Int)) =>
      Shaped a (Nat.sqrt (g.num_rows_ * g.num_rows_ + g.num_columns_ * g.num_columns_)) 360 ∧
      ∀ rho t, t < 360 → cellAt a rho t =
        (votesBefore g rho t i j : Int) + if t < k then (votesFor g rho t i j : Int) else 0)
    360 (fun t acc => HoughTransform.vote j i t acc) acc
    ⟨hS, fun rho t ht => by simp [hc rho t ht]⟩
    (by
      intro k a hk h
      obtain ⟨hSa, hca⟩ := h
      by_cases hr : 0 ≤ HoughTransform.radius j i k
      · obtain ⟨a', e1, e2, e3⟩ := incrCell_shaped hSa
          (HoughTransform.index_lt g.num_rows_ g.num_columns_ j i k hj hi) hk
        refine ⟨a', by simp only [HoughTransform.vote, hr, if_true, e1], e2, ?_⟩
        intro rho t ht
        rw [e3 rho t, hca rho t ht]
        by_cases hcell : rho = ⌊HoughTransform.radius j i k⌋₊ ∧ t = k
        · obtain ⟨hrho, rfl⟩ := hcell
          have hv : votesFor g rho t i j = 1 := by
            unfold votesFor
            rw [if_pos ⟨hp, hr, hrho.symm⟩]
          have hle := votesBefore_le g rho t i j
          have hlt : ¬ t < t := lt_irrefl t
          have hlt' : t < t + 1 := Nat.lt_succ_self t
          simp only [hrho, and_self, if_true, hlt, if_false, add_zero, hlt', hv]
          rw [← hrho]
          rw [wrap32_id _ (by omega) (by omega), hv]
          simp
        · rw [if_neg hcell]
          by_cases htk : t = k
          · subst htk
            have hv : votesFor g rho t i j = 0 := by
              unfold votesFor
              rw [if_neg]
              rintro ⟨_, _, h3⟩
              exact hcell ⟨h3.symm, rfl⟩
            simp [hv]
          · have : t < k ↔ t < k + 1 := by omega
            simp only [this]
      · refine ⟨a, by simp only [HoughTransform.vote, hr, if_false], hSa, ?_⟩
        intro rho t ht
        rw [hca rho t ht]
        by_cases htk : t = k
        · subst htk
          have hv : votesFor g rho t i j = 0 := by
            unfold votesFor
            rw [if_neg]
            rintro ⟨_, h2, _⟩
            exact hr h2
          simp [hv]
        · have : t < k ↔ t < k + 1 := by omega
          simp only [this])
  refine ⟨acc', h1, h2, ?_⟩
  intro rho t ht
  rw [h3 rho t ht, votesBefore_succ, if_pos ht]
  push_cast
  rfl

/-- Full description of the voting loops when `row^2 + column^2` fits an
`int`: they do not fault, the accumulator keeps its shape, and every cell in
an angle bin below 360 holds the number of votes for it. -/
theorem HoughTransform.accumulate_result (g : Image)
    (hov : g.num_rows_ * g.num_rows_ + g.num_columns_ * g.num_columns_ < 2147483648) :
    ∃ acc, HoughTransform.accumulate g = some acc ∧
      Shaped acc (Nat.sqrt (g.num_rows_ * g.num_rows_ + g.num_columns_ * g.num_columns_)) 360 ∧
      ∀ rho t, t < 360 → cellAt acc rho t = (voteCount g rho t : Int) := by
  have hnew : newAccumulator (HoughTransform.accu_row g.num_rows_ g.num_columns_)
      HoughTransform.accu_col = some (List.replicate
        (Nat.sqrt (g.num_rows_ * g.num_rows_ + g.num_columns_ * g.num_columns_))
        (List.replicate 360 0)) := by
    rw [HoughTransform.accu_row_eq _ _ hov]
    have h1 : ¬ (((Nat.sqrt (g.num_rows_ * g.num_rows_ + g.num_columns_ * g.num_columns_) : Nat)
        : Int) < 0 ∨ HoughTransform.accu_col < 0) := by
      unfold HoughTransform.accu_col; omega
    have h2 : HoughTransform.accu_col.toNat = 360 := rfl
    simp only [newAccumulator, h1, if_false, Int.toNat_natCast, h2]
  obtain ⟨acc, h1, h2, h3⟩ := forLoop_nested_inv
    (fun i j (a : List (List Int)) =>
      Shaped a (Nat.sqrt (g.num_rows_ * g.num_rows_ + g.num_columns_ * g.num_columns_)) 360 ∧
      ∀ rho t, t < 360 → cellAt a rho t = (votesBefore g rho t i j : Int))
    g.num_rows_ g.num_columns_
    (fun y x a => HoughTransform.pixelVotes g y x a)
    (List.replicate (Nat.sqrt (g.num_rows_ * g.num_rows_ + g.num_columns_ * g.num_columns_))
      (List.replicate 360 0))
    ⟨Shaped.replicate _ _, fun rho t _ => by
      rw [cellAt_replicate]; simp [votesBefore]⟩
    (fun i a _ h => ⟨h.1, fun rho t ht => by rw [h.2 rho t ht, votesBefore_row]⟩)
    (by
      intro i j a hi hj h
      have hin : ¬ (i ≥ g.num_rows_ ∨ j ≥ g.num_columns_) := by omega
      by_cases hp : g.pixels_ i j ≠ 0
      · obtain ⟨a', e1, e2, e3⟩ := HoughTransform.votes_of_pixel g i j a hov hi hj hp h.1 h.2
        exact ⟨a', by simp only [HoughTransform.pixelVotes, Image.GetPixel, hin, if_false,
          Option.some_bind, e1]; rw [if_pos hp], e2, e3⟩
      · refine ⟨a, by simp only [HoughTransform.pixelVotes, Image.GetPixel, hin, if_false,
          Option.some_bind, hp], h.1, ?_⟩
        intro rho t ht
        have hv : votesFor g rho t i j = 0 := by
          unfold votesFor
          rw [if_neg]
          rintro ⟨h1, _⟩
          exact hp h1
        rw [h.2 rho t ht, votesBefore_succ, hv, add_zero])
  refine ⟨acc, ?_, h2, ?_⟩
  · simp only [HoughTransform.accumulate, Image.GetNumberOfRows, Image.GetNumberOfColumns,
      hnew, Option.some_bind, h1]
  · intro rho t ht
    rw [h3 rho t ht]
    simp [votesBefore, voteCount]

theorem readCell_some {acc : List (List Int)} {rows cols : Nat} (h : Shaped acc rows cols)
    {r t : Nat} {v : Int} (hv : readCell acc r t = some v) :
    r < rows ∧ t < cols ∧ v = cellAt acc r t := by
  unfold readCell at hv
  by_cases hr : r < rows
  · obtain ⟨ln, hln, hlen⟩ := h.getElem?_line hr
    rw [hln, Option.some_bind] at hv
    have ht : t < cols := by
      rw [← hlen]
      by_contra hge
      rw [List.getElem?_eq_none (by omega)] at hv
      cases hv
    have := readCell_shaped h hr ht
    simp only [readCell, hln, Option.some_bind, hv, Option.some.injEq] at this
    exact ⟨hr, ht, this⟩
  · rw [List.getElem?_eq_none (by rw [h.1]; omega)] at hv
    cases hv

theorem radius_gridPair_zero : HoughTransform.radius 0 0 90 = 0 := by
  simp [HoughTransform.radius]

theorem radius_gridPair_one : HoughTransform.radius 1 0 90 = Real.sqrt 2 / 2 := by
  have h : ((90 : Nat) : ℝ) * (Real.pi / 360) = Real.pi / 4 := by
    push_cast; ring
  simp only [HoughTransform.radius, h, Real.cos_pi_div_four]
  simp

theorem sqrt_two_bounds : (1.4 : ℝ) < Real.sqrt 2 ∧ Real.sqrt 2 < 1.5 := by
  constructor
  · rw [Real.lt_sqrt (by norm_num)]; norm_num
  · rw [Real.sqrt_lt' (by norm_num)]; norm_num

/-- C7, as stated, fails: on the 1 x 2 grid of ones, cell (0, 90) of the
accumulator holds 2, since the radii 0 and `sqrt 2 / 2` of the two pixels both
truncate to 0, while only one pixel has a radius that rounds to 0. -/
theorem HoughTransform_cell_not_rounded :
    (HoughTransform.accumulate gridPair).bind (fun acc => readCell acc 0 90) = some 2 ∧
    roundedVoteCount gridPair 0 90 = 1 := by
  have hb := sqrt_two_bounds
  constructor
  · obtain ⟨acc, h1, h2, h3⟩ := HoughTransform.accumulate_result gridPair (by decide)
    have hs : Nat.sqrt (gridPair.num_rows_ * gridPair.num_rows_ +
        gridPair.num_columns_ * gridPair.num_columns_) = 2 :=
      (Nat.eq_sqrt.2 ⟨by decide, by decide⟩).symm
    rw [hs] at h2
    rw [h1, Option.some_bind, readCell_shaped h2 (by decide) (by decide), h3 0 90 (by decide)]
    have hf : ⌊Real.sqrt 2 / 2⌋₊ = 0 := by
      rw [Nat.floor_eq_zero]; linarith [hb.2]
    have hn : (0 : ℝ) ≤ Real.sqrt 2 / 2 := by linarith [hb.1]
    have v0 : votesFor gridPair 0 90 0 0 = 1 := by
      unfold votesFor
      rw [radius_gridPair_zero, if_pos]
      exact ⟨by decide, le_refl 0, by simp⟩
    have v1 : votesFor gridPair 0 90 0 1 = 1 := by
      unfold votesFor
      rw [radius_gridPair_one, if_pos]
      exact ⟨by decide, hn, hf⟩
    have hrc : gridPair.num_rows_ = 1 ∧ gridPair.num_columns_ = 2 := ⟨rfl, rfl⟩
    simp only [voteCount, hrc.1, hrc.2, Finset.sum_range_succ, Finset.sum_range_zero, zero_add,
      v0, v1]
    rfl
  · have hr : round (Real.sqrt 2 / 2) = 1 := by
      rw [round_eq, Int.floor_eq_iff]
      constructor <;> push_cast <;> linarith [hb.1, hb.2]
    have hn : (0 : ℝ) ≤ Real.sqrt 2 / 2 := by linarith [hb.1]
    have hrc : gridPair.num_rows_ = 1 ∧ gridPair.num_columns_ = 2 := ⟨rfl, rfl⟩
    have hpx : ∀ a b, gridPair.pixels_ a b ≠ 0 := fun _ _ => one_ne_zero
    simp only [roundedVoteCount, hrc.1, hrc.2, Finset.sum_range_succ, Finset.sum_range_zero,
      zero_add, radius_gridPair_zero, radius_gridPair_one, hr, round_zero]
    rw [if_pos ⟨hpx 0 0, le_refl 0, by simp⟩, if_neg]
    rintro ⟨_, _, h3⟩
    norm_num at h3

/-- C7, amended. For every edge grid with `rows^2 + cols^2 < 2^31` (so that
the `int` arithmetic behind the accumulator height does not overflow), every
radius index `rho` below the accumulator height and every angle bin `t` below
360, `HoughTransform` completes its voting and cell `(rho, t)` holds the
number of non-zero pixels at (x = column, y = row) whose radius
`r = x*cos(t*pi/360) + y*sin(t*pi/360)` satisfies `r ≥ 0` and truncates (not
rounds) to `rho`. -/
theorem HoughTransform_cell_count (g : Image) (rho t : Nat)
    (hov : g.num_rows_ * g.num_rows_ + g.num_columns_ * g.num_columns_ < 2147483648)
    (hrho : (rho : Int) < HoughTransform.accu_row g.num_rows_ g.num_columns_)
    (ht : t < 360) :
    ∃ acc, HoughTransform.accumulate g = some acc ∧
      readCell acc rho t = some (voteCount g rho t : Int) := by
  obtain ⟨acc, h1, h2, h3⟩ := HoughTransform.accumulate_result g hov
  rw [HoughTransform.accu_row_eq _ _ hov] at hrho
  refine ⟨acc, h1, ?_⟩
  rw [readCell_shaped h2 (by exact_mod_cast hrho) ht, h3 rho t ht]

/-- Witness for C7 (amended): cell (0, 90) on the 1 x 2 grid of ones. -/
theorem HoughTransform_cell_count_witness :
    ∃ acc, HoughTransform.accumulate gridPair = some acc ∧
      readCell acc 0 90 = some (voteCount gridPair 0 90 : Int) :=
  HoughTransform_cell_count gridPair 0 90 (by decide)
    (by
      rw [HoughTransform.accu_row_eq _ _ (by decide)]
      have hs : Nat.sqrt (gridPair.num_rows_ * gridPair.num_rows_ +
          gridPair.num_columns_ * gridPair.num_columns_) = 2 :=
        (Nat.eq_sqrt.2 ⟨by decide, by decide⟩).symm
      rw [hs]
      decide)
    (by decide)

/-- A loop that has faulted after `k` iterations has faulted at the end. -/
theorem forLoop_none {σ : Type} (n k : Nat) (body : Nat → σ → Option σ) (s : σ)
    (hk : k ≤ n) (h : forLoop k body s = none) : forLoop n body s = none := by
  induction n with
  | zero =>
    have : k = 0 := by omega
    rw [← this]; exact h
  | succ m ih =>
    by_cases hkm : k = m + 1
    · rw [← hkm]; exact h
    · simp only [forLoop, ih (by omega), Option.none_bind]

theorem forLoop_succ {σ : Type} (k : Nat) (body : Nat → σ → Option σ) (s : σ) :
    forLoop (k + 1) body s = (forLoop k body s).bind (body k) := rfl

theorem radius_gridTall (t : Nat) :
    HoughTransform.radius 0 1 t = Real.sin ((t : ℝ) * (Real.pi / 360)) := by
  simp [HoughTransform.radius]

/-- The votes of the pixel at row 1, column 0 in the bins below 180 all land
in row 0 of a one-line accumulator. -/
theorem votes_gridTall (acc : List (List Int)) (hS : Shaped acc 1 360) :
    ∃ acc', forLoop 180 (fun t a => HoughTransform.vote 0 1 t a) acc = some acc' ∧
      Shaped acc' 1 360 := by
  apply forLoop_inv (fun _ (a : List (List Int)) => Shaped a 1 360) 180 _ acc hS
  intro k a hk hSa
  have hpos : (0 : ℝ) < Real.pi := Real.pi_pos
  have hk' : (k : ℝ) < 180 := by exact_mod_cast hk
  have h0 : (0 : ℝ) ≤ (k : ℝ) := Nat.cast_nonneg k
  have hlo : (0 : ℝ) ≤ (k : ℝ) * (Real.pi / 360) := by positivity
  have hhi : (k : ℝ) * (Real.pi / 360) < Real.pi / 2 := by nlinarith
  have hnn : 0 ≤ Real.sin ((k : ℝ) * (Real.pi / 360)) :=
    Real.sin_nonneg_of_nonneg_of_le_pi hlo (by linarith)
  have hlt : Real.sin ((k : ℝ) * (Real.pi / 360)) < 1 := by
    have := Real.sin_lt_sin_of_lt_of_le_pi_div_two (by linarith) (le_refl (Real.pi / 2)) hhi
    rwa [Real.sin_pi_div_two] at this
  have hfl : ⌊Real.sin ((k : ℝ) * (Real.pi / 360))⌋₊ = 0 := Nat.floor_eq_zero.2 hlt
  obtain ⟨a', e1, e2, _⟩ := incrCell_shaped hSa (by decide : 0 < 1) (by omega : k < 360)
  exact ⟨a', by simp only [HoughTransform.vote, radius_gridTall, hnn, if_true, hfl, e1], e2⟩

theorem radius_gridTall_180 : HoughTransform.radius 0 1 180 = 1 := by
  have h : ((180 : Nat) : ℝ) * (Real.pi / 360) = Real.pi / 2 := by
    push_cast; ring
  rw [radius_gridTall, h, Real.sin_pi_div_two]

/-- On a one-line accumulator the voting loops fault on `gridTall`: the vote
of the pixel at row 1 in bin 180 has index 1. -/
theorem votes_gridTall_fault (acc : List (List Int)) (hS : Shaped acc 1 360) :
    forLoop 65536 (fun y a =>
      forLoop 1 (fun x a => HoughTransform.pixelVotes gridTall y x a) a) acc = none := by
  obtain ⟨acc', hvotes, hS'⟩ := votes_gridTall acc hS
  have hf : ⌊(1 : ℝ)⌋₊ = 1 := Nat.floor_one
  have h01 : (0 : ℝ) ≤ 1 := zero_le_one
  have hlast : HoughTransform.vote 0 1 180 acc' = none := by
    have hnone : acc'[1]? = none := List.getElem?_eq_none (by rw [hS'.1])
    simp only [HoughTransform.vote, radius_gridTall_180, h01, if_true, hf, incrCell, readCell,
      hnone, Option.none_bind]
  have hbins : forLoop 360 (fun t a => HoughTransform.vote 0 1 t a) acc = none :=
    forLoop_none 360 (180 + 1) _ _ (by omega)
      (by rw [forLoop_succ, hvotes, Option.some_bind, hlast])
  have hin0 : ¬ (0 ≥ gridTall.num_rows_ ∨ 0 ≥ gridTall.num_columns_) := by
    simp only [gridTall]; omega
  have hin1 : ¬ (1 ≥ gridTall.num_rows_ ∨ 0 ≥ gridTall.num_columns_) := by
    simp only [gridTall]; omega
  have hp0 : gridTall.pixels_ 0 0 = 0 := rfl
  have hp1 : gridTall.pixels_ 1 0 = 1 := rfl
  have hrow0 : HoughTransform.pixelVotes gridTall 0 0 acc = some acc := by
    simp only [HoughTransform.pixelVotes, Image.GetPixel, hin0, if_false, hp0, Option.some_bind,
      ne_eq, not_true_eq_false]
  have hrow1 : HoughTransform.pixelVotes gridTall 1 0 acc = none := by
    have h10 : (1 : Int) ≠ 0 := one_ne_zero
    simp only [HoughTransform.pixelVotes, Image.GetPixel, hin1, if_false, hp1, Option.some_bind,
      h10, if_true, hbins, ne_eq, not_false_eq_true]
  apply forLoop_none 65536 (1 + 1) _ _ (by omega)
  rw [forLoop_succ, forLoop_succ]
  have z0 : ∀ (body : Nat → List (List Int) → Option (List (List Int))),
      forLoop 0 body acc = some acc := fun _ => rfl
  have e0 : forLoop 1 (fun x a => HoughTransform.pixelVotes gridTall 0 x a) acc = some acc := by
    rw [forLoop_succ, z0, Option.some_bind, hrow0]
  have e1 : forLoop 1 (fun x a => HoughTransform.pixelVotes gridTall 1 x a) acc = none := by
    rw [forLoop_succ, z0, Option.some_bind, hrow1]
  rw [z0, Option.some_bind, e0, Option.some_bind, e1]

theorem accu_row_gridTall :
    HoughTransform.accu_row gridTall.num_rows_ gridTall.num_columns_ = 1 := by
  have hs : Nat.sqrt 1 = 1 := (Nat.eq_sqrt.2 ⟨by decide, by decide⟩).symm
  have hw : wrap32 (wrap32 (((65536 : Nat) : Int) * ((65536 : Nat) : Int)) +
      wrap32 (((1 : Nat) : Int) * ((1 : Nat) : Int))) = 1 := by decide
  have ht : Int.toNat 1 = 1 := rfl
  have hrc : gridTall.num_rows_ = 65536 ∧ gridTall.num_columns_ = 1 := ⟨rfl, rfl⟩
  simp only [HoughTransform.accu_row, hrc.1, hrc.2, hw, sqrtToInt, ht, hs]
  decide

theorem newAccumulator_one : newAccumulator 1 HoughTransform.accu_col =
    some (List.replicate 1 (List.replicate 360 0)) := by
  have hc : ¬ ((1 : Int) < 0 ∨ HoughTransform.accu_col < 0) := by decide
  have e1 : Int.toNat 1 = 1 := rfl
  have e2 : HoughTransform.accu_col.toNat = 360 := rfl
  simp only [newAccumulator, hc, if_false, e1, e2]

theorem gridTall_size :
    gridTall.GetNumberOfRows = 65536 ∧ gridTall.GetNumberOfColumns = 1 := ⟨rfl, rfl⟩

theorem accumulate_gridTall_loops :
    (newAccumulator (HoughTransform.accu_row gridTall.num_rows_ gridTall.num_columns_)
      HoughTransform.accu_col).bind (fun accumulator =>
      forLoop 65536 (fun y accumulator =>
        forLoop 1 (fun x accumulator => HoughTransform.pixelVotes gridTall y x accumulator)
          accumulator) accumulator) = none := by
  rw [accu_row_gridTall, newAccumulator_one, Option.some_bind]
  exact votes_gridTall_fault _ (Shaped.replicate 1 360)

theorem accumulate_gridTall : HoughTransform.accumulate gridTall = none := by
  unfold HoughTransform.accumulate
  simp only []
  rw [gridTall_size.1, gridTall_size.2]
  exact accumulate_gridTall_loops

/-- C8, as stated, fails for grids so tall that `row*row` overflows: for a
grid of 65536 rows and 1 column the accumulator is allocated with
`accu_row = 1` row, the pixel at row 1, column 0 has radius 1 in bin 180, and
its vote indexes row 1 of the accumulator, which is out of range: the voting
loops of `HoughTransform` fault on `gridTall`. -/
theorem HoughTransform_vote_out_of_range :
    HoughTransform.accu_row gridTall.num_rows_ gridTall.num_columns_ = 1 ∧
    HoughTransform.radius 0 1 180 = 1 ∧
    HoughTransform.accumulate gridTall = none :=
  ⟨accu_row_gridTall, radius_gridTall_180, accumulate_gridTall⟩

/-- C8, amended. For every edge grid with `rows^2 + cols^2 < 2^31` (no
overflow in the computation of the accumulator height), every vote lands
inside the accumulator: for all `x < cols`, `y < rows`, `t < 360` with
`r = x*cos(t*pi/360) + y*sin(t*pi/360) ≥ 0` the truncated radius is below
`accu_row`, the height the accumulator is allocated with; the voting loops
complete without an out-of-range access, and every count is non-negative. -/
theorem HoughTransform_index_invariant (g : Image)
    (hov : g.num_rows_ * g.num_rows_ + g.num_columns_ * g.num_columns_ < 2147483648) :
    (∀ x y t, x < g.num_columns_ → y < g.num_rows_ → t < 360 →
      0 ≤ HoughTransform.radius x y t →
      ((⌊HoughTransform.radius x y t⌋₊ : Nat) : Int) <
        HoughTransform.accu_row g.num_rows_ g.num_columns_) ∧
    ∃ acc, HoughTransform.accumulate g = some acc ∧
      (acc.length : Int) = HoughTransform.accu_row g.num_rows_ g.num_columns_ ∧
      (∀ ln ∈ acc, ln.length = 360) ∧
      ∀ rho t v, readCell acc rho t = some v → 0 ≤ v := by
  constructor
  · intro x y t hx hy _ _
    rw [HoughTransform.accu_row_eq _ _ hov]
    exact_mod_cast HoughTransform.index_lt g.num_rows_ g.num_columns_ x y t hx hy
  · obtain ⟨acc, h1, h2, h3⟩ := HoughTransform.accumulate_result g hov
    refine ⟨acc, h1, ?_, h2.2, ?_⟩
    · rw [HoughTransform.accu_row_eq _ _ hov, h2.1]
    · intro rho t v hv
      obtain ⟨_, ht, hcell⟩ := readCell_some h2 hv
      rw [hcell, h3 rho t ht]
      exact Int.natCast_nonneg _

/-- Witness for C8 (amended): the 1 x 2 grid of ones. -/
theorem HoughTransform_index_invariant_witness :
    (∀ x y t, x < gridPair.num_columns_ → y < gridPair.num_rows_ → t < 360 →
      0 ≤ HoughTransform.radius x y t →
      ((⌊HoughTransform.radius x y t⌋₊ : Nat) : Int) <
        HoughTransform.accu_row gridPair.num_rows_ gridPair.num_columns_) ∧
    ∃ acc, HoughTransform.accumulate gridPair = some acc ∧
      (acc.length : Int) = HoughTransform.accu_row gridPair.num_rows_ gridPair.num_columns_ ∧
      (∀ ln ∈ acc, ln.length = 360) ∧
      ∀ rho t v, readCell acc rho t = some v → 0 ≤ v :=
  HoughTransform_index_invariant gridPair (by decide)

/-! ### Decimal text -/

theorem digitChar_isDigit (d : Nat) (h : d < 10) : (Nat.digitChar d).isDigit = true := by
  interval_cases d <;> rfl

theorem digitChar_value (d : Nat) (h : d < 10) : (Nat.digitChar d).toNat - 48 = d := by
  interval_cases d <;> rfl

theorem showNat_digits (n : Nat) : ∀ c ∈ showNat n, c.isDigit = true := by
  induction n using Nat.strong_induction_on with
  | _ n ih =>
    intro c hc
    rw [showNat] at hc
    split at hc
    · rw [List.mem_singleton] at hc
      rw [hc]
      exact digitChar_isDigit n (by assumption)
    · rw [List.mem_append, List.mem_singleton] at hc
      rcases hc with hc | hc
      · exact ih (n / 10) (by omega) c hc
      · rw [hc]
        exact digitChar_isDigit _ (Nat.mod_lt _ (by decide))

theorem showNat_ne_nil (n : Nat) : showNat n ≠ [] := by
  rw [showNat]
  split
  · exact List.cons_ne_nil _ _
  · exact List.append_ne_nil_of_right_ne_nil _ (List.cons_ne_nil _ _)

theorem digitsValue_showNat (n : Nat) : digitsValue (showNat n) = n := by
  induction n using Nat.strong_induction_on with
  | _ n ih =>
    rw [showNat]
    split
    · simp only [digitsValue, List.foldl_cons, List.foldl_nil, Nat.mul_zero, Nat.zero_add]
      exact digitChar_value n (by assumption)
    · have h := ih (n / 10) (by omega)
      unfold digitsValue at h ⊢
      rw [List.foldl_append, h, List.foldl_cons, List.foldl_nil,
        digitChar_value _ (Nat.mod_lt _ (by decide))]
      omega

theorem takeWhile_append_of_all {p : Char → Bool} (l r : List Char)
    (hl : ∀ c ∈ l, p c = true) (hr : ∀ c, r.head? = some c → p c = false) :
    (l ++ r).takeWhile p = l ∧ (l ++ r).dropWhile p = r := by
  induction l with
  | nil =>
    cases r with
    | nil => exact ⟨rfl, rfl⟩
    | cons x xs =>
      have hx : p x = false := hr x rfl
      simp [List.takeWhile, List.dropWhile, hx]
  | cons a l ih =>
    have ha : p a = true := hl a (List.mem_cons_self _ _)
    have := ih (fun c hc => hl c (List.mem_cons_of_mem _ hc))
    simp [List.takeWhile, List.dropWhile, ha, this.1, this.2]

theorem isDigit_facts (c : Char) (h : c.isDigit = true) :
    isSpace c = false ∧ c ≠ '-' ∧ c ≠ '+' ∧ c ≠ '\n' := by
  have h1 : 48 ≤ c.toNat ∧ c.toNat ≤ 57 := by
    simp only [Char.isDigit, Bool.and_eq_true, decide_eq_true_eq, UInt32.le_def] at h
    exact h
  refine ⟨?_, ?_, ?_, ?_⟩
  · simp only [isSpace, Bool.decide_or, Bool.or_eq_false_iff, decide_eq_false_iff_not]
    refine ⟨?_, ?_, ?_, ?_, ?_, ?_⟩ <;> first | omega | (rintro rfl; revert h1; decide)
  · rintro rfl; revert h1; decide
  · rintro rfl; revert h1; decide
  · rintro rfl; revert h1; decide

theorem showInt_head (z : Int) :
    ∃ c cs, showInt z = c :: cs ∧ isSpace c = false ∧ c ≠ '\n' := by
  unfold showInt
  split
  · exact ⟨'-', _, rfl, by decide, by decide⟩
  · cases h : showNat z.natAbs with
    | nil => exact absurd h (showNat_ne_nil _)
    | cons c cs =>
      have hc := showNat_digits z.natAbs c (by rw [h]; exact List.mem_cons_self _ _)
      have := isDigit_facts c hc
      exact ⟨c, cs, rfl, this.1, this.2.2.2⟩

theorem showInt_no_newline (z : Int) : ∀ c ∈ showInt z, c ≠ '\n' := by
  intro c hc
  unfold showInt at hc
  split at hc
  · rw [List.mem_cons] at hc
    rcases hc with hc | hc
    · rw [hc]; decide
    · exact (isDigit_facts c (showNat_digits _ c hc)).2.2.2
  · exact (isDigit_facts c (showNat_digits _ c hc)).2.2.2

/-- Extraction reads back a printed `int`: after any white space, the text of
`z` followed by something that does not start with a digit yields `z` and
leaves that remainder; the stream stays good unless the remainder is empty. -/
theorem extractInt_showInt (ws rest : List Char) (z : Int) (hz : IsInt32 z)
    (hws : ∀ c ∈ ws, isSpace c = true)
    (hrest : ∀ c, rest.head? = some c → c.isDigit = false) :
    extractInt { buf := ws ++ (showInt z ++ rest), good := true } =
      ({ buf := rest, good := !rest.isEmpty }, some z) := by
  obtain ⟨c, cs, hshow, hsp, _⟩ := showInt_head z
  have hdrop : (ws ++ (showInt z ++ rest)).dropWhile isSpace = showInt z ++ rest :=
    (takeWhile_append_of_all ws (showInt z ++ rest) hws
      (by rw [hshow]; intro d hd; simp only [List.cons_append, List.head?_cons,
            Option.some.injEq] at hd; rw [← hd]; exact hsp)).2
  have hne : showInt z ++ rest ≠ [] := by rw [hshow]; exact List.cons_ne_nil _ _
  have hnn : showNat z.natAbs ≠ [] := showNat_ne_nil _
  have htd := takeWhile_append_of_all (showNat z.natAbs) rest (showNat_digits _) hrest
  unfold extractInt
  simp only [if_true, hdrop, hne, if_false]
  by_cases hneg : z < 0
  · have hs : showInt z = '-' :: showNat z.natAbs := by simp only [showInt, hneg, if_true]
    have hval : -((z.natAbs : Nat) : Int) = z := by omega
    have h1 : ¬ (z > 2147483647) := by have := hz.2; omega
    have h2 : ¬ (z < -2147483648) := by have := hz.1; omega
    simp only [hs, List.cons_append, List.head?_cons, true_or, if_true, List.tail_cons,
      htd.1, htd.2, hnn, if_false, decide_True, digitsValue_showNat, hval, h1, h2]
  · have hs : showInt z = showNat z.natAbs := by simp only [showInt, hneg, if_false]
    have hval : ((z.natAbs : Nat) : Int) = z := by omega
    have h1 : ¬ (z > 2147483647) := by have := hz.2; omega
    have h2 : ¬ (z < -2147483648) := by have := hz.1; omega
    cases hsn : showNat z.natAbs with
    | nil => exact absurd hsn hnn
    | cons d ds =>
      have hd := isDigit_facts d (showNat_digits z.natAbs d (by rw [hsn]; exact List.mem_cons_self _ _))
      have hm : ¬ (d = '-') := hd.2.1
      have hp : ¬ (d = '+') := hd.2.2.1
      rw [hsn] at htd
      have hv := digitsValue_showNat z.natAbs
      rw [hsn] at hv
      simp only [hs, hsn, List.cons_append, List.head?_cons, Option.some.injEq, hm, hp, or_self,
        if_false, decide_False, htd.1, htd.2, List.cons_ne_nil, hv, hval, h1, h2,
        Bool.false_eq_true]
      simp only [List.cons_append] at htd
      simp only [htd.1, htd.2, List.cons_ne_nil, if_false, hv, hval, h1, h2]

/-- Preservation rule for a `forLoop` that is known to complete: a property
of the state that every completing iteration preserves holds at the end. -/
theorem forLoop_some_pres {σ : Type} (P : Nat → σ → Prop) (n : Nat)
    (body : Nat → σ → Option σ) (s s' : σ) (h : forLoop n body s = some s') (h0 : P 0 s)
    (hstep : ∀ k st st', k < n → P k st → body k st = some st' → P (k + 1) st') :
    P n s' := by
  induction n generalizing s' with
  | zero =>
    simp only [forLoop, Option.some.injEq] at h
    rw [← h]; exact h0
  | succ k ih =>
    simp only [forLoop, Option.bind_eq_some] at h
    obtain ⟨st, hst, hb⟩ := h
    exact hstep k st s' (Nat.lt_succ_self k)
      (ih st hst (fun j a a' hj => hstep j a a' (Nat.lt_succ_of_lt hj))) hb

/-- The same rule for two nested loops (see `forLoop_nested_inv`). -/
theorem forLoop_nested_some_pres {σ : Type} (P : Nat → Nat → σ → Prop) (rows cols : Nat)
    (body : Nat → Nat → σ → Option σ) (s s' : σ)
    (h : forLoop rows (fun i st => forLoop cols (fun j st => body i j st) st) s = some s')
    (h0 : P 0 0 s)
    (hrow : ∀ i st, i < rows → P i cols st → P (i + 1) 0 st)
    (hstep : ∀ i j st st', i < rows → j < cols → P i j st → body i j st = some st' →
      P i (j + 1) st') :
    P rows 0 s' := by
  apply forLoop_some_pres (fun i st => P i 0 st) rows _ s s' h h0
  intro i st st' hi hP hb
  exact hrow i st' hi
    (forLoop_some_pres (fun j st => P i j st) cols (fun j st => body i j st) st st' hb hP
      (fun j a a' hj hp ha => hstep i j a a' hi hj hp ha))

theorem writeCell_some_pres {acc acc' : List (List Int)} {rows cols r t : Nat} {v : Int}
    (hS : Shaped acc rows cols) (hI : Int32Cells acc) (hv : IsInt32 v)
    (h : writeCell acc r t v = some acc') :
    Shaped acc' rows cols ∧ Int32Cells acc' := by
  simp only [writeCell, Option.bind_eq_some] at h
  obtain ⟨ln, hln, h⟩ := h
  split at h
  · simp only [Option.some.injEq] at h
    subst h
    have hmem : ln ∈ acc := List.getElem?_mem hln
    refine ⟨⟨by rw [List.length_set, hS.1], ?_⟩, ?_⟩
    · intro l hl
      rcases List.mem_or_eq_of_mem_set hl with hl | hl
      · exact hS.2 l hl
      · rw [hl, List.length_set]; exact hS.2 ln hmem
    · intro l hl w hw
      rcases List.mem_or_eq_of_mem_set hl with hl | hl
      · exact hI l hl w hw
      · rw [hl] at hw
        rcases List.mem_or_eq_of_mem_set hw with hw | hw
        · exact hI ln hmem w hw
        · rw [hw]; exact hv
  · cases h

theorem wrap32_isInt32 (z : Int) : IsInt32 (wrap32 z) := by
  unfold IsInt32 wrap32
  omega

/-- Whenever the voting loops complete, the accumulator has `accu_row` lines
of 360 cells, `accu_row` is not negative, and every cell is an `int`. -/
theorem HoughTransform.accumulate_shape (g : Image) (acc : List (List Int))
    (h : HoughTransform.accumulate g = some acc) :
    0 ≤ HoughTransform.accu_row g.num_rows_ g.num_columns_ ∧
    Shaped acc (HoughTransform.accu_row g.num_rows_ g.num_columns_).toNat 360 ∧
    Int32Cells acc := by
  simp only [HoughTransform.accumulate, Image.GetNumberOfRows, Image.GetNumberOfColumns,
    Option.bind_eq_some] at h
  obtain ⟨acc0, hnew, hloop⟩ := h
  unfold newAccumulator at hnew
  split at hnew
  · cases hnew
  · rename_i hneg
    simp only [Option.some.injEq] at hnew
    have h0 : 0 ≤ HoughTransform.accu_row g.num_rows_ g.num_columns_ := by omega
    refine ⟨h0, ?_⟩
    have hc : HoughTransform.accu_col.toNat = 360 := rfl
    rw [hc] at hnew
    apply forLoop_nested_some_pres
      (fun _ _ (a : List (List Int)) =>
        Shaped a (HoughTransform.accu_row g.num_rows_ g.num_columns_).toNat 360 ∧ Int32Cells a)
      g.num_rows_ g.num_columns_ (fun y x a => HoughTransform.pixelVotes g y x a) acc0 acc hloop
    · rw [← hnew]
      refine ⟨Shaped.replicate _ _, ?_⟩
      intro ln hln v hv
      rw [List.eq_of_mem_replicate hln] at hv
      rw [List.eq_of_mem_replicate hv]
      exact ⟨by decide, by decide⟩
    · intro i st _ hP
      exact hP
    · intro i j st st' _ _ hP hb
      simp only [HoughTransform.pixelVotes, Option.bind_eq_some] at hb
      obtain ⟨pixel, _, hb⟩ := hb
      split at hb
      · apply forLoop_some_pres
          (fun _ (a : List (List Int)) =>
            Shaped a (HoughTransform.accu_row g.num_rows_ g.num_columns_).toNat 360 ∧
              Int32Cells a)
          360 (fun t a => HoughTransform.vote j i t a) st st' hb hP
        intro k a a' _ hPa hv
        unfold HoughTransform.vote at hv
        split at hv
        · simp only [incrCell, Option.bind_eq_some] at hv
          obtain ⟨v, _, hw⟩ := hv
          exact writeCell_some_pres hPa.1 hPa.2 (wrap32_isInt32 _) hw
        · simp only [Option.some.injEq] at hv
          rw [← hv]; exact hPa
      · simp only [Option.some.injEq] at hb
        rw [← hb]; exact hP

/-- The text after the header, when the output loops of `HoughTransform`
complete, is the text of the accumulator lines in order. -/
theorem HoughTransform.emit_text (acc : List (List Int)) (rows cols : Nat)
    (hS : Shaped acc rows cols) (s s' : Image × List Char)
    (h : forLoop rows (fun y st =>
      forLoop cols (fun x st => HoughTransform.emit acc y x st) st) s = some s') :
    s'.2 = s.2 ++ acc.flatMap lineText := by
  have key := forLoop_nested_some_pres
    (fun i j (st : Image × List Char) =>
      st.2 = s.2 ++ (acc.take i).flatMap lineText ++ lineText ((acc.getD i []).take j))
    rows cols (fun y x st => HoughTransform.emit acc y x st) s s' h
    (by simp [lineText])
    (by
      intro i st hi hP
      have hlt : i < acc.length := by rw [hS.1]; exact hi
      have hlen : (acc[i]).length = cols := hS.2 _ (List.getElem_mem hlt)
      have hget : acc.getD i [] = acc[i] := by
        simp [List.getD_eq_getElem?_getD, List.getElem?_eq_getElem hlt]
      have htake : (acc[i]).take cols = acc[i] := List.take_of_length_le (by omega)
      have hts : acc.take (i + 1) = acc.take i ++ [acc[i]] := by
        rw [List.take_succ, List.getElem?_eq_getElem hlt]; rfl
      rw [hP, hget, htake, hts]
      simp only [List.flatMap_append, List.flatMap_cons, List.flatMap_nil, List.take_zero,
        lineText, List.append_nil, List.append_assoc])
    (by
      intro i j st st' _ _ hP hb
      simp only [HoughTransform.emit, Option.bind_eq_some, Option.map_eq_some'] at hb
      obtain ⟨v, hv, img, _, hst⟩ := hb
      simp only [readCell, Option.bind_eq_some] at hv
      obtain ⟨ln, hln, hj⟩ := hv
      have hget : acc.getD i [] = ln := by
        simp [List.getD_eq_getElem?_getD, hln]
      rw [← hst]
      simp only
      rw [hP, hget, List.take_succ, hj]
      simp [lineText, cellText])
  simp only at key
  have htake : acc.take rows = acc := List.take_of_length_le (by rw [hS.1])
  rw [key, htake]
  simp [lineText]

theorem cellAt_eq_getElem {acc : List (List Int)} {a b : Nat} (ha : a < acc.length)
    (hb : b < (acc[a]).length) : cellAt acc a b = (acc[a])[b] := by
  simp [cellAt, List.getD_eq_getElem?_getD, List.getElem?_eq_getElem ha,
    List.getElem?_eq_getElem hb]

/-- Two accumulators of the same shape with the same cells are equal. -/
theorem Shaped.ext {A B : List (List Int)} {rows cols : Nat} (hA : Shaped A rows cols)
    (hB : Shaped B rows cols)
    (h : ∀ a b, a < rows → b < cols → cellAt A a b = cellAt B a b) : A = B := by
  apply List.ext_getElem (by rw [hA.1, hB.1])
  intro a ha hb
  have hla : (A[a]).length = cols := hA.2 _ (List.getElem_mem ha)
  have hlb : (B[a]).length = cols := hB.2 _ (List.getElem_mem hb)
  apply List.ext_getElem (by rw [hla, hlb])
  intro b hb1 hb2
  have := h a b (by rw [← hA.1]; exact ha) (by rw [← hla]; exact hb1)
  rw [cellAt_eq_getElem ha hb1, cellAt_eq_getElem hb hb2] at this
  exact this

/-- The filling loops of `DrawDetectedLines` on the text of an accumulator
`A` rebuild `A`. -/
theorem DrawDetectedLines.fill_result (indet : Int) (A acc0 : List (List Int))
    (rows cols : Nat) (hA : Shaped A rows cols) (hI : Int32Cells A)
    (h0 : Shaped acc0 rows cols) :
    ∃ s', forLoop rows (fun i st =>
        forLoop cols (fun j st => DrawDetectedLines.fill indet i j st) st)
      ({ buf := A.flatMap lineText, good := true }, acc0) = some (s', A) := by
  obtain ⟨st, hst, _, _, hS, hc⟩ := forLoop_nested_inv
    (fun i j (st : IStream × List (List Int)) =>
      st.1.good = true ∧
      (∃ ws, (∀ c ∈ ws, isSpace c = true) ∧
        st.1.buf = ws ++ (lineText ((A.getD i []).drop j) ++ (A.drop (i + 1)).flatMap lineText)) ∧
      Shaped st.2 rows cols ∧
      ∀ a b, ((a < i ∧ b < cols) ∨ (a = i ∧ b < j)) → cellAt st.2 a b = cellAt A a b)
    rows cols (fun i j st => DrawDetectedLines.fill indet i j st)
    ({ buf := A.flatMap lineText, good := true }, acc0)
    (by
      refine ⟨rfl, ⟨[], fun c hc => absurd hc (List.not_mem_nil c), ?_⟩, h0, fun a b hab => by omega⟩
      cases A with
      | nil => rfl
      | cons a as => simp [lineText])
    (by
      intro i st hi hP
      obtain ⟨hg, ⟨ws, hws, hbuf⟩, hS, hc⟩ := hP
      refine ⟨hg, ⟨ws, hws, ?_⟩, hS, fun a b hab => hc a b (by omega)⟩
      have hlt : i < A.length := by rw [hA.1]; exact hi
      have hlen : (A[i]).length = cols := hA.2 _ (List.getElem_mem hlt)
      have hget : A.getD i [] = A[i] := by
        simp [List.getD_eq_getElem?_getD, List.getElem?_eq_getElem hlt]
      have hd : (A[i]).drop cols = [] := List.drop_of_length_le (by omega)
      rw [hbuf, hget, hd]
      by_cases hi1 : i + 1 < A.length
      · have hget1 : A.getD (i + 1) [] = A[i + 1] := by
          simp [List.getD_eq_getElem?_getD, List.getElem?_eq_getElem hi1]
        rw [hget1, List.drop_eq_getElem_cons hi1]
        simp only [lineText, List.flatMap_nil, List.nil_append, List.flatMap_cons, List.drop_zero]
      · have hget1 : A.getD (i + 1) [] = [] := by
          simp [List.getD_eq_getElem?_getD, List.getElem?_eq_none (by omega : A.length ≤ i + 1)]
        have hd1 : A.drop (i + 1) = [] := List.drop_of_length_le (by omega)
        have hd2 : A.drop (i + 1 + 1) = [] := List.drop_of_length_le (by omega)
        rw [hget1, hd1, hd2]
        simp only [lineText, List.flatMap_nil, List.drop_nil])
    (by
      intro i j st hi hj hP
      obtain ⟨hg, ⟨ws, hws, hbuf⟩, hS, hc⟩ := hP
      have hlt : i < A.length := by rw [hA.1]; exact hi
      have hlen : (A[i]).length = cols := hA.2 _ (List.getElem_mem hlt)
      have hget : A.getD i [] = A[i] := by
        simp [List.getD_eq_getElem?_getD, List.getElem?_eq_getElem hlt]
      have hjl : j < (A[i]).length := by rw [hlen]; exact hj
      have hv : IsInt32 ((A[i])[j]) := hI _ (List.getElem_mem hlt) _ (List.getElem_mem hjl)
      have hstream : st.1 = IStream.mk (ws ++ (showInt ((A[i])[j]) ++
          (' ' :: (lineText ((A[i]).drop (j + 1)) ++ (A.drop (i + 1)).flatMap lineText))))
          true := by
        cases hst1 : st.1 with
        | mk buf good =>
          rw [hst1] at hg hbuf
          simp only at hg hbuf
          rw [hg, hbuf, hget, List.drop_eq_getElem_cons hjl]
          simp only [lineText, cellText, List.flatMap_cons, List.append_assoc,
            List.singleton_append, List.cons_append, List.nil_append]
      have hex := extractInt_showInt ws
        (' ' :: (lineText ((A[i]).drop (j + 1)) ++ (A.drop (i + 1)).flatMap lineText))
        ((A[i])[j]) hv hws
        (by intro c hc
            simp only [List.head?_cons, Option.some.injEq] at hc
            rw [← hc]; rfl)
      rw [← hstream] at hex
      obtain ⟨acc', hw, hS', hc'⟩ := writeCell_shaped hS hi hj ((A[i])[j])
      refine ⟨(IStream.mk (' ' :: (lineText ((A[i]).drop (j + 1)) ++
          (A.drop (i + 1)).flatMap lineText)) true, acc'), by
        simp only [DrawDetectedLines.fill, hex, Option.getD_some, hw, Option.map_some',
          List.isEmpty_cons, Bool.not_false],
        rfl, ⟨[' '], ?_, ?_⟩, hS', ?_⟩
      · intro c hc
        rw [List.mem_singleton] at hc
        rw [hc]; rfl
      · rw [hget]; rfl
      · intro a b hab
        rw [hc' a b]
        by_cases hij : a = i ∧ b = j
        · obtain ⟨rfl, rfl⟩ := hij
          simp only [and_self, if_true]
          rw [cellAt_eq_getElem hlt hjl]
        · rw [if_neg hij]
          exact hc a b (by omega))
  have : st.2 = A := Shaped.ext hS hA (fun a b ha hb => hc a b (Or.inl ⟨ha, hb⟩))
  exact ⟨st.1, by rw [hst, ← this]⟩

theorem lineText_no_newline (A : List (List Int)) : ∀ c ∈ A.flatMap lineText, c ≠ '\n' := by
  intro c hc
  simp only [List.mem_flatMap, lineText, cellText, List.mem_append, List.mem_singleton] at hc
  obtain ⟨ln, _, v, _, hc | hc⟩ := hc
  · exact showInt_no_newline v c hc
  · rw [hc]; decide

/-- Reading back the text `HoughTransform` writes for an accumulator `A` of
`rows` lines and `cols` columns gives `rows`, `cols` and `A`. -/
theorem DrawDetectedLines.readAccumulator_text (indet : Int) (A : List (List Int))
    (rows cols : Nat) (hrows : rows < 2147483648) (hcols : cols < 2147483648)
    (hA : Shaped A rows cols) (hI : Int32Cells A) :
    DrawDetectedLines.readAccumulator indet
      ((showInt rows ++ [' '] ++ showInt cols ++ ['\n'] ++ A.flatMap lineText) ++ ['\n']) =
      some ((rows : Int), (cols : Int), A) := by
  have hfile : (showInt rows ++ [' '] ++ showInt cols ++ ['\n'] ++ A.flatMap lineText) ++ ['\n'] =
      (showInt rows ++ ' ' :: showInt cols) ++ ('\n' :: (A.flatMap lineText ++ ['\n'])) := by
    simp only [List.append_assoc, List.singleton_append, List.cons_append, List.nil_append]
  have hhdr : ∀ c ∈ showInt rows ++ ' ' :: showInt cols,
      (fun c => decide (c ≠ '\n')) c = true := by
    intro c hc
    simp only [List.mem_append, List.mem_cons] at hc
    simp only [decide_eq_true_eq]
    rcases hc with hc | hc | hc
    · exact showInt_no_newline _ c hc
    · rw [hc]; decide
    · exact showInt_no_newline _ c hc
  have h1 := takeWhile_append_of_all (p := fun c => decide (c ≠ '\n'))
    (showInt rows ++ ' ' :: showInt cols) ('\n' :: (A.flatMap lineText ++ ['\n'])) hhdr
    (by intro c hc
        simp only [List.head?_cons, Option.some.injEq] at hc
        rw [← hc]; rfl)
  have h2 := takeWhile_append_of_all (p := fun c => decide (c ≠ '\n'))
    (A.flatMap lineText) ['\n']
    (fun c hc => by simp only [decide_eq_true_eq]; exact lineText_no_newline A c hc)
    (by intro c hc
        simp only [List.head?_cons, Option.some.injEq] at hc
        rw [← hc]; rfl)
  have hfirst : getline { buf := (showInt rows ++ ' ' :: showInt cols) ++
      ('\n' :: (A.flatMap lineText ++ ['\n'])), good := true } [] =
      ({ buf := A.flatMap lineText ++ ['\n'], good := true },
        showInt rows ++ ' ' :: showInt cols) := by
    simp only [getline, if_true, h1.1, h1.2]
  have hsecond : getline { buf := A.flatMap lineText ++ ['\n'], good := true }
      (showInt rows ++ ' ' :: showInt cols) =
      ({ buf := [], good := true }, A.flatMap lineText) := by
    simp only [getline, if_true, h2.1, h2.2]
  have hr : IsInt32 (rows : Int) := ⟨by omega, by omega⟩
  have hc : IsInt32 (cols : Int) := ⟨by omega, by omega⟩
  have e1 := extractInt_showInt [] (' ' :: showInt (cols : Int)) (rows : Int) hr
    (fun c hc => absurd hc (List.not_mem_nil c))
    (by intro c hc
        simp only [List.head?_cons, Option.some.injEq] at hc
        rw [← hc]; rfl)
  have e2 := extractInt_showInt [' '] [] (cols : Int) hc
    (by intro c hc
        rw [List.mem_singleton] at hc
        rw [hc]; rfl)
    (by intro c hc; cases hc)
  simp only [List.nil_append, List.isEmpty_cons, Bool.not_false] at e1
  simp only [List.append_nil, List.singleton_append, List.isEmpty_nil, Bool.not_true] at e2
  have hnew : newAccumulator (rows : Int) (cols : Int) =
      some (List.replicate rows (List.replicate cols 0)) := by
    have : ¬ ((rows : Int) < 0 ∨ (cols : Int) < 0) := by omega
    simp only [newAccumulator, this, if_false, Int.toNat_natCast]
  obtain ⟨s', hs'⟩ := DrawDetectedLines.fill_result indet A
    (List.replicate rows (List.replicate cols 0)) rows cols hA hI (Shaped.replicate rows cols)
  rw [hfile]
  simp only [DrawDetectedLines.readAccumulator, hfirst, e1, e2, Option.getD_some, hnew,
    Option.some_bind, hsecond, Int.toNat_natCast, hs', Option.map_some']

/-- The output loops of `HoughTransform` complete when the visualisation grid
is at least as large as the accumulator; they keep its dimensions and copy
every accumulator cell into the pixel with the same indices. -/
theorem HoughTransform.emit_total (acc : List (List Int)) (rows cols : Nat)
    (hS : Shaped acc rows cols) (h : Image) (text : List Char)
    (hr : rows ≤ h.num_rows_) (hc : cols ≤ h.num_columns_) :
    ∃ st, forLoop rows (fun y st =>
        forLoop cols (fun x st => HoughTransform.emit acc y x st) st) (h, text) = some st ∧
      st.1.num_rows_ = h.num_rows_ ∧ st.1.num_columns_ = h.num_columns_ ∧
      st.1.num_gray_levels_ = h.num_gray_levels_ ∧
      ∀ a b, a < rows → b < cols → st.1.pixels_ a b = cellAt acc a b := by
  obtain ⟨st, hst, h1, h2, h3, h4⟩ := forLoop_nested_inv
    (fun i j (st : Image × List Char) =>
      st.1.num_rows_ = h.num_rows_ ∧ st.1.num_columns_ = h.num_columns_ ∧
      st.1.num_gray_levels_ = h.num_gray_levels_ ∧
      ∀ a b, ((a < i ∧ b < cols) ∨ (a = i ∧ b < j)) → st.1.pixels_ a b = cellAt acc a b)
    rows cols (fun y x st => HoughTransform.emit acc y x st) (h, text)
    ⟨rfl, rfl, rfl, fun a b hab => by omega⟩
    (fun i st _ hP => ⟨hP.1, hP.2.1, hP.2.2.1, fun a b hab => hP.2.2.2 a b (by omega)⟩)
    (by
      intro i j st hi hj hP
      obtain ⟨e1, e2, e3, e4⟩ := hP
      have hin : ¬ (i ≥ st.1.num_rows_ ∨ j ≥ st.1.num_columns_) := by
        rw [e1, e2]; omega
      refine ⟨({ st.1 with pixels_ := fun a b =>
          if a = i ∧ b = j then cellAt acc i j else st.1.pixels_ a b },
          st.2 ++ showInt (cellAt acc i j) ++ [' ']), ?_, e1, e2, e3, ?_⟩
      · simp only [HoughTransform.emit, readCell_shaped hS hi hj, Option.some_bind,
          Image.SetPixel, hin, if_false, Option.map_some']
      · intro a b hab
        simp only
        by_cases hij : a = i ∧ b = j
        · obtain ⟨rfl, rfl⟩ := hij
          simp only [and_self, if_true]
        · rw [if_neg hij]
          exact e4 a b (by omega))
  exact ⟨st, hst, h1, h2, h3, fun a b ha hb => h4 a b (Or.inl ⟨ha, hb⟩)⟩

theorem sqrt_lt_of_lt (n : Nat) (h : n < 2147483648) : Nat.sqrt n < 2147483648 :=
  lt_of_le_of_lt (Nat.sqrt_le_self n) h

/-- A complete run of `HoughTransform` on an edge grid with
`rows^2 + cols^2 < 2^31` and a visualisation grid that is large enough: it
returns, its accumulator has `sqrt(rows^2 + cols^2)` (truncated) lines of 360
cells, the grid keeps its dimensions and receives the cells, and the text
reads back as the same accumulator. -/
theorem HoughTransform_run (indet : Int) (g h : Image)
    (hov : g.num_rows_ * g.num_rows_ + g.num_columns_ * g.num_columns_ < 2147483648)
    (hr : Nat.sqrt (g.num_rows_ * g.num_rows_ + g.num_columns_ * g.num_columns_) ≤ h.num_rows_)
    (hc : 360 ≤ h.num_columns_) :
    ∃ img' text acc, HoughTransform g h = some (img', text) ∧
      HoughTransform.accumulate g = some acc ∧
      Shaped acc (Nat.sqrt (g.num_rows_ * g.num_rows_ + g.num_columns_ * g.num_columns_)) 360 ∧
      Int32Cells acc ∧
      (∀ rho t, t < 360 → cellAt acc rho t = (voteCount g rho t : Int)) ∧
      img'.num_rows_ = h.num_rows_ ∧ img'.num_columns_ = h.num_columns_ ∧
      (∀ a b, a < Nat.sqrt (g.num_rows_ * g.num_rows_ + g.num_columns_ * g.num_columns_) →
        b < 360 → img'.pixels_ a b = cellAt acc a b) ∧
      DrawDetectedLines.readAccumulator indet text =
        some (HoughTransform.accu_row g.num_rows_ g.num_columns_, HoughTransform.accu_col, acc) := by
  obtain ⟨acc, ha, hS, hcount⟩ := HoughTransform.accumulate_result g hov
  have hI := (HoughTransform.accumulate_shape g acc ha).2.2
  have hrow := HoughTransform.accu_row_eq _ _ hov
  have hcol : HoughTransform.accu_col = ((360 : Nat) : Int) := rfl
  obtain ⟨st, hst, e1, e2, _, e4⟩ := HoughTransform.emit_total acc _ 360 hS h
    (showInt (Nat.sqrt (g.num_rows_ * g.num_rows_ + g.num_columns_ * g.num_columns_) : Int) ++
      [' '] ++ showInt ((360 : Nat) : Int) ++ ['\n']) hr hc
  have htext := HoughTransform.emit_text acc _ 360 hS _ _ hst
  refine ⟨st.1, st.2 ++ ['\n'], acc, ?_, ha, hS, hI, hcount, e1, e2, e4, ?_⟩
  · simp only [HoughTransform, Image.GetNumberOfRows, Image.GetNumberOfColumns, ha,
      Option.some_bind, hrow, hcol, Int.toNat_natCast, hst, Option.map_some']
  · rw [htext, hrow, hcol]
    exact DrawDetectedLines.readAccumulator_text indet acc _ 360 (sqrt_lt_of_lt _ hov)
      (by decide) hS hI

theorem sqrtToInt_isInt32 (z : Int) (hz : IsInt32 z) : IsInt32 (sqrtToInt z) := by
  unfold sqrtToInt
  split
  · have h1 := Nat.sqrt_le_self z.toNat
    have h2 : (z.toNat : Int) = z := Int.toNat_of_nonneg (by assumption)
    have h3 := hz.2
    constructor <;> omega
  · exact ⟨by decide, by decide⟩

theorem floor_sqrt_eq (rows cols : Nat) :
    ⌊Real.sqrt ((rows : ℝ) ^ 2 + (cols : ℝ) ^ 2)⌋₊ = Nat.sqrt (rows * rows + cols * cols) := by
  have : (rows : ℝ) ^ 2 + (cols : ℝ) ^ 2 = ((rows * rows + cols * cols : Nat) : ℝ) := by
    push_cast; ring
  rw [this, Real.nat_floor_real_sqrt_eq_nat_sqrt]

theorem h3.hough_image_eq (g : Image)
    (hov : g.num_rows_ * g.num_rows_ + g.num_columns_ * g.num_columns_ < 2147483648) :
    h3.hough_image g = some
      ⟨Nat.sqrt (g.num_rows_ * g.num_rows_ + g.num_columns_ * g.num_columns_), 360, 255,
        fun _ _ => 0⟩ := by
  have hrow := HoughTransform.accu_row_eq _ _ hov
  unfold HoughTransform.accu_row at hrow
  have hn : ¬ (((Nat.sqrt (g.num_rows_ * g.num_rows_ + g.num_columns_ * g.num_columns_) : Nat)
      : Int) < 0) := by omega
  simp only [h3.hough_image, Image.GetNumberOfRows, Image.GetNumberOfColumns, hrow, hn,
    if_false, Int.toNat_natCast]
  rfl

/-- C9. Whenever `HoughTransform` completes, producing the text `text` (a
header line with `accu_row` and `accu_col`, then all counts row-major on one
line), the accumulator `A` it wrote has `accu_row` lines of `accu_col = 360`
cells and the part of `DrawDetectedLines` that reads the text back
reconstructs these two dimensions and a matrix equal to `A`. -/
theorem accumulator_text_round_trip (indet : Int) (an_image hough_image img' : Image)
    (text : List Char) (hrun : HoughTransform an_image hough_image = some (img', text)) :
    ∃ A, HoughTransform.accumulate an_image = some A ∧
      text = (showInt (A.length : Int) ++ [' '] ++ showInt 360 ++ ['\n'] ++
        A.flatMap lineText) ++ ['\n'] ∧
      (∀ ln ∈ A, ln.length = 360) ∧
      DrawDetectedLines.readAccumulator indet text = some ((A.length : Int), 360, A) := by
  simp only [HoughTransform, Image.GetNumberOfRows, Image.GetNumberOfColumns,
    Option.bind_eq_some, Option.map_eq_some'] at hrun
  obtain ⟨A, hA, st, hst, hres⟩ := hrun
  obtain ⟨h0, hS, hI⟩ := HoughTransform.accumulate_shape an_image A hA
  have hc : HoughTransform.accu_col.toNat = 360 := rfl
  rw [hc] at hst
  have htext := HoughTransform.emit_text A _ 360 hS _ _ hst
  simp only at htext
  have hlen : (A.length : Int) = HoughTransform.accu_row an_image.num_rows_ an_image.num_columns_ := by
    rw [hS.1]; exact Int.toNat_of_nonneg h0
  have hcol : HoughTransform.accu_col = ((360 : Nat) : Int) := rfl
  have hrange : A.length < 2147483648 := by
    have := (sqrtToInt_isInt32 _ (wrap32_isInt32
      (wrap32 ((an_image.num_rows_ : Int) * (an_image.num_rows_ : Int)) +
        wrap32 ((an_image.num_columns_ : Int) * (an_image.num_columns_ : Int))))).2
    have h2 : (A.length : Int) < 2147483648 := by
      rw [hlen]; exact this
    omega
  have hS' : Shaped A A.length 360 := ⟨rfl, hS.2⟩
  have htxt : text = (showInt (A.length : Int) ++ [' '] ++ showInt ((360 : Nat) : Int) ++ ['\n'] ++
      A.flatMap lineText) ++ ['\n'] := by
    have := congrArg Prod.snd hres
    simp only at this
    rw [← this, htext, hlen, hcol]
  refine ⟨A, hA, htxt, hS.2, ?_⟩
  rw [htxt]
  exact DrawDetectedLines.readAccumulator_text indet A A.length 360 hrange (by decide) hS' hI

/-- Witness for C9: the run of `HoughTransform` on the 1 x 1 grid holding 0
with a 1 x 360 visualisation grid. -/
theorem accumulator_text_round_trip_witness :
    ∃ img' text, HoughTransform gridZero houghOne = some (img', text) ∧
      ∃ A, HoughTransform.accumulate gridZero = some A ∧
        text = (showInt (A.length : Int) ++ [' '] ++ showInt 360 ++ ['\n'] ++
          A.flatMap lineText) ++ ['\n'] ∧
        (∀ ln ∈ A, ln.length = 360) ∧
        DrawDetectedLines.readAccumulator 0 text = some ((A.length : Int), 360, A) := by
  have hs : Nat.sqrt (gridZero.num_rows_ * gridZero.num_rows_ +
      gridZero.num_columns_ * gridZero.num_columns_) = 1 :=
    (Nat.eq_sqrt.2 ⟨by decide, by decide⟩).symm
  obtain ⟨img', text, _, hrun, _⟩ := HoughTransform_run 0 gridZero houghOne (by decide)
    (by rw [hs]; decide) (by decide)
  exact ⟨img', text, hrun, accumulator_text_round_trip 0 gridZero houghOne img' text hrun⟩

/-- C6, as stated, fails: for the 1 x 1 grid the accumulator built by
`HoughTransform` and the visualisation grid allocated by `h3.cc` both have
1 row, while the ceiling of `sqrt(1^2 + 1^2)` is 2. -/
theorem accumulator_rows_not_ceil :
    (HoughTransform.accumulate gridZero).map List.length = some 1 ∧
    (h3.hough_image gridZero).map Image.num_rows_ = some 1 ∧
    ⌈Real.sqrt (((gridZero.num_rows_ : Nat) : ℝ) ^ 2 +
      ((gridZero.num_columns_ : Nat) : ℝ) ^ 2)⌉₊ = 2 := by
  have hs : Nat.sqrt (gridZero.num_rows_ * gridZero.num_rows_ +
      gridZero.num_columns_ * gridZero.num_columns_) = 1 :=
    (Nat.eq_sqrt.2 ⟨by decide, by decide⟩).symm
  refine ⟨?_, ?_, ?_⟩
  · obtain ⟨acc, h1, h2, _⟩ := HoughTransform.accumulate_result gridZero (by decide)
    rw [h1, Option.map_some', h2.1, hs]
  · rw [h3.hough_image_eq gridZero (by decide), Option.map_some', hs]
  · have hb := sqrt_two_bounds
    have h11 : (((gridZero.num_rows_ : Nat) : ℝ) ^ 2 +
        ((gridZero.num_columns_ : Nat) : ℝ) ^ 2) = 2 := by
      simp only [gridZero]; norm_num
    rw [h11, Nat.ceil_eq_iff (by decide)]
    constructor <;> norm_num <;> linarith [hb.1, hb.2]

/-- C6, amended. For every edge grid with `rows^2 + cols^2 < 2^31`, the
accumulator that `HoughTransform` builds and serialises, and the
visualisation grid `h3.cc` allocates for it, have exactly
`floor(sqrt(rows^2 + cols^2))` rows (the root truncated, not rounded up) and
360 columns, and these are the dimensions read back from the text. -/
theorem accumulator_dimensions (indet : Int) (g : Image)
    (hov : g.num_rows_ * g.num_rows_ + g.num_columns_ * g.num_columns_ < 2147483648) :
    ∃ acc h img' text,
      HoughTransform.accumulate g = some acc ∧ h3.hough_image g = some h ∧
      HoughTransform g h = some (img', text) ∧
      acc.length = ⌊Real.sqrt ((g.num_rows_ : ℝ) ^ 2 + (g.num_columns_ : ℝ) ^ 2)⌋₊ ∧
      (∀ ln ∈ acc, ln.length = 360) ∧
      h.num_rows_ = ⌊Real.sqrt ((g.num_rows_ : ℝ) ^ 2 + (g.num_columns_ : ℝ) ^ 2)⌋₊ ∧
      h.num_columns_ = 360 ∧
      DrawDetectedLines.readAccumulator indet text =
        some ((⌊Real.sqrt ((g.num_rows_ : ℝ) ^ 2 + (g.num_columns_ : ℝ) ^ 2)⌋₊ : Int), 360, acc) := by
  rw [floor_sqrt_eq]
  obtain ⟨img', text, acc, hrun, hacc, hS, _, _, _, _, _, hread⟩ := HoughTransform_run indet g
    ⟨Nat.sqrt (g.num_rows_ * g.num_rows_ + g.num_columns_ * g.num_columns_), 360, 255,
      fun _ _ => 0⟩ hov (le_refl _) (le_refl _)
  refine ⟨acc, _, img', text, hacc, h3.hough_image_eq g hov, hrun, hS.1, hS.2, rfl, rfl, ?_⟩
  rw [hread, HoughTransform.accu_row_eq _ _ hov]
  rfl

/-- Witness for C6 (amended): the 1 x 2 grid of ones. -/
theorem accumulator_dimensions_witness :
    ∃ acc h img' text,
      HoughTransform.accumulate gridPair = some acc ∧ h3.hough_image gridPair = some h ∧
      HoughTransform gridPair h = some (img', text) ∧
      acc.length =
        ⌊Real.sqrt ((gridPair.num_rows_ : ℝ) ^ 2 + (gridPair.num_columns_ : ℝ) ^ 2)⌋₊ ∧
      (∀ ln ∈ acc, ln.length = 360) ∧
      h.num_rows_ =
        ⌊Real.sqrt ((gridPair.num_rows_ : ℝ) ^ 2 + (gridPair.num_columns_ : ℝ) ^ 2)⌋₊ ∧
      h.num_columns_ = 360 ∧
      DrawDetectedLines.readAccumulator 0 text =
        some ((⌊Real.sqrt ((gridPair.num_rows_ : ℝ) ^ 2 +
          (gridPair.num_columns_ : ℝ) ^ 2)⌋₊ : Int), 360, acc) :=
  accumulator_dimensions 0 gridPair (by decide)

theorem toSizeT_of_nonneg (z : Int) (h : 0 ≤ z) : toSizeT z = z.toNat := by
  simp only [toSizeT, h, if_true]

/-- The local-maximum search never faults on a well-shaped accumulator and
leaves `max` above the candidate's count exactly when the candidate is
dominated inside its clipped window. -/
theorem DrawDetectedLines.scan_result (A : List (List Int)) (rows cols r t : Nat)
    (hS : Shaped A rows cols) :
    ∃ s, DrawDetectedLines.scan A rows cols r t (cellAt A r t) = some s ∧
      (s.max > cellAt A r t ↔ Dominated A rows cols r t) := by
  obtain ⟨s, hs, h1, h2⟩ := forLoop_nested_inv
    (fun ky kx (s : Scan) =>
      (s.stopped = false → s.max = cellAt A r t ∧
        ∀ ly lx : Int, -4 ≤ ly → -4 ≤ lx → lx ≤ 4 →
          (ly + 4 < ky ∨ (ly + 4 = ky ∧ lx + 4 < kx)) →
          0 ≤ ly + r → ly + r < rows → 0 ≤ lx + t → lx + t < cols →
          cellAt A (ly + r).toNat (lx + t).toNat ≤ cellAt A r t) ∧
      (s.stopped = true → s.max > cellAt A r t ∧ Dominated A rows cols r t))
    9 9
    (fun ky kx s => DrawDetectedLines.probe A rows cols r t ((ky : Int) - 4) ((kx : Int) - 4) s)
    { max := cellAt A r t, stopped := false }
    ⟨fun _ => ⟨rfl, fun ly lx h1 h2 _ h3 => by omega⟩, fun h => by cases h⟩
    (by
      intro ky s _ hP
      refine ⟨fun hst => ⟨(hP.1 hst).1, ?_⟩, hP.2⟩
      intro ly lx h1 h2 h3 h4
      exact (hP.1 hst).2 ly lx h1 h2 h3 (by omega))
    (by
      intro ky kx s hky hkx hP
      by_cases hst : s.stopped = true
      · refine ⟨s, by simp only [DrawDetectedLines.probe, hst, if_true], ?_, hP.2⟩
        intro hf
        rw [hst] at hf
        cases hf
      · have hst' : s.stopped = false := by
          cases h : s.stopped
          · rfl
          · exact absurd h hst
        obtain ⟨hmax, hdone⟩ := hP.1 hst'
        by_cases hin : (((ky : Int) - 4) + r ≥ 0 ∧ ((ky : Int) - 4) + r < rows) ∧
            (((kx : Int) - 4) + t ≥ 0 ∧ ((kx : Int) - 4) + t < cols)
        · have hr : (((ky : Int) - 4) + r).toNat < rows := by omega
          have ht : (((kx : Int) - 4) + t).toNat < cols := by omega
          have hread := readCell_shaped hS hr ht
          by_cases hgt : cellAt A (((ky : Int) - 4) + r).toNat (((kx : Int) - 4) + t).toNat > s.max
          · refine ⟨Scan.mk (cellAt A (((ky : Int) - 4) + r).toNat (((kx : Int) - 4) + t).toNat)
                true, ?_, ?_, ?_⟩
            · simp only [DrawDetectedLines.probe, hst', Bool.false_eq_true, if_false, hin,
                and_self, if_true, toSizeT_of_nonneg _ hin.1.1, toSizeT_of_nonneg _ hin.2.1,
                hread, Option.map_some', hgt]
            · intro hf
              cases hf
            · intro _
              refine ⟨?_, ?_⟩
              · rw [← hmax]; exact hgt
              · exact ⟨(ky : Int) - 4, (kx : Int) - 4, by omega, by omega, by omega, by omega,
                  hin.1.1, hin.1.2, hin.2.1, hin.2.2, by rw [← hmax]; exact hgt⟩
          · refine ⟨s, ?_, fun _ => ⟨hmax, ?_⟩, fun hf => absurd hf hst⟩
            · simp only [DrawDetectedLines.probe, hst', Bool.false_eq_true, if_false, hin,
                and_self, if_true, toSizeT_of_nonneg _ hin.1.1, toSizeT_of_nonneg _ hin.2.1,
                hread, Option.map_some', hgt]
            · intro ly lx h1 h2 h3 h4 h5 h6 h7 h8
              by_cases hnew : ly = (ky : Int) - 4 ∧ lx = (kx : Int) - 4
              · rw [hnew.1, hnew.2, ← hmax]
                exact not_lt.mp hgt
              · exact hdone ly lx h1 h2 h3 (by omega) h5 h6 h7 h8
        · refine ⟨s, ?_, fun _ => ⟨hmax, ?_⟩, fun hf => absurd hf hst⟩
          · simp only [DrawDetectedLines.probe, hst', Bool.false_eq_true, if_false, hin]
          · intro ly lx h1 h2 h3 h4 h5 h6 h7 h8
            by_cases hnew : ly = (ky : Int) - 4 ∧ lx = (kx : Int) - 4
            · exfalso
              apply hin
              rw [← hnew.1, ← hnew.2]
              exact ⟨⟨h5, h6⟩, ⟨h7, h8⟩⟩
            · exact hdone ly lx h1 h2 h3 (by omega) h5 h6 h7 h8)
  refine ⟨s, hs, ?_⟩
  cases hst : s.stopped
  · obtain ⟨hmax, hdone⟩ := h1 hst
    constructor
    · intro h; rw [hmax] at h; exact absurd h (lt_irrefl _)
    · rintro ⟨ly, lx, a1, a2, a3, a4, a5, a6, a7, a8, a9⟩
      have := hdone ly lx a1 a3 a4 (by omega) a5 a6 a7 a8
      exact absurd a9 (not_lt.mpr this)
  · exact ⟨fun _ => (h2 hst).2, fun _ => (h2 hst).1⟩

/-- What one visit of a cell does on a well-shaped accumulator: it never
faults and appends the cell's segment exactly when the cell is a peak. -/
theorem DrawDetectedLines.visit_result {α : Type} (segment : Nat → Nat → α)
    (A : List (List Int)) (rows cols : Nat) (thr : Int) (hS : Shaped A rows cols)
    (r t : Nat) (hr : r < rows) (ht : t < cols) (lines : List α) :
    (IsPeak A rows cols thr r t ∧
      DrawDetectedLines.visit segment A rows cols thr r t lines = some (lines ++ [segment r t])) ∨
    (¬ IsPeak A rows cols thr r t ∧
      DrawDetectedLines.visit segment A rows cols thr r t lines = some lines) := by
  obtain ⟨s, hs, hdom⟩ := DrawDetectedLines.scan_result A rows cols r t hS
  by_cases hthr : cellAt A r t ≥ thr
  · by_cases hgt : s.max > cellAt A r t
    · right
      refine ⟨fun hp => hp.2.2.2 (hdom.1 hgt), ?_⟩
      simp only [DrawDetectedLines.visit, readCell_shaped hS hr ht, Option.some_bind, hthr,
        if_true, hs, Option.map_some', hgt]
    · left
      refine ⟨⟨hr, ht, hthr, fun hd => hgt (hdom.2 hd)⟩, ?_⟩
      simp only [DrawDetectedLines.visit, readCell_shaped hS hr ht, Option.some_bind, hthr,
        if_true, hs, Option.map_some', hgt, if_false]
  · right
    refine ⟨fun hp => hthr hp.2.2.1, ?_⟩
    simp only [DrawDetectedLines.visit, readCell_shaped hS hr ht, Option.some_bind, hthr,
      if_false]

/-- C10. For every well-shaped accumulator and every threshold, the peak
extractor of `DrawDetectedLines` completes, and the list of segments it
builds (each tagged here with the cell it comes from) contains exactly one
segment for a cell `(r, t)` if and only if the count of the cell is at or
above the threshold and no cell of the window `r-4..r+4`, `t-4..t+4`, clipped
to the accumulator bounds, has a strictly greater count; for any other cell
it contains none.  In particular a cell at or above the threshold that some
neighbour strictly exceeds gives no segment, and a cell that only ties with
its neighbours is reported. -/
theorem peak_characterisation (A : List (List Int)) (rows cols : Nat) (thr : Int)
    (hS : Shaped A rows cols) :
    ∃ lines, DrawDetectedLines.detect (fun r t => (r, t)) A rows cols thr = some lines ∧
      ∀ r t, (lines.count (r, t) = 1 ↔ IsPeak A rows cols thr r t) ∧
        (¬ IsPeak A rows cols thr r t → lines.count (r, t) = 0) := by
  obtain ⟨lines, hl, hP⟩ := forLoop_nested_inv
    (fun i j (lines : List (Nat × Nat)) => ∀ r t,
      ((((r < i ∧ t < cols) ∨ (r = i ∧ t < j)) ∧ IsPeak A rows cols thr r t) →
        lines.count (r, t) = 1) ∧
      (¬ (((r < i ∧ t < cols) ∨ (r = i ∧ t < j)) ∧ IsPeak A rows cols thr r t) →
        lines.count (r, t) = 0))
    rows cols
    (fun r t lines => DrawDetectedLines.visit (fun r t => (r, t)) A rows cols thr r t lines) []
    (fun r t => ⟨fun h => by omega, fun _ => rfl⟩)
    (by
      intro i st _ hP r t
      have hiff : ((r < i ∧ t < cols) ∨ (r = i ∧ t < cols)) ↔
          ((r < i + 1 ∧ t < cols) ∨ (r = i + 1 ∧ t < 0)) := by omega
      refine ⟨fun h => (hP r t).1 ⟨hiff.2 h.1, h.2⟩, fun h => (hP r t).2 ?_⟩
      exact fun h' => h ⟨hiff.1 h'.1, h'.2⟩)
    (by
      intro i j st hi hj hP
      rcases DrawDetectedLines.visit_result (fun r t => (r, t)) A rows cols thr hS i j hi hj st
        with ⟨hpk, hv⟩ | ⟨hpk, hv⟩
      · refine ⟨_, hv, ?_⟩
        intro r t
        rw [List.count_append, List.count_singleton]
        by_cases hrt : (i, j) = (r, t)
        · have h1 : r = i ∧ t = j := by
            simp only [Prod.mk.injEq] at hrt; exact ⟨hrt.1.symm, hrt.2.symm⟩
          obtain ⟨rfl, rfl⟩ := h1
          have h0 := (hP r t).2 (fun h => by omega)
          rw [h0, beq_self_eq_true, if_pos rfl]
          exact ⟨fun _ => rfl, fun h => absurd ⟨Or.inr ⟨rfl, Nat.lt_succ_self t⟩, hpk⟩ h⟩
        · have hne : ((i, j) == (r, t)) = false := by
            simp only [beq_eq_false_iff_ne, ne_eq]; exact hrt
          have h1 : ¬ (r = i ∧ t = j) := by
            rintro ⟨rfl, rfl⟩; exact hrt rfl
          have hiff : ((r < i ∧ t < cols) ∨ (r = i ∧ t < j + 1)) ↔
              ((r < i ∧ t < cols) ∨ (r = i ∧ t < j)) := by omega
          simp only [hne, Bool.false_eq_true, if_false, add_zero]
          exact ⟨fun h => (hP r t).1 ⟨hiff.1 h.1, h.2⟩,
            fun h => (hP r t).2 (fun h' => h ⟨hiff.2 h'.1, h'.2⟩)⟩
      · refine ⟨_, hv, ?_⟩
        intro r t
        by_cases h1 : r = i ∧ t = j
        · obtain ⟨rfl, rfl⟩ := h1
          have h0 := (hP r t).2 (fun h => by omega)
          exact ⟨fun h => absurd h.2 hpk, fun _ => h0⟩
        · have hiff : ((r < i ∧ t < cols) ∨ (r = i ∧ t < j + 1)) ↔
              ((r < i ∧ t < cols) ∨ (r = i ∧ t < j)) := by omega
          exact ⟨fun h => (hP r t).1 ⟨hiff.1 h.1, h.2⟩,
            fun h => (hP r t).2 (fun h' => h ⟨hiff.2 h'.1, h'.2⟩)⟩)
  refine ⟨lines, by simp only [DrawDetectedLines.detect, Int.toNat_natCast, hl], ?_⟩
  intro r t
  have hdone : IsPeak A rows cols thr r t →
      ((r < rows ∧ t < cols) ∨ (r = rows ∧ t < 0)) ∧ IsPeak A rows cols thr r t :=
    fun h => ⟨Or.inl ⟨h.1, h.2.1⟩, h⟩
  constructor
  · constructor
    · intro h1
      by_contra hn
      have := (hP r t).2 (fun h => hn h.2)
      omega
    · exact fun h => (hP r t).1 (hdone h)
  · exact fun hn => (hP r t).2 (fun h => hn h.2)

/-- Witness for C10: the 2 x 2 accumulator `accuPlateau` with threshold 5. -/
theorem peak_characterisation_witness :
    ∃ lines, DrawDetectedLines.detect (fun r t => (r, t)) accuPlateau (2 : Nat) (2 : Nat) 5 =
        some lines ∧
      ∀ r t, (lines.count (r, t) = 1 ↔ IsPeak accuPlateau 2 2 5 r t) ∧
        (¬ IsPeak accuPlateau 2 2 5 r t → lines.count (r, t) = 0) :=
  peak_characterisation accuPlateau 2 2 5 ⟨rfl, by decide⟩

/-- A loop whose state is transformed by `f` simulates the original loop. -/
theorem forLoop_map {σ τ : Type} (f : σ → τ) (n : Nat) (body : Nat → σ → Option σ)
    (body' : Nat → τ → Option τ) (s : σ)
    (h : ∀ k st, body' k (f st) = (body k st).map f) :
    forLoop n body' (f s) = (forLoop n body s).map f := by
  induction n with
  | zero => rfl
  | succ k ih =>
    simp only [forLoop, ih]
    cases forLoop k body s with
    | none => rfl
    | some st => simp only [Option.map_some', Option.some_bind, h]

/-- The segments `DrawDetectedLines` collects are the images, under the
back-projection, of the cells collected by the cell-tagged extractor, in the
same order and with the same multiplicity. -/
theorem DrawDetectedLines.detect_map {α : Type} (segment : Nat → Nat → α)
    (A : List (List Int)) (accu_row accu_col thr : Int) :
    DrawDetectedLines.detect segment A accu_row accu_col thr =
      (DrawDetectedLines.detect (fun r t => (r, t)) A accu_row accu_col thr).map
        (List.map fun p => segment p.1 p.2) := by
  unfold DrawDetectedLines.detect
  refine forLoop_map (List.map fun (p : Nat × Nat) => segment p.1 p.2) accu_row.toNat
    (fun r lines => forLoop accu_col.toNat (fun t lines =>
      DrawDetectedLines.visit (fun r t => (r, t)) A accu_row accu_col thr r t lines) lines)
    (fun r lines => forLoop accu_col.toNat (fun t lines =>
      DrawDetectedLines.visit segment A accu_row accu_col thr r t lines) lines) [] ?_
  intro r st
  refine forLoop_map (List.map fun (p : Nat × Nat) => segment p.1 p.2) accu_col.toNat
    (fun t lines => DrawDetectedLines.visit (fun r t => (r, t)) A accu_row accu_col thr r t lines)
    (fun t lines => DrawDetectedLines.visit segment A accu_row accu_col thr r t lines) st ?_
  intro t st'
  show DrawDetectedLines.visit segment A accu_row accu_col thr r t
      (List.map (fun (p : Nat × Nat) => segment p.1 p.2) st') =
    (DrawDetectedLines.visit (fun r t => (r, t)) A accu_row accu_col thr r t st').map
      (List.map fun (p : Nat × Nat) => segment p.1 p.2)
  unfold DrawDetectedLines.visit
  cases h1 : readCell A r t with
  | none => rfl
  | some v =>
    simp only [Option.some_bind]
    by_cases hv : v ≥ thr
    · simp only [hv, if_true]
      cases h2 : DrawDetectedLines.scan A accu_row accu_col r t v with
      | none => rfl
      | some s =>
        simp only [Option.map_some']
        by_cases hs : s.max > v
        · simp only [hs, if_true]
        · simp only [hs, if_false, List.map_append, List.map_cons, List.map_nil]
    · simp only [hv, if_false, Option.map_some']

theorem sin_bin_pos (t : Nat) (h0 : 0 < t) (ht : t < 360) :
    0 < Real.sin ((t : ℝ) * (Real.pi / 360)) := by
  have hpi := Real.pi_pos
  have h1 : (0 : ℝ) < (t : ℝ) := by exact_mod_cast h0
  have h2 : (t : ℝ) < 360 := by exact_mod_cast ht
  apply Real.sin_pos_of_pos_of_lt_pi
  · positivity
  · calc (t : ℝ) * (Real.pi / 360) < 360 * (Real.pi / 360) := by
          apply mul_lt_mul_of_pos_right h2; positivity
      _ = Real.pi := by ring

theorem cos_bin_ne_zero (t : Nat) (ht : t < 360) (h180 : t ≠ 180) :
    Real.cos ((t : ℝ) * (Real.pi / 360)) ≠ 0 := by
  have hpi := Real.pi_pos
  have h2 : (t : ℝ) < 360 := by exact_mod_cast ht
  rcases Nat.lt_or_gt_of_ne h180 with hlt | hgt
  · have h3 : (t : ℝ) < 180 := by exact_mod_cast hlt
    have h0 : (0 : ℝ) ≤ (t : ℝ) := Nat.cast_nonneg t
    apply ne_of_gt
    apply Real.cos_pos_of_mem_Ioo
    constructor
    · have : (0 : ℝ) ≤ (t : ℝ) * (Real.pi / 360) := by positivity
      linarith
    · nlinarith
  · have h3 : (180 : ℝ) < (t : ℝ) := by exact_mod_cast hgt
    apply ne_of_lt
    apply Real.cos_neg_of_pi_div_two_lt_of_lt
    · nlinarith
    · nlinarith

/-- The divisor selected for the angle bin 180 is `cos(pi/2)`, that is, zero. -/
theorem DrawDetectedLines.divisor_180 : DrawDetectedLines.divisor 180 = 0 := by
  have hb : ¬ DrawDetectedLines.sinBranch 180 := by decide
  have h : ((180 : Nat) : ℝ) * (Real.pi / 360) = Real.pi / 2 := by
    push_cast; ring
  rw [DrawDetectedLines.divisor, if_neg hb, h, Real.cos_pi_div_two]

/-- Away from the bin 180 the selected divisor is nonzero. -/
theorem DrawDetectedLines.divisor_ne_zero_of_ne (t : Nat) (ht : t < 360) (h180 : t ≠ 180) :
    DrawDetectedLines.divisor t ≠ 0 := by
  unfold DrawDetectedLines.divisor
  split
  · rename_i hb
    have h0 : 0 < t := by
      unfold DrawDetectedLines.sinBranch at hb; omega
    exact ne_of_gt (sin_bin_pos t h0 ht)
  · exact cos_bin_ne_zero t ht h180

/-- C16, as stated, fails: for the angle bin 180, which lies in neither of
the ranges [45,135] and [225,315], the divisor selected by the back-projector
is `cos(180*pi/360) = cos(pi/2)`, which is zero. -/
theorem divisor_zero_at_180 :
    (180 < 360) ∧ ¬ DrawDetectedLines.sinBranch 180 ∧ DrawDetectedLines.divisor 180 = 0 :=
  ⟨by decide, by decide, DrawDetectedLines.divisor_180⟩

/-- C16, amended. For every angle bin `t` in 0..359, the divisor the
back-projector selects for that bin (`sin(t*pi/360)` when `t` is in [45,135]
or [225,315], `cos(t*pi/360)` otherwise) is nonzero exactly when `t` is not
180, taking sin and cos as exact real functions. -/
theorem divisor_ne_zero_iff (t : Nat) (ht : t < 360) :
    DrawDetectedLines.divisor t ≠ 0 ↔ t ≠ 180 := by
  constructor
  · intro h e
    subst e
    exact h DrawDetectedLines.divisor_180
  · exact DrawDetectedLines.divisor_ne_zero_of_ne t ht

/-- Witness for C16 (amended): the angle bin 0. -/
theorem divisor_ne_zero_iff_witness :
    (0 < 360) ∧ (DrawDetectedLines.divisor 0 ≠ 0 ↔ 0 ≠ 180) :=
  ⟨by decide, divisor_ne_zero_iff 0 (by decide)⟩

/-- Truncation toward zero moves a real by less than 1. -/
theorem truncToInt_err (z : ℝ) : |((truncToInt z : Int) : ℝ) - z| < 1 := by
  unfold truncToInt
  split
  · have h1 := Int.floor_le z
    have h2 := Int.lt_floor_add_one z
    rw [abs_lt]; constructor <;> linarith
  · have h1 := Int.le_ceil z
    have h2 := Int.ceil_lt_add_one z
    rw [abs_lt]; constructor <;> linarith

/-- With a non-zero divisor of absolute value at most 1, the truncated
quotient multiplied back misses the numerator by less than 1. -/
theorem divToInt_err (num den : ℝ) (hden : den ≠ 0) (hle : |den| ≤ 1) :
    |den * ((divToInt num den : Int) : ℝ) - num| < 1 := by
  have h := truncToInt_err (num / den)
  have hpos : 0 < |den| := abs_pos.2 hden
  have e : den * ((divToInt num den : Int) : ℝ) - num =
      den * (((truncToInt (num / den) : Int) : ℝ) - num / den) := by
    rw [divToInt, if_neg hden, mul_sub, mul_div_cancel₀ num hden]
  rw [e, abs_mul]
  calc |den| * |((truncToInt (num / den) : Int) : ℝ) - num / den|
      < |den| * 1 := by apply mul_lt_mul_of_pos_left h hpos
    _ ≤ 1 := by linarith

/-- C19. For every peak `(r, t)` whose selected divisor is nonzero, the two
end points computed by the back-projector (in the sin branch `x1 = 0` and
`x2 = numColumns`, in the cos branch `y1 = 0` and `y2 = numRows`, the solved
coordinate truncated to an integer) satisfy
`|x*cos(theta) + y*sin(theta) - r| < 1` with `theta = t*pi/360`, in exact real
arithmetic. -/
theorem segment_on_polar_line (row column r t : Nat)
    (hdiv : DrawDetectedLines.divisor t ≠ 0) :
    (DrawDetectedLines.sinBranch t →
      (DrawDetectedLines.segment row column r t).1.1 = 0 ∧
      (DrawDetectedLines.segment row column r t).2.1 = column) ∧
    (¬ DrawDetectedLines.sinBranch t →
      (DrawDetectedLines.segment row column r t).1.2 = 0 ∧
      (DrawDetectedLines.segment row column r t).2.2 = row) ∧
    |((DrawDetectedLines.segment row column r t).1.1 : ℝ) * Real.cos ((t : ℝ) * (Real.pi / 360)) +
      ((DrawDetectedLines.segment row column r t).1.2 : ℝ) * Real.sin ((t : ℝ) * (Real.pi / 360)) -
      (r : ℝ)| < 1 ∧
    |((DrawDetectedLines.segment row column r t).2.1 : ℝ) * Real.cos ((t : ℝ) * (Real.pi / 360)) +
      ((DrawDetectedLines.segment row column r t).2.2 : ℝ) * Real.sin ((t : ℝ) * (Real.pi / 360)) -
      (r : ℝ)| < 1 := by
  by_cases hb : DrawDetectedLines.sinBranch t
  · have hs : Real.sin ((t : ℝ) * (Real.pi / 360)) ≠ 0 := by
      simpa only [DrawDetectedLines.divisor, if_pos hb] using hdiv
    have hle := Real.abs_sin_le_one ((t : ℝ) * (Real.pi / 360))
    refine ⟨fun _ => ?_, fun h => absurd hb h, ?_, ?_⟩
    · simp only [DrawDetectedLines.segment, if_pos hb, and_self]
    · have h := divToInt_err ((r : ℝ) - ((0 : Int) : ℝ) * Real.cos ((t : ℝ) * (Real.pi / 360)))
        (Real.sin ((t : ℝ) * (Real.pi / 360))) hs hle
      simp only [DrawDetectedLines.segment, if_pos hb]
      rw [abs_lt] at h ⊢
      constructor <;> nlinarith [h.1, h.2]
    · have h := divToInt_err ((r : ℝ) - ((column : Int) : ℝ) * Real.cos ((t : ℝ) * (Real.pi / 360)))
        (Real.sin ((t : ℝ) * (Real.pi / 360))) hs hle
      simp only [DrawDetectedLines.segment, if_pos hb]
      rw [abs_lt] at h ⊢
      constructor <;> nlinarith [h.1, h.2]
  · have hc : Real.cos ((t : ℝ) * (Real.pi / 360)) ≠ 0 := by
      simpa only [DrawDetectedLines.divisor, if_neg hb] using hdiv
    have hle := Real.abs_cos_le_one ((t : ℝ) * (Real.pi / 360))
    refine ⟨fun h => absurd h hb, fun _ => ?_, ?_, ?_⟩
    · simp only [DrawDetectedLines.segment, if_neg hb, and_self]
    · have h := divToInt_err ((r : ℝ) - ((0 : Int) : ℝ) * Real.sin ((t : ℝ) * (Real.pi / 360)))
        (Real.cos ((t : ℝ) * (Real.pi / 360))) hc hle
      simp only [DrawDetectedLines.segment, if_neg hb]
      rw [abs_lt] at h ⊢
      constructor <;> nlinarith [h.1, h.2]
    · have h := divToInt_err ((r : ℝ) - ((row : Int) : ℝ) * Real.sin ((t : ℝ) * (Real.pi / 360)))
        (Real.cos ((t : ℝ) * (Real.pi / 360))) hc hle
      simp only [DrawDetectedLines.segment, if_neg hb]
      rw [abs_lt] at h ⊢
      constructor <;> nlinarith [h.1, h.2]

/-- Witness for C19: the peak `(3, 0)` on a 4 x 7 image. -/
theorem segment_on_polar_line_witness :
    (DrawDetectedLines.sinBranch 0 →
      (DrawDetectedLines.segment 4 7 3 0).1.1 = 0 ∧
      (DrawDetectedLines.segment 4 7 3 0).2.1 = (7 : Nat)) ∧
    (¬ DrawDetectedLines.sinBranch 0 →
      (DrawDetectedLines.segment 4 7 3 0).1.2 = 0 ∧
      (DrawDetectedLines.segment 4 7 3 0).2.2 = (4 : Nat)) ∧
    |((DrawDetectedLines.segment 4 7 3 0).1.1 : ℝ) * Real.cos (((0 : Nat) : ℝ) * (Real.pi / 360)) +
      ((DrawDetectedLines.segment 4 7 3 0).1.2 : ℝ) * Real.sin (((0 : Nat) : ℝ) * (Real.pi / 360)) -
      ((3 : Nat) : ℝ)| < 1 ∧
    |((DrawDetectedLines.segment 4 7 3 0).2.1 : ℝ) * Real.cos (((0 : Nat) : ℝ) * (Real.pi / 360)) +
      ((DrawDetectedLines.segment 4 7 3 0).2.2 : ℝ) * Real.sin (((0 : Nat) : ℝ) * (Real.pi / 360)) -
      ((3 : Nat) : ℝ)| < 1 :=
  segment_on_polar_line 4 7 3 0 (DrawDetectedLines.divisor_ne_zero_of_ne 0 (by decide) (by decide))

/-- The magnitude stored for sums bounded by `4 * M` with `M ≤ 4095` lies
between 0 and `6 * M`. -/
theorem LocateEdges.magnitude_bound (gx gy M : Int) (hM : M ≤ 4095)
    (hx : -(4 * M) ≤ gx ∧ gx ≤ 4 * M) (hy : -(4 * M) ≤ gy ∧ gy ≤ 4 * M) :
    0 ≤ LocateEdges.magnitude (gx, gy) ∧ LocateEdges.magnitude (gx, gy) ≤ 6 * M := by
  have hM0 : 0 ≤ M := by omega
  have h1 : 0 ≤ gx * gx := mul_self_nonneg gx
  have h2 : 0 ≤ gy * gy := mul_self_nonneg gy
  have h3 : gx * gx ≤ 16 * (M * M) := by nlinarith [hx.1, hx.2]
  have h4 : gy * gy ≤ 16 * (M * M) := by nlinarith [hy.1, hy.2]
  have h5 : M * M ≤ 16769025 := by nlinarith
  have e1 : wrap32 (gx * gx) = gx * gx := wrap32_id _ (by omega) (by omega)
  have e2 : wrap32 (gy * gy) = gy * gy := wrap32_id _ (by omega) (by omega)
  have e3 : wrap32 (gx * gx + gy * gy) = gx * gx + gy * gy := wrap32_id _ (by omega) (by omega)
  have h6 : (0 : Int) ≤ gx * gx + gy * gy := by omega
  simp only [LocateEdges.magnitude, e1, e2, e3, sqrtToInt, h6, if_true]
  refine ⟨Int.natCast_nonneg _, ?_⟩
  have h7 : Nat.sqrt (gx * gx + gy * gy).toNat < (6 * M).toNat + 1 := by
    rw [Nat.sqrt_lt']
    have h8 : (((gx * gx + gy * gy).toNat : Nat) : Int) = gx * gx + gy * gy :=
      Int.toNat_of_nonneg h6
    have h9 : (((6 * M).toNat : Nat) : Int) = 6 * M := Int.toNat_of_nonneg (by omega)
    have : (((gx * gx + gy * gy).toNat : Nat) : Int) < ((((6 * M).toNat + 1) ^ 2 : Nat) : Int) := by
      rw [h8]; push_cast; rw [h9]; nlinarith
    exact_mod_cast this
  have h9 : (((6 * M).toNat : Nat) : Int) = 6 * M := Int.toNat_of_nonneg (by omega)
  omega

theorem gridEdge_pixels (a b : Nat) :
    0 ≤ gridEdge.pixels_ a b ∧ gridEdge.pixels_ a b ≤ (gridEdge.num_gray_levels_ : Int) := by
  unfold gridEdge
  simp only
  split <;> norm_num

theorem gridEdge_sums :
    neighbourhoodSum sobel_x gridEdge 1 1 = 1020 ∧ neighbourhoodSum sobel_y gridEdge 1 1 = 0 := by
  decide

/-- C15, as stated, fails for `LocateEdges`: the 3 x 3 grid `gridEdge` with
ceiling 255 holds only the values 0 and 255, and after `LocateEdges` its
ceiling is still 255 while the pixel (1, 1) holds 1020. -/
theorem LocateEdges_exceeds_ceiling :
    (∀ a b, 0 ≤ gridEdge.pixels_ a b ∧ gridEdge.pixels_ a b ≤ (gridEdge.num_gray_levels_ : Int)) ∧
    ∃ g', LocateEdges gridEdge = some g' ∧ g'.num_gray_levels_ = 255 ∧
      g'.GetPixel 1 1 = some 1020 := by
  refine ⟨gridEdge_pixels, ?_⟩
  obtain ⟨g', hg', hr, hc, hl, hp⟩ := LocateEdges_result gridEdge
  refine ⟨g', hg', hl, ?_⟩
  have hconv := LocateEdges.convolve_interior_exact gridEdge 1 1 (by decide) (by decide)
    (by decide) (by decide)
    (fun a b _ _ => ⟨by linarith [(gridEdge_pixels a b).1],
      by have := (gridEdge_pixels a b).2; simp only [gridEdge] at this ⊢; omega⟩)
  rw [gridEdge_sums.1, gridEdge_sums.2] at hconv
  have hin : ¬ (1 ≥ g'.num_rows_ ∨ 1 ≥ g'.num_columns_) := by
    rw [hr, hc]; decide
  have h11 : (1 < gridEdge.num_rows_ ∧ 1 < gridEdge.num_columns_) := by decide
  have hs : Nat.sqrt 1040400 = 1020 := (Nat.eq_sqrt.2 ⟨by decide, by decide⟩).symm
  have h8 : Int.toNat 1040400 = 1040400 := rfl
  have hm : LocateEdges.magnitude (1020, 0) = 1020 := by
    simp only [LocateEdges.magnitude]
    norm_num [wrap32, sqrtToInt, h8, hs]
  simp only [Image.GetPixel, hin, if_false, hp 1 1, h11, and_self, if_true, hconv,
    Option.map_some', Option.getD_some, hm]

/-- C15, amended. For every grid whose ceiling is at most 4095 and whose
pixels all lie in [0, maxGrayLevel]: `ConvertToBinary`, for every threshold,
completes and every pixel of its result lies in [0, maxGrayLevel] of the
resulting grid (which is 1); `LocateEdges` completes, keeps the ceiling, and
every pixel of its result lies in [0, 6 * maxGrayLevel], not necessarily in
[0, maxGrayLevel]. -/
theorem stages_value_range (g : Image) (hM : g.num_gray_levels_ ≤ 4095)
    (hpix : ∀ a b, a < g.num_rows_ → b < g.num_columns_ →
      0 ≤ g.pixels_ a b ∧ g.pixels_ a b ≤ (g.num_gray_levels_ : Int)) :
    (∀ t, ∃ g', ConvertToBinary t g = some g' ∧
      ∀ i j v, g'.GetPixel i j = some v → 0 ≤ v ∧ v ≤ (g'.num_gray_levels_ : Int)) ∧
    (∃ g', LocateEdges g = some g' ∧ g'.num_gray_levels_ = g.num_gray_levels_ ∧
      ∀ i j v, g'.GetPixel i j = some v → 0 ≤ v ∧ v ≤ 6 * (g'.num_gray_levels_ : Int)) := by
  constructor
  · intro t
    refine ⟨_, ConvertToBinary_result t g, ?_⟩
    intro i j v hv
    unfold Image.GetPixel at hv
    by_cases h : i ≥ g.num_rows_ ∨ j ≥ g.num_columns_
    · simp [h] at hv
    · have h' : i < g.num_rows_ ∧ j < g.num_columns_ := by omega
      simp only [h, if_false, h', and_self, if_true, Option.some.injEq] at hv
      subst hv
      unfold binarise
      split <;> simp
  · obtain ⟨g', hg', hr, hc, hl, hp⟩ := LocateEdges_result g
    refine ⟨g', hg', hl, ?_⟩
    intro i j v hv
    unfold Image.GetPixel at hv
    by_cases h : i ≥ g'.num_rows_ ∨ j ≥ g'.num_columns_
    · simp [h] at hv
    · have hij : i < g.num_rows_ ∧ j < g.num_columns_ := by rw [hr, hc] at h; omega
      simp only [h, if_false, Option.some.injEq, hp i j, hij, and_self, if_true] at hv
      subst hv
      rw [hl]
      have hM' : (g.num_gray_levels_ : Int) ≤ 4095 := by exact_mod_cast hM
      by_cases hb : i = 0 ∨ (i : Int) = (g.num_rows_ : Int) - 1 ∨ j = 0 ∨
          (j : Int) = (g.num_columns_ : Int) - 1
      · rw [LocateEdges.convolve_border g _ _ i j hb]
        simp only [Option.map_some', Option.getD_some, LocateEdges.magnitude_zero]
        omega
      · have hi : 1 ≤ i := by omega
        have hi' : i + 1 < g.num_rows_ := by omega
        have hj : 1 ≤ j := by omega
        have hj' : j + 1 < g.num_columns_ := by omega
        have hconv := LocateEdges.convolve_interior_exact g i j hi hi' hj hj'
          (fun a b ha hb => ⟨by linarith [(hpix a b ha hb).1], by linarith [(hpix a b ha hb).2]⟩)
        rw [hconv]
        simp only [Option.map_some', Option.getD_some]
        apply LocateEdges.magnitude_bound _ _ _ hM'
        · have p00 := hpix (i + 0 - 1) (j + 0 - 1) (by omega) (by omega)
          have p02 := hpix (i + 0 - 1) (j + 2 - 1) (by omega) (by omega)
          have p10 := hpix (i + 1 - 1) (j + 0 - 1) (by omega) (by omega)
          have p12 := hpix (i + 1 - 1) (j + 2 - 1) (by omega) (by omega)
          have p20 := hpix (i + 2 - 1) (j + 0 - 1) (by omega) (by omega)
          have p22 := hpix (i + 2 - 1) (j + 2 - 1) (by omega) (by omega)
          simp only [neighbourhoodSum, Finset.sum_range_succ, Finset.sum_range_zero, zero_add,
            kernelAt, sobel_x, List.getD_cons_zero, List.getD_cons_succ]
          constructor <;> omega
        · have p00 := hpix (i + 0 - 1) (j + 0 - 1) (by omega) (by omega)
          have p01 := hpix (i + 0 - 1) (j + 1 - 1) (by omega) (by omega)
          have p02 := hpix (i + 0 - 1) (j + 2 - 1) (by omega) (by omega)
          have p20 := hpix (i + 2 - 1) (j + 0 - 1) (by omega) (by omega)
          have p21 := hpix (i + 2 - 1) (j + 1 - 1) (by omega) (by omega)
          have p22 := hpix (i + 2 - 1) (j + 2 - 1) (by omega) (by omega)
          simp only [neighbourhoodSum, Finset.sum_range_succ, Finset.sum_range_zero, zero_add,
            kernelAt, sobel_y, List.getD_cons_zero, List.getD_cons_succ]
          constructor <;> omega

/-- Witness for C15 (amended): the grid `gridEdge`. -/
theorem stages_value_range_witness :
    (∀ t, ∃ g', ConvertToBinary t gridEdge = some g' ∧
      ∀ i j v, g'.GetPixel i j = some v → 0 ≤ v ∧ v ≤ (g'.num_gray_levels_ : Int)) ∧
    (∃ g', LocateEdges gridEdge = some g' ∧ g'.num_gray_levels_ = gridEdge.num_gray_levels_ ∧
      ∀ i j v, g'.GetPixel i j = some v → 0 ≤ v ∧ v ≤ 6 * (g'.num_gray_levels_ : Int)) :=
  stages_value_range gridEdge (by decide) (fun a b _ _ => gridEdge_pixels a b)

/-- On the diagonal the radius for the bin 90 (45 degrees) is `k * sqrt 2`. -/
theorem radius_diag_90 (k : Nat) : HoughTransform.radius k k 90 = (k : ℝ) * Real.sqrt 2 := by
  have h : ((90 : Nat) : ℝ) * (Real.pi / 360) = Real.pi / 4 := by
    push_cast; ring
  simp only [HoughTransform.radius, h, Real.cos_pi_div_four, Real.sin_pi_div_four]
  ring

/-- On the diagonal the radius for the bin 270 (135 degrees) is 0. -/
theorem radius_diag_270 (k : Nat) : HoughTransform.radius k k 270 = 0 := by
  have h : ((270 : Nat) : ℝ) * (Real.pi / 360) = Real.pi - Real.pi / 4 := by
    push_cast; ring
  simp only [HoughTransform.radius, h, Real.cos_pi_sub, Real.sin_pi_sub, Real.cos_pi_div_four,
    Real.sin_pi_div_four]
  ring

theorem floor_diag_90 (k : Nat) (hk : k < 5) :
    0 ≤ HoughTransform.radius k k 90 ∧ ⌊HoughTransform.radius k k 90⌋₊ = diagBin k := by
  have hb := sqrt_two_bounds
  rw [radius_diag_90]
  have h0 : (0 : ℝ) ≤ (k : ℝ) * Real.sqrt 2 := by positivity
  refine ⟨h0, ?_⟩
  rw [Nat.floor_eq_iff h0]
  have hcases : k = 0 ∨ k = 1 ∨ k = 2 ∨ k = 3 ∨ k = 4 := by omega
  rcases hcases with h | h | h | h | h <;> subst h <;> simp only [diagBin, List.getD_cons_zero,
    List.getD_cons_succ] <;> push_cast <;> constructor <;> linarith [hb.1, hb.2]

theorem votesFor_gridDiag_off (rho t y x : Nat) (h : y ≠ x) : votesFor gridDiag rho t y x = 0 := by
  unfold votesFor gridDiag
  simp only [h, if_false, ne_eq, not_true_eq_false, false_and]

theorem votesFor_gridDiag_90 (rho k : Nat) (hk : k < 5) :
    votesFor gridDiag rho 90 k k = if diagBin k = rho then 1 else 0 := by
  have h := floor_diag_90 k hk
  have hp : gridDiag.pixels_ k k ≠ 0 := by simp [gridDiag]
  unfold votesFor
  simp only [hp, h.1, h.2, ne_eq, not_false_eq_true, true_and]

theorem votesFor_gridDiag_270 (k : Nat) : votesFor gridDiag 0 270 k k = 1 := by
  have hp : gridDiag.pixels_ k k ≠ 0 := by simp [gridDiag]
  unfold votesFor
  rw [radius_diag_270, if_pos]
  exact ⟨hp, le_refl 0, by simp⟩

/-- The votes in the angle bin 90 for the diagonal grid: the five pixels fall
into the radius bins 0, 1, 2, 4 and 5, one each. -/
theorem voteCount_gridDiag_90 (rho : Nat) :
    voteCount gridDiag rho 90 = if rho = 0 ∨ rho = 1 ∨ rho = 2 ∨ rho = 4 ∨ rho = 5 then 1 else 0 := by
  have hrc : gridDiag.num_rows_ = 5 ∧ gridDiag.num_columns_ = 5 := ⟨rfl, rfl⟩
  have e0 := votesFor_gridDiag_90 rho 0 (by decide)
  have e1 := votesFor_gridDiag_90 rho 1 (by decide)
  have e2 := votesFor_gridDiag_90 rho 2 (by decide)
  have e3 := votesFor_gridDiag_90 rho 3 (by decide)
  have e4 := votesFor_gridDiag_90 rho 4 (by decide)
  have o := fun y x (h : y ≠ x) => votesFor_gridDiag_off rho 90 y x h
  simp only [voteCount, hrc.1, hrc.2, Finset.sum_range_succ, Finset.sum_range_zero, zero_add,
    e0, e1, e2, e3, e4,
    o 0 1 (by decide), o 0 2 (by decide), o 0 3 (by decide), o 0 4 (by decide),
    o 1 0 (by decide), o 1 2 (by decide), o 1 3 (by decide), o 1 4 (by decide),
    o 2 0 (by decide), o 2 1 (by decide), o 2 3 (by decide), o 2 4 (by decide),
    o 3 0 (by decide), o 3 1 (by decide), o 3 2 (by decide), o 3 4 (by decide),
    o 4 0 (by decide), o 4 1 (by decide), o 4 2 (by decide), o 4 3 (by decide),
    add_zero, diagBin, List.getD_cons_zero, List.getD_cons_succ]
  split_ifs <;> omega

/-- The votes in cell (0, 270) for the diagonal grid: all five pixels. -/
theorem voteCount_gridDiag_270 : voteCount gridDiag 0 270 = 5 := by
  have hrc : gridDiag.num_rows_ = 5 ∧ gridDiag.num_columns_ = 5 := ⟨rfl, rfl⟩
  have o := fun y x (h : y ≠ x) => votesFor_gridDiag_off 0 270 y x h
  simp only [voteCount, hrc.1, hrc.2, Finset.sum_range_succ, Finset.sum_range_zero, zero_add,
    votesFor_gridDiag_270,
    o 0 1 (by decide), o 0 2 (by decide), o 0 3 (by decide), o 0 4 (by decide),
    o 1 0 (by decide), o 1 2 (by decide), o 1 3 (by decide), o 1 4 (by decide),
    o 2 0 (by decide), o 2 1 (by decide), o 2 3 (by decide), o 2 4 (by decide),
    o 3 0 (by decide), o 3 1 (by decide), o 3 2 (by decide), o 3 4 (by decide),
    o 4 0 (by decide), o 4 1 (by decide), o 4 2 (by decide), o 4 3 (by decide),
    add_zero]

/-- The accumulator of the diagonal grid: 7 lines of 360 cells holding the
vote counts. -/
theorem accumulate_gridDiag :
    ∃ acc, HoughTransform.accumulate gridDiag = some acc ∧ Shaped acc 7 360 ∧
      ∀ rho t, rho < 7 → t < 360 → readCell acc rho t = some (voteCount gridDiag rho t : Int) := by
  obtain ⟨acc, h1, h2, h3⟩ := HoughTransform.accumulate_result gridDiag (by decide)
  have hs : Nat.sqrt (gridDiag.num_rows_ * gridDiag.num_rows_ +
      gridDiag.num_columns_ * gridDiag.num_columns_) = 7 :=
    (Nat.eq_sqrt.2 ⟨by decide, by decide⟩).symm
  rw [hs] at h2
  refine ⟨acc, h1, h2, ?_⟩
  intro rho t hr ht
  rw [readCell_shaped h2 hr ht, h3 rho t ht]

/-- C13, as stated, fails: for the 5 x 5 grid whose diagonal pixels are 1 the
accumulator has 7 radius bins, and in the angle bin 90 (45 degrees) no radius
bin holds 5: every one of them holds at most 1. -/
theorem HoughTransform_diagonal_no_five :
    ∃ acc, HoughTransform.accumulate gridDiag = some acc ∧ Shaped acc 7 360 ∧
      ∀ rho v, readCell acc rho 90 = some v → v ≤ 1 := by
  obtain ⟨acc, h1, h2, h3⟩ := accumulate_gridDiag
  refine ⟨acc, h1, h2, ?_⟩
  intro rho v hv
  by_cases hr : rho < 7
  · rw [h3 rho 90 hr (by decide), voteCount_gridDiag_90] at hv
    simp only [Option.some.injEq] at hv
    subst hv
    split_ifs <;> simp
  · have hnone : readCell acc rho 90 = none := by
      unfold readCell
      rw [List.getElem?_eq_none (by rw [h2.1]; omega)]
      rfl
    rw [hnone] at hv
    cases hv

/-- C13, amended. For the 5 x 5 grid whose pixels (k, k), k = 0..4, are 1
and all others 0, `HoughTransform` builds an accumulator of 7 radius bins; in
the angle bin 90 (45 degrees) the radii `k * sqrt 2` of the five edge pixels
truncate to 0, 1, 2, 4 and 5, so the radius bins 0..6 hold 1, 1, 1, 0, 1, 1, 0;
the count 5 is found in the angle bin 270 (135 degrees, the direction of the
normal of the diagonal) at radius bin 0, with cos and sin exact. -/
theorem HoughTransform_diagonal :
    ∃ acc, HoughTransform.accumulate gridDiag = some acc ∧ Shaped acc 7 360 ∧
      (List.range 7).map (fun rho => readCell acc rho 90) =
        [some 1, some 1, some 1, some 0, some 1, some 1, some 0] ∧
      readCell acc 0 270 = some 5 := by
  obtain ⟨acc, h1, h2, h3⟩ := accumulate_gridDiag
  refine ⟨acc, h1, h2, ?_, ?_⟩
  · simp only [List.range, List.range.loop, List.map_cons, List.map_nil,
      h3 0 90 (by decide) (by decide), h3 1 90 (by decide) (by decide),
      h3 2 90 (by decide) (by decide), h3 3 90 (by decide) (by decide),
      h3 4 90 (by decide) (by decide), h3 5 90 (by decide) (by decide),
      h3 6 90 (by decide) (by decide), voteCount_gridDiag_90]
    simp
  · rw [h3 0 270 (by decide) (by decide), voteCount_gridDiag_270]
    rfl

/-- A write that completes keeps the shape of the accumulator. -/
theorem writeCell_some_shape {acc acc' : List (List Int)} {rows cols r t : Nat} {v : Int}
    (hS : Shaped acc rows cols) (h : writeCell acc r t v = some acc') :
    Shaped acc' rows cols := by
  simp only [writeCell, Option.bind_eq_some] at h
  obtain ⟨ln, hln, h⟩ := h
  split at h
  · simp only [Option.some.injEq] at h
    subst h
    have hmem : ln ∈ acc := List.getElem?_mem hln
    refine ⟨by rw [List.length_set, hS.1], ?_⟩
    intro l hl
    rcases List.mem_or_eq_of_mem_set hl with hl | hl
    · exact hS.2 l hl
    · rw [hl, List.length_set]; exact hS.2 ln hmem
  · cases h

/-- An accumulator that the reader returns has the shape announced by the
header it returns. -/
theorem DrawDetectedLines.readAccumulator_shape (indet : Int) (file : List Char)
    (R C : Int) (A : List (List Int))
    (h : DrawDetectedLines.readAccumulator indet file = some (R, C, A)) :
    Shaped A R.toNat C.toNat := by
  simp only [DrawDetectedLines.readAccumulator, Option.bind_eq_some, Option.map_eq_some'] at h
  obtain ⟨acc0, hnew, st, hloop, hst⟩ := h
  simp only [Prod.mk.injEq] at hst
  obtain ⟨hR, hC, hA⟩ := hst
  have h0 : Shaped acc0 R.toNat C.toNat := by
    unfold newAccumulator at hnew
    split at hnew
    · cases hnew
    · simp only [Option.some.injEq] at hnew
      rw [← hnew, hR, hC]
      exact Shaped.replicate _ _
  rw [hR, hC] at hloop
  have := forLoop_nested_some_pres (fun _ _ (s : IStream × List (List Int)) =>
      Shaped s.2 R.toNat C.toNat) R.toNat C.toNat
    (fun i j s => DrawDetectedLines.fill indet i j s) _ st hloop h0
    (fun _ _ _ hp => hp)
    (fun i j s s' _ _ hp hb => by
      simp only [DrawDetectedLines.fill, Option.map_eq_some'] at hb
      obtain ⟨a, ha, hs⟩ := hb
      rw [← hs]
      exact writeCell_some_shape hp ha)
  rw [← hA]
  exact this

/-- When no cell of a well-shaped accumulator reaches the threshold, the
peak search completes with an empty vector of lines. -/
theorem DrawDetectedLines.detect_none {α : Type} (segment : Nat → Nat → α)
    (A : List (List Int)) (R C thr : Int) (hS : Shaped A R.toNat C.toNat)
    (hbelow : ∀ r t, r < R.toNat → t < C.toNat → cellAt A r t < thr) :
    DrawDetectedLines.detect segment A R C thr = some [] := by
  obtain ⟨st, hst, hP⟩ := forLoop_nested_inv (fun _ _ (lines : List α) => lines = [])
    R.toNat C.toNat
    (fun r t lines => DrawDetectedLines.visit segment A R C thr r t lines) [] rfl
    (fun _ _ _ hp => hp)
    (fun r t lines hr ht hp => by
      refine ⟨lines, ?_, hp⟩
      have hlt := hbelow r t hr ht
      simp only [DrawDetectedLines.visit, readCell_shaped hS hr ht, Option.some_bind]
      rw [if_neg (by omega)])
  rw [DrawDetectedLines.detect, hst, hP]

/-- C20. Whenever the accumulator file is read as `(R, C, A)` and every count
of `A` is strictly below the threshold, the peak search of `DrawDetectedLines`
completes with no line segment and `DrawDetectedLines` returns the image it
was given: every pixel, the dimensions and the gray-level ceiling are those
before the call. -/
theorem DrawDetectedLines_no_peak (indet threshold_value : Int) (file : List Char)
    (an_image : Image) (R C : Int) (A : List (List Int))
    (hread : DrawDetectedLines.readAccumulator indet file = some (R, C, A))
    (hbelow : ∀ r t, r < R.toNat → t < C.toNat → cellAt A r t < threshold_value) :
    DrawDetectedLines.detect
      (DrawDetectedLines.segment an_image.GetNumberOfRows an_image.GetNumberOfColumns)
      A R C threshold_value = some [] ∧
    DrawDetectedLines indet (some file) threshold_value an_image = some an_image := by
  have hS := DrawDetectedLines.readAccumulator_shape indet file R C A hread
  have hd := DrawDetectedLines.detect_none
    (DrawDetectedLines.segment an_image.GetNumberOfRows an_image.GetNumberOfColumns)
    A R C threshold_value hS hbelow
  refine ⟨hd, ?_⟩
  simp only [DrawDetectedLines, Option.some_bind, hread, hd, DrawDetectedLines.drawAll]

theorem readAccumulator_fullText :
    DrawDetectedLines.readAccumulator 0 "1 2\n3 4 \n".toList = some (1, 2, [[3, 4]]) := by
  decide

/-- Witness for C20: the accumulator `[[3, 4]]` with threshold 5. -/
theorem DrawDetectedLines_no_peak_witness :
    DrawDetectedLines.detect
      (DrawDetectedLines.segment gridWide.GetNumberOfRows gridWide.GetNumberOfColumns)
      [[3, 4]] 1 2 5 = some [] ∧
    DrawDetectedLines 0 (some "1 2\n3 4 \n".toList) 5 gridWide = some gridWide :=
  DrawDetectedLines_no_peak 0 5 "1 2\n3 4 \n".toList gridWide 1 2 [[3, 4]]
    readAccumulator_fullText
    (fun r t hr ht => by
      have hr' : r = 0 := by simpa using hr
      have ht' : t = 0 ∨ t = 1 := by
        have : t < 2 := by simpa using ht
        omega
      subst hr'
      rcases ht' with h | h <;> subst h <;> decide)

theorem readAccumulator_shortText (indet : Int) :
    DrawDetectedLines.readAccumulator indet "1 2\n7 \n".toList = some (1, 2, [[7, indet]]) := by
  rfl

theorem scan_short_00 (indet : Int) :
    DrawDetectedLines.scan [[7, indet]] 1 2 0 0 7 =
      some (if indet > 7 then Scan.mk indet true else Scan.mk 7 false) := by
  by_cases h : indet > 7
  · simp [DrawDetectedLines.scan, forLoop, DrawDetectedLines.probe, readCell, toSizeT, h]
  · simp [DrawDetectedLines.scan, forLoop, DrawDetectedLines.probe, readCell, toSizeT, h]

theorem scan_short_01 (indet : Int) :
    DrawDetectedLines.scan [[7, indet]] 1 2 0 1 indet =
      some (if 7 > indet then Scan.mk 7 true else Scan.mk indet false) := by
  by_cases h : 7 > indet
  · simp [DrawDetectedLines.scan, forLoop, DrawDetectedLines.probe, readCell, toSizeT, h]
  · simp [DrawDetectedLines.scan, forLoop, DrawDetectedLines.probe, readCell, toSizeT, h]

/-- The peaks found in the accumulator `[[7, indet]]` with threshold 5: cell
(0, 0) unless `indet` exceeds 7, and cell (0, 1) when `indet` is at least 7. -/
theorem detect_short {α : Type} (segment : Nat → Nat → α) (indet : Int) :
    DrawDetectedLines.detect segment [[7, indet]] 1 2 5 =
      some ((if indet > 7 then [] else [segment 0 0]) ++
        (if indet ≥ 7 then [segment 0 1] else [])) := by
  have e0 : readCell [[7, indet]] 0 0 = some 7 := rfl
  have e1 : readCell [[7, indet]] 0 1 = some indet := rfl
  have n1 : (1 : Int).toNat = 1 := rfl
  have n2 : (2 : Int).toNat = 2 := rfl
  simp only [DrawDetectedLines.detect, n1, n2, forLoop, Option.some_bind,
    DrawDetectedLines.visit, e0, e1, scan_short_00, scan_short_01, Option.map_some']
  by_cases h1 : indet > 7
  · have h2 : indet ≥ 5 := by omega
    have h3 : ¬ (7 > indet) := by omega
    have h4 : indet ≥ 7 := by omega
    simp [h1, h2, h3, h4]
  · by_cases h4 : indet ≥ 7
    · have h5 : indet = 7 := by omega
      subst h5
      simp
    · have h3 : 7 > indet := by omega
      by_cases h2 : indet ≥ 5
      · simp [h1, h2, h3, h4]
      · simp [h1, h2, h4]

theorem segment_zero_zero (row column : Nat) :
    DrawDetectedLines.segment row column 0 0 = ((0, 0), (0, (row : Int))) := by
  have hb : ¬ DrawDetectedLines.sinBranch 0 := by decide
  simp [DrawDetectedLines.segment, hb, divToInt, truncToInt]

/-- The angle `pi/360` has a positive sine that is smaller than its cosine. -/
theorem sin_lt_cos_first_bin :
    0 < Real.sin (((1 : Nat) : ℝ) * (Real.pi / 360)) ∧
    Real.sin (((1 : Nat) : ℝ) * (Real.pi / 360)) < Real.cos (((1 : Nat) : ℝ) * (Real.pi / 360)) := by
  have hs := sin_bin_pos 1 (by decide) (by decide)
  refine ⟨hs, ?_⟩
  have hpi := Real.pi_pos
  have hpi4 := Real.pi_le_four
  have hx : (0 : ℝ) < ((1 : Nat) : ℝ) * (Real.pi / 360) := by positivity
  have hx1 : ((1 : Nat) : ℝ) * (Real.pi / 360) ≤ 1 / 90 := by
    push_cast; linarith
  have h1 := Real.sin_lt hx
  have h2 := Real.one_sub_sq_div_two_le_cos (x := ((1 : Nat) : ℝ) * (Real.pi / 360))
  nlinarith

theorem segment_zero_one :
    DrawDetectedLines.segment 1 2 0 1 = ((0, 0), (0, 1)) := by
  have hb : ¬ DrawDetectedLines.sinBranch 1 := by decide
  obtain ⟨hs, hlt⟩ := sin_lt_cos_first_bin
  have hc : 0 < Real.cos (((1 : Nat) : ℝ) * (Real.pi / 360)) := lt_trans hs hlt
  have hne : Real.cos (((1 : Nat) : ℝ) * (Real.pi / 360)) ≠ 0 := ne_of_gt hc
  have hq : -1 < -Real.sin (((1 : Nat) : ℝ) * (Real.pi / 360)) /
      Real.cos (((1 : Nat) : ℝ) * (Real.pi / 360)) ∧
      -Real.sin (((1 : Nat) : ℝ) * (Real.pi / 360)) /
      Real.cos (((1 : Nat) : ℝ) * (Real.pi / 360)) < 0 := by
    constructor
    · rw [lt_div_iff₀ hc]; linarith
    · apply div_neg_of_neg_of_pos _ hc; linarith
  have hceil : ⌈-Real.sin (((1 : Nat) : ℝ) * (Real.pi / 360)) /
      Real.cos (((1 : Nat) : ℝ) * (Real.pi / 360))⌉ = 0 := by
    rw [Int.ceil_eq_iff]
    constructor
    · push_cast; linarith [hq.1]
    · push_cast; linarith [hq.2]
  have hnn : ¬ (0 ≤ -Real.sin (((1 : Nat) : ℝ) * (Real.pi / 360)) /
      Real.cos (((1 : Nat) : ℝ) * (Real.pi / 360))) := not_le.mpr hq.2
  simp only [Nat.cast_one, one_mul] at hnn hceil hne
  simp only [DrawDetectedLines.segment, if_neg hb, divToInt, truncToInt,
    Nat.cast_zero, Int.cast_zero, zero_mul, sub_zero, zero_div, le_refl, if_true, Int.floor_zero,
    Nat.cast_one, Int.cast_one, one_mul, zero_sub, Prod.mk.injEq, true_and, and_true,
    if_neg hne, if_neg hnn, hceil, and_self]

theorem draw_short (img : Image) :
    DrawDetectedLines.draw 2 ((0, 0), (0, 1)) img = DrawLine 0 0 0 1 255 img := by
  rfl

theorem DrawLine_short_twice :
    ((DrawLine 0 0 0 1 255 gridWide).bind fun g => g.GetPixel 0 1) = some 255 ∧
    (((DrawLine 0 0 0 1 255 gridWide).bind (DrawLine 0 0 0 1 255)).bind
      fun g => g.GetPixel 0 1) = some 255 := by
  decide

/-- C14 fails on a short accumulator file. The file `1 2`, newline, `7 `
announces 1 x 2 cells and holds one count. Whatever value the unread `int`
happens to hold, the reader returns the partially filled accumulator
`[[7, indet]]`, and `DrawDetectedLines` with threshold 5 on a 1 x 2 image of
zeros reports no failure: it returns normally with pixel (0, 1), which was 0,
set to 255. -/
theorem DrawDetectedLines_short_file (indet : Int) :
    DrawDetectedLines.readAccumulator indet "1 2\n7 \n".toList = some (1, 2, [[7, indet]]) ∧
    gridWide.GetPixel 0 1 = some 0 ∧
    ∃ g', DrawDetectedLines indet (some "1 2\n7 \n".toList) 5 gridWide = some g' ∧
      g'.GetPixel 0 1 = some 255 := by
  refine ⟨readAccumulator_shortText indet, by decide, ?_⟩
  have hrow : gridWide.GetNumberOfRows = 1 := rfl
  have hcol : gridWide.GetNumberOfColumns = 2 := rfl
  have hseg : DrawDetectedLines.segment 1 2 0 0 = ((0, 0), (0, 1)) := by
    rw [segment_zero_zero]; rfl
  obtain ⟨g1, hg1, hp1⟩ := Option.bind_eq_some.1 DrawLine_short_twice.1
  obtain ⟨g2, hg2, hp2⟩ := Option.bind_eq_some.1 DrawLine_short_twice.2
  rw [hg1, Option.some_bind] at hg2
  have hone : DrawDetectedLines.drawAll 2 [((0, 0), (0, 1))] gridWide = some g1 := by
    simp only [DrawDetectedLines.drawAll, draw_short, hg1, Option.some_bind]
  have htwo : DrawDetectedLines.drawAll 2 [((0, 0), (0, 1)), ((0, 0), (0, 1))] gridWide =
      some g2 := by
    simp only [DrawDetectedLines.drawAll, draw_short, hg1, hg2, Option.some_bind]
  simp only [DrawDetectedLines, Option.some_bind, readAccumulator_shortText, hrow, hcol,
    detect_short, hseg, segment_zero_one, Nat.cast_ofNat]
  by_cases h1 : indet > 7
  · have h4 : indet ≥ 7 := by omega
    simp only [h1, h4, if_true, List.nil_append]
    exact ⟨g1, hone, hp1⟩
  · by_cases h4 : indet ≥ 7
    · simp only [h1, h4, if_true, if_false, List.singleton_append]
      exact ⟨g2, htwo, hp2⟩
    · simp only [h1, h4, if_false, List.append_nil]
      exact ⟨g1, hone, hp1⟩

/-! ### The scan of `DrawLine` -/

theorem DrawLine.state_succ_left (s : DrawLine.Setup) (v : DrawLine.Vars) (k : Nat) :
    DrawLine.state s v (k + 1) = DrawLine.state s (DrawLine.next s v) k := by
  induction k with
  | zero => rfl
  | succ k ih =>
    show DrawLine.next s (DrawLine.state s v (k + 1)) =
      DrawLine.next s (DrawLine.state s (DrawLine.next s v) k)
    rw [ih]

/-- When the scan goes on for exactly `n` moves from `v`, the points passed to
`SetPixel` are those of the states 0..n. -/
theorem DrawLine.trace_eq_map (s : DrawLine.Setup) (n : Nat) (v : DrawLine.Vars)
    (hmore : ∀ i, i < n → DrawLine.more s (DrawLine.state s v i) = true)
    (hstop : DrawLine.more s (DrawLine.state s v n) = false) :
    DrawLine.trace (n + 1) s v =
      (List.range (n + 1)).map fun i => ((DrawLine.state s v i).x, (DrawLine.state s v i).y) := by
  induction n generalizing v with
  | zero =>
    have h : DrawLine.more s v = false := hstop
    simp only [DrawLine.trace, h, Bool.false_eq_true, if_false]
    rfl
  | succ n ih =>
    have h0 : DrawLine.more s v = true := hmore 0 (Nat.succ_pos n)
    have ih' := ih (DrawLine.next s v)
      (fun i hi => by rw [← DrawLine.state_succ_left]; exact hmore (i + 1) (by omega))
      (by rw [← DrawLine.state_succ_left]; exact hstop)
    rw [DrawLine.trace, if_pos h0, ih', List.range_succ_eq_map (n + 1), List.map_cons,
      List.map_map]
    congr 1
    apply List.map_congr_left
    intro i _
    simp only [Function.comp, DrawLine.state_succ_left]

/-- Under the same condition the loop ends within `n + 1` iterations, and its
result is that of the calls of `SetPixel` on the points of the scan, in order. -/
theorem DrawLine.loop_eq_drawPoints (s : DrawLine.Setup) (color : Int) (n : Nat)
    (v : DrawLine.Vars) (img : Image)
    (hmore : ∀ i, i < n → DrawLine.more s (DrawLine.state s v i) = true)
    (hstop : DrawLine.more s (DrawLine.state s v n) = false) :
    DrawLine.loop (n + 1) s color v img =
      some (drawPoints color (DrawLine.trace (n + 1) s v) img) := by
  induction n generalizing v img with
  | zero =>
    have h : DrawLine.more s v = false := hstop
    simp only [DrawLine.loop, DrawLine.trace, h, Bool.false_eq_true, if_false, drawPoints]
    cases img.SetPixel (toSizeT v.x) (toSizeT v.y) color <;> rfl
  | succ n ih =>
    have h0 : DrawLine.more s v = true := hmore 0 (Nat.succ_pos n)
    have ih' := fun img' => ih (DrawLine.next s v) img'
      (fun i hi => by rw [← DrawLine.state_succ_left]; exact hmore (i + 1) (by omega))
      (by rw [← DrawLine.state_succ_left]; exact hstop)
    rw [DrawLine.loop, DrawLine.trace, if_pos h0, drawPoints]
    cases hset : img.SetPixel (toSizeT v.x) (toSizeT v.y) color with
    | none => rfl
    | some img' =>
      simp only [h0, if_true, Option.some_bind]
      exact ih' img'

theorem DrawLine.Vars.flip_flip (v : DrawLine.Vars) : v.flip.flip = v := rfl

theorem DrawLine.dir_cases (s : DrawLine.Setup) (h : s.dir = DrawLine.DIR_Y) :
    s.dir ≠ DrawLine.DIR_X ∧ s.flip.dir = DrawLine.DIR_X := by
  have hne : s.dir ≠ DrawLine.DIR_X := by rw [h]; decide
  exact ⟨hne, by simp only [DrawLine.Setup.flip, hne, if_false]⟩

/-- A vertical scan is the horizontal scan of the exchanged variables. -/
theorem DrawLine.next_flip (s : DrawLine.Setup) (v : DrawLine.Vars)
    (h : s.dir = DrawLine.DIR_Y) :
    DrawLine.next s v = (DrawLine.next s.flip v.flip).flip := by
  obtain ⟨hne, hf⟩ := DrawLine.dir_cases s h
  have hm : s.flip.mpCase = s.mpCase := rfl
  have h1 : s.flip.incrE = s.incrE := rfl
  have h2 : s.flip.incrNE = s.incrNE := rfl
  have h3 : s.flip.incrSE = s.incrSE := rfl
  have h4 : v.flip.d = v.d := rfl
  have h5 : v.flip.x = v.y := rfl
  have h6 : v.flip.y = v.x := rfl
  simp only [DrawLine.next, hne, hf, if_true, if_false, hm, h1, h2, h3, h4, h5, h6]
  split_ifs <;> rfl

theorem DrawLine.more_flip (s : DrawLine.Setup) (v : DrawLine.Vars)
    (h : s.dir = DrawLine.DIR_Y) :
    DrawLine.more s v = DrawLine.more s.flip v.flip := by
  obtain ⟨hne, hf⟩ := DrawLine.dir_cases s h
  simp only [DrawLine.more, hne, hf, if_true, if_false]
  rfl

theorem DrawLine.state_flip (s : DrawLine.Setup) (v : DrawLine.Vars)
    (h : s.dir = DrawLine.DIR_Y) (k : Nat) :
    DrawLine.state s v k = (DrawLine.state s.flip v.flip k).flip := by
  induction k with
  | zero => rfl
  | succ k ih =>
    show DrawLine.next s (DrawLine.state s v k) =
      (DrawLine.next s.flip (DrawLine.state s.flip v.flip k)).flip
    rw [ih, DrawLine.next_flip s _ h, DrawLine.Vars.flip_flip]

/-- In a horizontal scan every move advances `x` by one, as long as `xmax`
is not passed. -/
theorem DrawLine.state_x (s : DrawLine.Setup) (v : DrawLine.Vars)
    (hdir : s.dir = DrawLine.DIR_X) (hlo : -2147483648 ≤ v.x) (hhi : s.xmax < 2147483648)
    (k : Nat) (hk : v.x + k ≤ s.xmax) : (DrawLine.state s v k).x = v.x + k := by
  induction k with
  | zero => simp [DrawLine.state]
  | succ k ih =>
    have ih' := ih (by push_cast at hk; omega)
    have hw : wrap32 ((DrawLine.state s v k).x + 1) = v.x + (k + 1 : Nat) := by
      rw [ih', wrap32_id _ (by omega) (by push_cast at hk; omega)]
      push_cast; ring
    show (DrawLine.next s (DrawLine.state s v k)).x = v.x + (k + 1 : Nat)
    simp only [DrawLine.next, hdir, if_true]
    split_ifs <;> exact hw

/-- A horizontal scan from `xmin` goes on for exactly `xmax - xmin` moves. -/
theorem DrawLine.scan_length (s : DrawLine.Setup) (v : DrawLine.Vars)
    (hdir : s.dir = DrawLine.DIR_X) (hv : v.x = s.xmin) (hlo : -2147483648 ≤ s.xmin)
    (hhi : s.xmax < 2147483648) (hle : s.xmin ≤ s.xmax) :
    (∀ i, i < (s.xmax - s.xmin).toNat → DrawLine.more s (DrawLine.state s v i) = true) ∧
    DrawLine.more s (DrawLine.state s v (s.xmax - s.xmin).toNat) = false := by
  have hn : (((s.xmax - s.xmin).toNat : Nat) : Int) = s.xmax - s.xmin :=
    Int.toNat_of_nonneg (by omega)
  constructor
  · intro i hi
    have hx := DrawLine.state_x s v hdir (by omega) hhi i (by omega)
    simp only [DrawLine.more, hdir, if_true, hx, decide_eq_true_eq]
    omega
  · have hx := DrawLine.state_x s v hdir (by omega) hhi (s.xmax - s.xmin).toNat (by omega)
    simp only [DrawLine.more, hdir, if_true, hx, decide_eq_false_iff_not]
    omega

/-- The invariant of an exact horizontal scan: after `k` moves the state is
at column `xmin + k`, its row offset `e = y - ymin` lies between 0 and `b`,
and `d` encodes the scaled distance `2*a*e - 2*b*k` between the state and the
exact line, which stays within `a` in absolute value. -/
theorem DrawLine.state_exact (s : DrawLine.Setup) (a b : Int) (h : DrawLine.Exact s a b)
    (k : Nat) (hk : (k : Int) ≤ a) :
    (DrawLine.state s (DrawLine.Vars.mk s.xmin s.ymin s.d) k).x = s.xmin + k ∧
    (0 ≤ b →
      0 ≤ (DrawLine.state s (DrawLine.Vars.mk s.xmin s.ymin s.d) k).y - s.ymin ∧
      (DrawLine.state s (DrawLine.Vars.mk s.xmin s.ymin s.d) k).y - s.ymin ≤ b ∧
      (DrawLine.state s (DrawLine.Vars.mk s.xmin s.ymin s.d) k).d = 2 * b - a + 2 * b * k -
        2 * a * ((DrawLine.state s (DrawLine.Vars.mk s.xmin s.ymin s.d) k).y - s.ymin) ∧
      2 * b - 2 * a ≤ (DrawLine.state s (DrawLine.Vars.mk s.xmin s.ymin s.d) k).d ∧
      (DrawLine.state s (DrawLine.Vars.mk s.xmin s.ymin s.d) k).d ≤ 2 * b) ∧
    (b < 0 →
      b ≤ (DrawLine.state s (DrawLine.Vars.mk s.xmin s.ymin s.d) k).y - s.ymin ∧
      (DrawLine.state s (DrawLine.Vars.mk s.xmin s.ymin s.d) k).y - s.ymin ≤ 0 ∧
      (DrawLine.state s (DrawLine.Vars.mk s.xmin s.ymin s.d) k).d = 2 * b + a + 2 * b * k -
        2 * a * ((DrawLine.state s (DrawLine.Vars.mk s.xmin s.ymin s.d) k).y - s.ymin) ∧
      2 * b ≤ (DrawLine.state s (DrawLine.Vars.mk s.xmin s.ymin s.d) k).d ∧
      (DrawLine.state s (DrawLine.Vars.mk s.xmin s.ymin s.d) k).d ≤ 2 * b + 2 * a) := by
  obtain ⟨hdir, ha, hb, ha0, ha1, hb0, hb1, ixmin, ixmax, iymin, iymax, hcase, hd, hE, hNE, hSE⟩ := h
  unfold IsInt32 at ixmin ixmax iymin iymax
  induction k with
  | zero =>
    simp only [DrawLine.state, Nat.cast_zero, add_zero, sub_self, mul_zero, sub_zero, le_refl,
      true_and]
    refine ⟨fun h0 => ?_, fun h0 => ?_⟩
    · rw [hd, if_pos h0]; omega
    · rw [hd, if_neg (by omega)]; omega
  | succ k ih =>
    have hk' : (k : Int) ≤ a := by push_cast at hk; omega
    have hk1 : (k : Int) + 1 ≤ a := by push_cast at hk; omega
    obtain ⟨hx, h1, h2⟩ := ih hk'
    have hstep : DrawLine.state s (DrawLine.Vars.mk s.xmin s.ymin s.d) (k + 1) =
        DrawLine.next s (DrawLine.state s (DrawLine.Vars.mk s.xmin s.ymin s.d) k) := rfl
    rw [hstep]
    generalize DrawLine.state s (DrawLine.Vars.mk s.xmin s.ymin s.d) k = w at hx h1 h2 ⊢
    have hwx : wrap32 (w.x + 1) = s.xmin + (k + 1 : Nat) := by
      rw [hx, wrap32_id _ (by omega) (by omega)]
      push_cast; ring
    have hk0 : (0 : Int) ≤ k := Int.natCast_nonneg k
    by_cases hbs : 0 ≤ b
    · obtain ⟨e0, e1, hdw, d0, d1⟩ := h1 hbs
      have hc1 : s.mpCase = 1 := by rw [hcase, if_pos hbs]
      by_cases hdz : w.d ≤ 0
      · have hwd : wrap32 (w.d + s.incrE) = w.d + 2 * b := by
          rw [hE, wrap32_id _ (by omega) (by omega)]
        simp only [DrawLine.next, hdir, hc1, hdz, if_true, hwx, hwd, true_and]
        refine ⟨fun _ => ⟨e0, e1, ?_, by omega, by omega⟩, fun hneg => absurd hbs (by omega)⟩
        rw [hdw]; push_cast; ring
      · have hlt : w.y - s.ymin + 1 ≤ b := by
          by_contra hcon
          have hge : b ≤ w.y - s.ymin := by omega
          have p1 : 0 ≤ a * (w.y - s.ymin - b) := mul_nonneg ha0 (by omega)
          have p2 : 0 ≤ b * (a - 1 - k) := mul_nonneg hbs (by omega)
          nlinarith
        have hwy : wrap32 (w.y + 1) = w.y + 1 := wrap32_id _ (by omega) (by omega)
        have hwd : wrap32 (w.d + s.incrNE) = w.d + 2 * (b - a) := by
          rw [hNE, wrap32_id _ (by omega) (by omega)]
        simp only [DrawLine.next, hdir, hc1, hdz, if_true, if_false, hwx, hwd, hwy, true_and]
        refine ⟨fun _ => ⟨by omega, by omega, ?_, by omega, by omega⟩,
          fun hneg => absurd hbs (by omega)⟩
        rw [hdw]; push_cast; ring
    · have hbn : b < 0 := by omega
      obtain ⟨e0, e1, hdw, d0, d1⟩ := h2 hbn
      have hc2 : ¬ s.mpCase = 1 := by rw [hcase, if_neg (by omega)]; decide
      by_cases hdz : w.d ≤ 0
      · have hlt : b ≤ w.y - s.ymin - 1 := by
          by_contra hcon
          have hge : w.y - s.ymin ≤ b := by omega
          have p1 : 0 ≤ a * (b - (w.y - s.ymin)) := mul_nonneg ha0 (by omega)
          have p2 : 0 ≤ (-b) * (a - 1 - k) := mul_nonneg (by omega) (by omega)
          nlinarith
        have hwy : wrap32 (w.y - 1) = w.y - 1 := wrap32_id _ (by omega) (by omega)
        have hwd : wrap32 (w.d + s.incrSE) = w.d + 2 * (b + a) := by
          rw [hSE, wrap32_id _ (by omega) (by omega)]
        simp only [DrawLine.next, hdir, hc2, hdz, if_true, if_false, hwx, hwd, hwy, true_and]
        refine ⟨fun hpos => absurd hpos hbs, fun _ => ⟨by omega, by omega, ?_, by omega, by omega⟩⟩
        rw [hdw]; push_cast; ring
      · have hwd : wrap32 (w.d + s.incrE) = w.d + 2 * b := by
          rw [hE, wrap32_id _ (by omega) (by omega)]
        simp only [DrawLine.next, hdir, hc2, hdz, if_true, if_false, hwx, hwd, true_and]
        refine ⟨fun hpos => absurd hpos hbs, fun _ => ⟨e0, e1, ?_, by omega, by omega⟩⟩
        rw [hdw]; push_cast; ring

/-- The states of an exact horizontal scan, in terms of the points: the
`i`-th one is at `x = xmin + i`, between `ymin` and `ymax`, within `a` of the
exact line in the scaled distance, and the last one is `(xmax, ymax)`. -/
theorem DrawLine.exact_point (s : DrawLine.Setup) (a b : Int) (h : DrawLine.Exact s a b)
    (i : Nat) (hia : (i : Int) ≤ a) :
    (DrawLine.state s (DrawLine.Vars.mk s.xmin s.ymin s.d) i).x = s.xmin + i ∧
    min s.ymin s.ymax ≤ (DrawLine.state s (DrawLine.Vars.mk s.xmin s.ymin s.d) i).y ∧
    (DrawLine.state s (DrawLine.Vars.mk s.xmin s.ymin s.d) i).y ≤ max s.ymin s.ymax ∧
    |2 * a * ((DrawLine.state s (DrawLine.Vars.mk s.xmin s.ymin s.d) i).y - s.ymin) -
      2 * b * ((DrawLine.state s (DrawLine.Vars.mk s.xmin s.ymin s.d) i).x - s.xmin)| ≤ a ∧
    ((i : Int) = a →
      (DrawLine.state s (DrawLine.Vars.mk s.xmin s.ymin s.d) i).x = s.xmax ∧
      (DrawLine.state s (DrawLine.Vars.mk s.xmin s.ymin s.d) i).y = s.ymax) := by
  obtain ⟨hx, h1, h2⟩ := DrawLine.state_exact s a b h i hia
  obtain ⟨hdir, ha, hb, ha0, ha1, hb0, hb1, -⟩ := h
  generalize DrawLine.state s (DrawLine.Vars.mk s.xmin s.ymin s.d) i = w at hx h1 h2 ⊢
  have hxi : w.x - s.xmin = i := by omega
  rw [hxi]
  by_cases hbs : 0 ≤ b
  · obtain ⟨e0, e1, hd, d0, d1⟩ := h1 hbs
    have herr : |2 * a * (w.y - s.ymin) - 2 * b * (i : Int)| ≤ a := by
      rw [abs_le]; constructor <;> linarith
    refine ⟨hx, ?_, ?_, herr, ?_⟩
    · rw [min_def]; split_ifs <;> omega
    · rw [max_def]; split_ifs <;> omega
    · intro hie
      refine ⟨by omega, ?_⟩
      have : w.y - s.ymin = b := by
        by_contra hne
        have hlt : w.y - s.ymin + 1 ≤ b := by omega
        rw [hie] at herr
        have := (abs_le.1 herr).1
        have p1 : a * (w.y - s.ymin + 1) ≤ a * b := mul_le_mul_of_nonneg_left hlt ha0
        have hapos : 0 < a := by omega
        nlinarith
      omega
  · have hbn : b < 0 := by omega
    obtain ⟨e0, e1, hd, d0, d1⟩ := h2 hbn
    have herr : |2 * a * (w.y - s.ymin) - 2 * b * (i : Int)| ≤ a := by
      rw [abs_le]; constructor <;> linarith
    refine ⟨hx, ?_, ?_, herr, ?_⟩
    · rw [min_def]; split_ifs <;> omega
    · rw [max_def]; split_ifs <;> omega
    · intro hie
      refine ⟨by omega, ?_⟩
      have : w.y - s.ymin = b := by
        by_contra hne
        have hlt : b + 1 ≤ w.y - s.ymin := by omega
        rw [hie] at herr
        have := (abs_le.1 herr).2
        have p1 : a * (b + 1) ≤ a * (w.y - s.ymin) := mul_le_mul_of_nonneg_left hlt ha0
        have hapos : 0 < a := by omega
        nlinarith
      omega

/-- The choice of the scan direction when the deltas are small enough for
their squares not to overflow: horizontal exactly when `|dx| > |dy|`. -/
theorem DrawLine.setup_test (x0 y0 x1 y1 : Int)
    (hx : |x1 - x0| ≤ 46340) (hy : |y1 - y0| ≤ 46340) :
    (wrap32 (wrap32 (x1 - x0) * wrap32 (x1 - x0)) >
      wrap32 (wrap32 (y1 - y0) * wrap32 (y1 - y0))) ↔ |y1 - y0| < |x1 - x0| := by
  rw [abs_le] at hx hy
  have e1 : wrap32 (x1 - x0) = x1 - x0 := wrap32_id _ (by omega) (by omega)
  have e2 : wrap32 (y1 - y0) = y1 - y0 := wrap32_id _ (by omega) (by omega)
  have b1 : (x1 - x0) * (x1 - x0) ≤ 2147395600 := by nlinarith [hx.1, hx.2]
  have b2 : (y1 - y0) * (y1 - y0) ≤ 2147395600 := by nlinarith [hy.1, hy.2]
  have n1 : 0 ≤ (x1 - x0) * (x1 - x0) := mul_self_nonneg _
  have n2 : 0 ≤ (y1 - y0) * (y1 - y0) := mul_self_nonneg _
  rw [e1, e2, wrap32_id _ (by omega) (by omega), wrap32_id _ (by omega) (by omega), gt_iff_lt,
    ← sq_lt_sq, pow_two, pow_two]

/-- The fixed variables of a horizontal scan without overflow. -/
theorem DrawLine.setup_X (x0 y0 x1 y1 : Int)
    (hi : IsInt32 x0 ∧ IsInt32 y0 ∧ IsInt32 x1 ∧ IsInt32 y1)
    (hx : |x1 - x0| ≤ 46340) (hy : |y1 - y0| ≤ 46340) (ht : |y1 - y0| < |x1 - x0|) :
    DrawLine.Exact (DrawLine.setup x0 y0 x1 y1)
      ((DrawLine.setup x0 y0 x1 y1).xmax - (DrawLine.setup x0 y0 x1 y1).xmin)
      ((DrawLine.setup x0 y0 x1 y1).ymax - (DrawLine.setup x0 y0 x1 y1).ymin) ∧
    (DrawLine.setup x0 y0 x1 y1).xmax - (DrawLine.setup x0 y0 x1 y1).xmin = |x1 - x0| ∧
    ((x0 ≤ x1 ∧ (DrawLine.setup x0 y0 x1 y1).xmin = x0 ∧ (DrawLine.setup x0 y0 x1 y1).ymin = y0 ∧
        (DrawLine.setup x0 y0 x1 y1).xmax = x1 ∧ (DrawLine.setup x0 y0 x1 y1).ymax = y1) ∨
     (x1 < x0 ∧ (DrawLine.setup x0 y0 x1 y1).xmin = x1 ∧ (DrawLine.setup x0 y0 x1 y1).ymin = y1 ∧
        (DrawLine.setup x0 y0 x1 y1).xmax = x0 ∧ (DrawLine.setup x0 y0 x1 y1).ymax = y0)) := by
  have htest := (DrawLine.setup_test x0 y0 x1 y1 hx hy).2 ht
  obtain ⟨i0, i1, i2, i3⟩ := hi
  unfold IsInt32 at i0 i1 i2 i3
  have hx' := abs_le.1 hx
  have hy' := abs_le.1 hy
  by_cases hsw : x1 < x0
  · have habs : |x1 - x0| = x0 - x1 := by rw [abs_of_neg (by omega)]; ring
    rw [habs] at ht
    have hyy := abs_lt.1 ht
    simp only [DrawLine.setup, if_pos htest, if_pos hsw]
    simp (disch := omega) only [wrap32_id]
    refine ⟨?_, habs.symm, Or.inr ⟨hsw, trivial, trivial, trivial, trivial⟩⟩
    unfold DrawLine.Exact IsInt32
    dsimp only
    exact ⟨rfl, rfl, rfl, by omega, by omega, by omega, by omega, by omega, by omega, by omega,
      by omega, rfl, rfl, rfl, rfl, rfl⟩
  · have habs : |x1 - x0| = x1 - x0 := abs_of_nonneg (by omega)
    rw [habs] at ht
    have hyy := abs_lt.1 ht
    simp only [DrawLine.setup, if_pos htest, if_neg hsw]
    simp (disch := omega) only [wrap32_id]
    refine ⟨?_, habs.symm, Or.inl ⟨by omega, trivial, trivial, trivial, trivial⟩⟩
    unfold DrawLine.Exact IsInt32
    dsimp only
    exact ⟨rfl, rfl, rfl, by omega, by omega, by omega, by omega, by omega, by omega, by omega,
      by omega, rfl, rfl, rfl, rfl, rfl⟩

/-- The fixed variables of a vertical scan without overflow: exchanged, they
are those of an exact horizontal scan. -/
theorem DrawLine.setup_Y (x0 y0 x1 y1 : Int)
    (hi : IsInt32 x0 ∧ IsInt32 y0 ∧ IsInt32 x1 ∧ IsInt32 y1)
    (hx : |x1 - x0| ≤ 46340) (hy : |y1 - y0| ≤ 46340) (ht : |x1 - x0| ≤ |y1 - y0|) :
    (DrawLine.setup x0 y0 x1 y1).dir = DrawLine.DIR_Y ∧
    DrawLine.Exact (DrawLine.setup x0 y0 x1 y1).flip
      ((DrawLine.setup x0 y0 x1 y1).ymax - (DrawLine.setup x0 y0 x1 y1).ymin)
      ((DrawLine.setup x0 y0 x1 y1).xmax - (DrawLine.setup x0 y0 x1 y1).xmin) ∧
    (DrawLine.setup x0 y0 x1 y1).ymax - (DrawLine.setup x0 y0 x1 y1).ymin = |y1 - y0| ∧
    ((y0 ≤ y1 ∧ (DrawLine.setup x0 y0 x1 y1).xmin = x0 ∧ (DrawLine.setup x0 y0 x1 y1).ymin = y0 ∧
        (DrawLine.setup x0 y0 x1 y1).xmax = x1 ∧ (DrawLine.setup x0 y0 x1 y1).ymax = y1) ∨
     (y1 < y0 ∧ (DrawLine.setup x0 y0 x1 y1).xmin = x1 ∧ (DrawLine.setup x0 y0 x1 y1).ymin = y1 ∧
        (DrawLine.setup x0 y0 x1 y1).xmax = x0 ∧ (DrawLine.setup x0 y0 x1 y1).ymax = y0)) := by
  have htest : ¬ (wrap32 (wrap32 (x1 - x0) * wrap32 (x1 - x0)) >
      wrap32 (wrap32 (y1 - y0) * wrap32 (y1 - y0))) := by
    rw [DrawLine.setup_test x0 y0 x1 y1 hx hy]; exact not_lt.mpr ht
  obtain ⟨i0, i1, i2, i3⟩ := hi
  unfold IsInt32 at i0 i1 i2 i3
  have hx' := abs_le.1 hx
  have hy' := abs_le.1 hy
  have hne : ¬ (DrawLine.DIR_Y = DrawLine.DIR_X) := by decide
  by_cases hsw : y1 < y0
  · have habs : |y1 - y0| = y0 - y1 := by rw [abs_of_neg (by omega)]; ring
    rw [habs] at ht
    have hxx := abs_le.1 ht
    simp only [DrawLine.setup, if_neg htest, if_pos hsw]
    simp (disch := omega) only [wrap32_id]
    refine ⟨trivial, ?_, habs.symm, Or.inr ⟨hsw, trivial, trivial, trivial, trivial⟩⟩
    unfold DrawLine.Exact IsInt32 DrawLine.Setup.flip
    dsimp only
    rw [if_neg hne]
    exact ⟨rfl, rfl, rfl, by omega, by omega, by omega, by omega, by omega, by omega, by omega,
      by omega, rfl, rfl, rfl, rfl, rfl⟩
  · have habs : |y1 - y0| = y1 - y0 := abs_of_nonneg (by omega)
    rw [habs] at ht
    have hxx := abs_le.1 ht
    simp only [DrawLine.setup, if_neg htest, if_neg hsw]
    simp (disch := omega) only [wrap32_id]
    refine ⟨trivial, ?_, habs.symm, Or.inl ⟨by omega, trivial, trivial, trivial, trivial⟩⟩
    unfold DrawLine.Exact IsInt32 DrawLine.Setup.flip
    dsimp only
    rw [if_neg hne]
    exact ⟨rfl, rfl, rfl, by omega, by omega, by omega, by omega, by omega, by omega, by omega,
      by omega, rfl, rfl, rfl, rfl, rfl⟩

/-- Whatever the `int` end points, the scan runs along an axis on which its
start does not exceed its end. -/
theorem DrawLine.setup_bounds (x0 y0 x1 y1 : Int)
    (hi : IsInt32 x0 ∧ IsInt32 y0 ∧ IsInt32 x1 ∧ IsInt32 y1) :
    ((DrawLine.setup x0 y0 x1 y1).dir = DrawLine.DIR_X ∧
      (DrawLine.setup x0 y0 x1 y1).xmin ≤ (DrawLine.setup x0 y0 x1 y1).xmax ∧
      -2147483648 ≤ (DrawLine.setup x0 y0 x1 y1).xmin ∧
      (DrawLine.setup x0 y0 x1 y1).xmax < 2147483648) ∨
    ((DrawLine.setup x0 y0 x1 y1).dir = DrawLine.DIR_Y ∧
      (DrawLine.setup x0 y0 x1 y1).ymin ≤ (DrawLine.setup x0 y0 x1 y1).ymax ∧
      -2147483648 ≤ (DrawLine.setup x0 y0 x1 y1).ymin ∧
      (DrawLine.setup x0 y0 x1 y1).ymax < 2147483648) := by
  obtain ⟨i0, i1, i2, i3⟩ := hi
  unfold IsInt32 at i0 i1 i2 i3
  unfold DrawLine.setup
  split
  · left
    dsimp only
    refine ⟨rfl, ?_, ?_, ?_⟩ <;> split_ifs <;> omega
  · right
    dsimp only
    refine ⟨rfl, ?_, ?_, ?_⟩ <;> split_ifs <;> omega

/-- The scan of `DrawLine` goes on for exactly `fuel - 1` moves. -/
theorem DrawLine.scan_conditions (s : DrawLine.Setup)
    (hb : (s.dir = DrawLine.DIR_X ∧ s.xmin ≤ s.xmax ∧ -2147483648 ≤ s.xmin ∧
        s.xmax < 2147483648) ∨
      (s.dir = DrawLine.DIR_Y ∧ s.ymin ≤ s.ymax ∧ -2147483648 ≤ s.ymin ∧ s.ymax < 2147483648)) :
    ∃ n, DrawLine.fuel s = n + 1 ∧
      (∀ i, i < n →
        DrawLine.more s (DrawLine.state s (DrawLine.Vars.mk s.xmin s.ymin s.d) i) = true) ∧
      DrawLine.more s (DrawLine.state s (DrawLine.Vars.mk s.xmin s.ymin s.d) n) = false := by
  rcases hb with ⟨hdir, hle, hlo, hhi⟩ | ⟨hdir, hle, hlo, hhi⟩
  · refine ⟨(s.xmax - s.xmin).toNat, by simp only [DrawLine.fuel, hdir, if_true], ?_⟩
    exact DrawLine.scan_length s _ hdir rfl hlo hhi hle
  · obtain ⟨hne, hf⟩ := DrawLine.dir_cases s hdir
    refine ⟨(s.ymax - s.ymin).toNat, by simp only [DrawLine.fuel, hne, if_false], ?_⟩
    have h := DrawLine.scan_length s.flip (DrawLine.Vars.mk s.xmin s.ymin s.d).flip hf rfl hlo hhi
      hle
    have hm : ∀ i, DrawLine.more s (DrawLine.state s (DrawLine.Vars.mk s.xmin s.ymin s.d) i) =
        DrawLine.more s.flip (DrawLine.state s.flip (DrawLine.Vars.mk s.xmin s.ymin s.d).flip i) := by
      intro i
      rw [DrawLine.more_flip s _ hdir, DrawLine.state_flip s _ hdir, DrawLine.Vars.flip_flip]
    exact ⟨fun i hi => by rw [hm]; exact h.1 i hi, by rw [hm]; exact h.2⟩

/-- For all `int` end points the loop of `DrawLine` ends within its fuel, and
the result of `DrawLine` is that of the calls of `SetPixel` on its points. -/
theorem DrawLine.run (x0 y0 x1 y1 color : Int) (img : Image)
    (hi : IsInt32 x0 ∧ IsInt32 y0 ∧ IsInt32 x1 ∧ IsInt32 y1) :
    DrawLine.loop (DrawLine.fuel (DrawLine.setup x0 y0 x1 y1)) (DrawLine.setup x0 y0 x1 y1) color
      (DrawLine.Vars.mk (DrawLine.setup x0 y0 x1 y1).xmin (DrawLine.setup x0 y0 x1 y1).ymin
        (DrawLine.setup x0 y0 x1 y1).d) img =
      some (drawPoints color (DrawLine.points x0 y0 x1 y1) img) ∧
    DrawLine x0 y0 x1 y1 color img = drawPoints color (DrawLine.points x0 y0 x1 y1) img := by
  obtain ⟨n, hn, hmore, hstop⟩ :=
    DrawLine.scan_conditions _ (DrawLine.setup_bounds x0 y0 x1 y1 hi)
  have h := DrawLine.loop_eq_drawPoints (DrawLine.setup x0 y0 x1 y1) color n _ img hmore hstop
  have h' : DrawLine.loop (DrawLine.fuel (DrawLine.setup x0 y0 x1 y1))
      (DrawLine.setup x0 y0 x1 y1) color
      (DrawLine.Vars.mk (DrawLine.setup x0 y0 x1 y1).xmin (DrawLine.setup x0 y0 x1 y1).ymin
        (DrawLine.setup x0 y0 x1 y1).d) img =
      some (drawPoints color (DrawLine.points x0 y0 x1 y1) img) := by
    rw [DrawLine.points, hn]; exact h
  refine ⟨h', ?_⟩
  rw [DrawLine, h']
  rfl

/-- The points of `DrawLine` when `|dx|` and `|dy|` are at most 46340 (so
that `dx*dx` and `dy*dy` do not overflow): there are `max |dx| |dy| + 1` of
them, from the start of the scan to its end, all inside the bounding box of
the end points; in a horizontal scan (`|dx| > |dy|`) the `i`-th one has
`x = xmin + i`, in a vertical scan `y = ymin + i`, and each is within half a
unit of the exact line along the minor axis. -/
theorem DrawLine.points_spec (x0 y0 x1 y1 : Int)
    (hi : IsInt32 x0 ∧ IsInt32 y0 ∧ IsInt32 x1 ∧ IsInt32 y1)
    (hx : |x1 - x0| ≤ 46340) (hy : |y1 - y0| ≤ 46340) :
    ∃ (n : Nat) (pt : Nat → Int × Int),
      (n : Int) = max |x1 - x0| |y1 - y0| ∧
      DrawLine.points x0 y0 x1 y1 = (List.range (n + 1)).map pt ∧
      pt 0 = ((DrawLine.setup x0 y0 x1 y1).xmin, (DrawLine.setup x0 y0 x1 y1).ymin) ∧
      pt n = ((DrawLine.setup x0 y0 x1 y1).xmax, (DrawLine.setup x0 y0 x1 y1).ymax) ∧
      ((DrawLine.setup x0 y0 x1 y1).dir = DrawLine.DIR_X ↔ |y1 - y0| < |x1 - x0|) ∧
      ((DrawLine.setup x0 y0 x1 y1).dir = DrawLine.DIR_Y ↔ |x1 - x0| ≤ |y1 - y0|) ∧
      (((DrawLine.setup x0 y0 x1 y1).xmin = x0 ∧ (DrawLine.setup x0 y0 x1 y1).ymin = y0 ∧
          (DrawLine.setup x0 y0 x1 y1).xmax = x1 ∧ (DrawLine.setup x0 y0 x1 y1).ymax = y1) ∨
        ((DrawLine.setup x0 y0 x1 y1).xmin = x1 ∧ (DrawLine.setup x0 y0 x1 y1).ymin = y1 ∧
          (DrawLine.setup x0 y0 x1 y1).xmax = x0 ∧ (DrawLine.setup x0 y0 x1 y1).ymax = y0)) ∧
      ∀ i, i ≤ n →
        min x0 x1 ≤ (pt i).1 ∧ (pt i).1 ≤ max x0 x1 ∧
        min y0 y1 ≤ (pt i).2 ∧ (pt i).2 ≤ max y0 y1 ∧
        (|y1 - y0| < |x1 - x0| →
          (pt i).1 = (DrawLine.setup x0 y0 x1 y1).xmin + i ∧
          |2 * ((DrawLine.setup x0 y0 x1 y1).xmax - (DrawLine.setup x0 y0 x1 y1).xmin) *
              ((pt i).2 - (DrawLine.setup x0 y0 x1 y1).ymin) -
            2 * ((DrawLine.setup x0 y0 x1 y1).ymax - (DrawLine.setup x0 y0 x1 y1).ymin) *
              ((pt i).1 - (DrawLine.setup x0 y0 x1 y1).xmin)| ≤
            (DrawLine.setup x0 y0 x1 y1).xmax - (DrawLine.setup x0 y0 x1 y1).xmin) ∧
        (|x1 - x0| ≤ |y1 - y0| →
          (pt i).2 = (DrawLine.setup x0 y0 x1 y1).ymin + i ∧
          |2 * ((DrawLine.setup x0 y0 x1 y1).ymax - (DrawLine.setup x0 y0 x1 y1).ymin) *
              ((pt i).1 - (DrawLine.setup x0 y0 x1 y1).xmin) -
            2 * ((DrawLine.setup x0 y0 x1 y1).xmax - (DrawLine.setup x0 y0 x1 y1).xmin) *
              ((pt i).2 - (DrawLine.setup x0 y0 x1 y1).ymin)| ≤
            (DrawLine.setup x0 y0 x1 y1).ymax - (DrawLine.setup x0 y0 x1 y1).ymin) := by
  obtain ⟨n, hn, hmore, hstop⟩ :=
    DrawLine.scan_conditions _ (DrawLine.setup_bounds x0 y0 x1 y1 hi)
  have htrace := DrawLine.trace_eq_map (DrawLine.setup x0 y0 x1 y1) n _ hmore hstop
  have hne : DrawLine.DIR_Y ≠ DrawLine.DIR_X := by decide
  generalize hs : DrawLine.setup x0 y0 x1 y1 = s at *
  refine ⟨n, fun i => ((DrawLine.state s (DrawLine.Vars.mk s.xmin s.ymin s.d) i).x,
    (DrawLine.state s (DrawLine.Vars.mk s.xmin s.ymin s.d) i).y), ?_⟩
  have hpts : DrawLine.points x0 y0 x1 y1 = (List.range (n + 1)).map fun i =>
      ((DrawLine.state s (DrawLine.Vars.mk s.xmin s.ymin s.d) i).x,
        (DrawLine.state s (DrawLine.Vars.mk s.xmin s.ymin s.d) i).y) := by
    rw [DrawLine.points, hs, hn]; exact htrace
  by_cases ht : |y1 - y0| < |x1 - x0|
  · obtain ⟨hE, habs, hid⟩ := DrawLine.setup_X x0 y0 x1 y1 hi hx hy ht
    rw [hs] at hE habs hid
    have hdir : s.dir = DrawLine.DIR_X := hE.1
    have hna : (n : Int) = s.xmax - s.xmin := by
      have h0 : 0 ≤ s.xmax - s.xmin := by rw [habs]; exact abs_nonneg _
      have := Int.toNat_of_nonneg h0
      simp only [DrawLine.fuel, hdir, if_true] at hn
      omega
    have hlast := (DrawLine.exact_point s _ _ hE n (le_of_eq hna)).2.2.2.2 hna
    refine ⟨by rw [hna, habs, max_eq_left (le_of_lt ht)], hpts, rfl, Prod.ext hlast.1 hlast.2,
      ⟨fun _ => ht, fun _ => hdir⟩,
      ⟨fun h => absurd (hdir.symm.trans h) (Ne.symm hne), fun h => absurd ht (not_lt.mpr h)⟩,
      ?_, ?_⟩
    · rcases hid with ⟨_, h⟩ | ⟨_, h⟩
      · exact Or.inl h
      · exact Or.inr h
    · intro i hin
      obtain ⟨p1, p2, p3, p4, _⟩ := DrawLine.exact_point s _ _ hE i (by omega)
      dsimp only
      refine ⟨?_, ?_, ?_, ?_, fun _ => ⟨p1, p4⟩, fun h => absurd ht (not_lt.mpr h)⟩
      · rcases hid with ⟨hle, h1, h2, h3, h4⟩ | ⟨hle, h1, h2, h3, h4⟩
        · rw [min_eq_left hle]; omega
        · rw [min_eq_right (le_of_lt hle)]; omega
      · rcases hid with ⟨hle, h1, h2, h3, h4⟩ | ⟨hle, h1, h2, h3, h4⟩
        · rw [max_eq_right hle]; omega
        · rw [max_eq_left (le_of_lt hle)]; omega
      · rcases hid with ⟨hle, h1, h2, h3, h4⟩ | ⟨hle, h1, h2, h3, h4⟩
        · rw [← h2, ← h4]; exact p2
        · rw [← h2, ← h4, min_comm]; exact p2
      · rcases hid with ⟨hle, h1, h2, h3, h4⟩ | ⟨hle, h1, h2, h3, h4⟩
        · rw [← h2, ← h4]; exact p3
        · rw [← h2, ← h4, max_comm]; exact p3
  · have ht' : |x1 - x0| ≤ |y1 - y0| := not_lt.mp ht
    obtain ⟨hdir, hE, habs, hid⟩ := DrawLine.setup_Y x0 y0 x1 y1 hi hx hy ht'
    rw [hs] at hdir hE habs hid
    obtain ⟨hnx, hf⟩ := DrawLine.dir_cases s hdir
    have hna : (n : Int) = s.ymax - s.ymin := by
      have h0 : 0 ≤ s.ymax - s.ymin := by rw [habs]; exact abs_nonneg _
      have := Int.toNat_of_nonneg h0
      simp only [DrawLine.fuel, hnx, if_false] at hn
      omega
    have hst : ∀ i, DrawLine.state s (DrawLine.Vars.mk s.xmin s.ymin s.d) i =
        (DrawLine.state s.flip (DrawLine.Vars.mk s.flip.xmin s.flip.ymin s.flip.d) i).flip :=
      fun i => DrawLine.state_flip s _ hdir i
    have hlast := (DrawLine.exact_point s.flip _ _ hE n (le_of_eq hna)).2.2.2.2 hna
    refine ⟨by rw [hna, habs, max_eq_right ht'], hpts, rfl, ?_,
      ⟨fun h => absurd h hnx, fun h => absurd h ht⟩, ⟨fun _ => ht', fun _ => hdir⟩, ?_, ?_⟩
    · dsimp only
      rw [hst n]
      exact Prod.ext hlast.2 hlast.1
    · rcases hid with ⟨_, h⟩ | ⟨_, h⟩
      · exact Or.inl h
      · exact Or.inr h
    · intro i hin
      obtain ⟨p1, p2, p3, p4, _⟩ := DrawLine.exact_point s.flip _ _ hE i (by omega)
      dsimp only
      rw [hst i]
      generalize DrawLine.state s.flip (DrawLine.Vars.mk s.flip.xmin s.flip.ymin s.flip.d) i = w
        at p1 p2 p3 p4 ⊢
      have p1 : w.flip.y = s.ymin + i := p1
      have p2 : min s.xmin s.xmax ≤ w.flip.x := p2
      have p3 : w.flip.x ≤ max s.xmin s.xmax := p3
      have p4 : |2 * (s.ymax - s.ymin) * (w.flip.x - s.xmin) -
          2 * (s.xmax - s.xmin) * (w.flip.y - s.ymin)| ≤ s.ymax - s.ymin := p4
      generalize w.flip = u at p1 p2 p3 p4 ⊢
      refine ⟨?_, ?_, ?_, ?_, fun h => absurd h ht, fun _ => ⟨p1, p4⟩⟩
      · rcases hid with ⟨hle, h1, h2, h3, h4⟩ | ⟨hle, h1, h2, h3, h4⟩
        · rw [← h1, ← h3]; exact p2
        · rw [← h1, ← h3, min_comm]; exact p2
      · rcases hid with ⟨hle, h1, h2, h3, h4⟩ | ⟨hle, h1, h2, h3, h4⟩
        · rw [← h1, ← h3]; exact p3
        · rw [← h1, ← h3, max_comm]; exact p3
      · rcases hid with ⟨hle, h1, h2, h3, h4⟩ | ⟨hle, h1, h2, h3, h4⟩
        · rw [min_eq_left hle]; omega
        · rw [min_eq_right (le_of_lt hle)]; omega
      · rcases hid with ⟨hle, h1, h2, h3, h4⟩ | ⟨hle, h1, h2, h3, h4⟩
        · rw [max_eq_right hle]; omega
        · rw [max_eq_left (le_of_lt hle)]; omega

/-- For an `int` and a dimension of at most `2^63`, the bounds check of
`SetPixel` on the converted index passes exactly when the `int` is
non-negative and below the dimension. -/
theorem toSizeT_lt_iff (z : Int) (N : Nat) (hz : IsInt32 z) (hN : N ≤ 9223372036854775808) :
    toSizeT z < N ↔ 0 ≤ z ∧ z < N := by
  unfold IsInt32 at hz
  unfold toSizeT
  split <;> omega

theorem toSizeT_lt_of_nonneg (z : Int) (N : Nat) (h0 : 0 ≤ z) (h1 : z < N) : toSizeT z < N := by
  unfold toSizeT
  rw [if_pos h0]
  omega

/-- The calls of `SetPixel` on a list of points all complete exactly when
every point passes the bounds check. -/
theorem drawPoints_some_iff (color : Int) (pts : List (Int × Int)) (img : Image) :
    (∃ g, drawPoints color pts img = some g) ↔
      ∀ p ∈ pts, toSizeT p.1 < img.num_rows_ ∧ toSizeT p.2 < img.num_columns_ := by
  induction pts generalizing img with
  | nil => simp [drawPoints]
  | cons p rest ih =>
    simp only [drawPoints, List.mem_cons, forall_eq_or_imp]
    by_cases hp : toSizeT p.1 ≥ img.num_rows_ ∨ toSizeT p.2 ≥ img.num_columns_
    · simp only [Image.SetPixel, hp, if_true, Option.none_bind]
      constructor
      · rintro ⟨g, hg⟩; cases hg
      · intro h; omega
    · simp only [Image.SetPixel, hp, if_false, Option.some_bind]
      rw [ih]
      constructor
      · intro h; exact ⟨by omega, h⟩
      · intro h; exact h.2

/-- The grid after the calls of `SetPixel` on a list of points: same
dimensions and ceiling, `color` at every position some point converts to, the
old content elsewhere. -/
theorem drawPoints_result (color : Int) (pts : List (Int × Int)) (img g : Image)
    (h : drawPoints color pts img = some g) :
    g.num_rows_ = img.num_rows_ ∧ g.num_columns_ = img.num_columns_ ∧
    g.num_gray_levels_ = img.num_gray_levels_ ∧
    ∀ a b, g.pixels_ a b =
      if ∃ p ∈ pts, toSizeT p.1 = a ∧ toSizeT p.2 = b then color else img.pixels_ a b := by
  induction pts generalizing img with
  | nil =>
    simp only [drawPoints, Option.some.injEq] at h
    subst h
    simp
  | cons p rest ih =>
    simp only [drawPoints] at h
    by_cases hp : toSizeT p.1 ≥ img.num_rows_ ∨ toSizeT p.2 ≥ img.num_columns_
    · simp [Image.SetPixel, hp] at h
    · simp only [Image.SetPixel, hp, if_false, Option.some_bind] at h
      obtain ⟨h1, h2, h3, h4⟩ := ih _ h
      refine ⟨h1, h2, h3, ?_⟩
      intro a b
      rw [h4 a b]
      simp only [List.mem_cons, exists_eq_or_imp]
      by_cases hr : ∃ q ∈ rest, toSizeT q.1 = a ∧ toSizeT q.2 = b
      · simp only [hr, if_true, or_true]
      · simp only [hr, if_false, or_false]
        by_cases hab : a = toSizeT p.1 ∧ b = toSizeT p.2
        · have : toSizeT p.1 = a ∧ toSizeT p.2 = b := ⟨hab.1.symm, hab.2.symm⟩
          rw [if_pos hab, if_pos this]
        · have : ¬ (toSizeT p.1 = a ∧ toSizeT p.2 = b) := fun h => hab ⟨h.1.symm, h.2.symm⟩
          rw [if_neg hab, if_neg this]

/-- The points of a scan without overflow are inside a grid that contains
both end points. -/
theorem DrawLine.points_in_grid (x0 y0 x1 y1 : Int) (img : Image)
    (hi : IsInt32 x0 ∧ IsInt32 y0 ∧ IsInt32 x1 ∧ IsInt32 y1)
    (hx : |x1 - x0| ≤ 46340) (hy : |y1 - y0| ≤ 46340)
    (h0 : InGrid img x0 y0) (h1 : InGrid img x1 y1) :
    ∀ p ∈ DrawLine.points x0 y0 x1 y1, InGrid img p.1 p.2 := by
  obtain ⟨n, pt, _, hpts, _, _, _, _, _, hall⟩ := DrawLine.points_spec x0 y0 x1 y1 hi hx hy
  intro p hp
  rw [hpts, List.mem_map] at hp
  obtain ⟨i, hi', rfl⟩ := hp
  obtain ⟨b1, b2, b3, b4, _⟩ := hall i (by rw [List.mem_range] at hi'; omega)
  unfold InGrid at h0 h1 ⊢
  rw [min_def] at b1 b3
  rw [max_def] at b2 b4
  split_ifs at b1 b2 b3 b4 <;> omega

/-- The points of `DrawLine` between `(x0, y)` and `(x1, y)` with `x0 ≤ x1`:
the points `(x0 + i, y)` for `i = 0..x1 - x0`. -/
theorem DrawLine.points_fixed_y (x0 x1 y : Int)
    (hi : IsInt32 x0 ∧ IsInt32 y ∧ IsInt32 x1 ∧ IsInt32 y)
    (hle : x0 ≤ x1) (hlen : x1 - x0 ≤ 46340) :
    DrawLine.points x0 y x1 y =
      (List.range ((x1 - x0).toNat + 1)).map fun (i : Nat) => (x0 + (i : Int), y) := by
  have hx : |x1 - x0| ≤ 46340 := by rw [abs_of_nonneg (by omega)]; exact hlen
  have hy : |y - y| ≤ 46340 := by simp
  obtain ⟨n, pt, hn, hpts, hfirst, hlast, hdx, hdy, hid, hall⟩ :=
    DrawLine.points_spec x0 y x1 y hi hx hy
  have h0 : |y - y| = 0 := by simp
  have hax : |x1 - x0| = x1 - x0 := abs_of_nonneg (by omega)
  rw [h0, hax, max_eq_left (by omega)] at hn
  have hnn : (x1 - x0).toNat = n := by omega
  rw [hpts, hnn]
  apply List.map_congr_left
  intro i hi'
  have hin : i ≤ n := by rw [List.mem_range] at hi'; omega
  obtain ⟨b1, b2, b3, b4, cX, cY⟩ := hall i hin
  rw [min_self] at b3
  rw [max_self] at b4
  have hy2 : (pt i).2 = y := by omega
  have hx1 : (pt i).1 = x0 + (i : Int) := by
    by_cases ht : |y - y| < |x1 - x0|
    · have hi1 := (cX ht).1
      have hn1 := ((hall n (le_refl n)).2.2.2.2.1 ht).1
      rw [hlast] at hn1
      have hn2 : (DrawLine.setup x0 y x1 y).xmax = (DrawLine.setup x0 y x1 y).xmin + n := hn1
      rw [h0, hax] at ht
      rcases hid with ⟨e1, e2, e3, e4⟩ | ⟨e1, e2, e3, e4⟩
      · rw [hi1, e1]
      · omega
    · rw [h0, hax] at ht
      have hn0 : n = 0 := by omega
      have hi0 : i = 0 := by omega
      rw [min_def] at b1
      rw [max_def] at b2
      split_ifs at b1 b2 <;> omega
  exact Prod.ext hx1 hy2

/-- C11, as stated, fails: on the 5 x 5 grid of zeros the call
`DrawLine(0, 0, 4, 0, 9, image)` leaves pixel (row 0, column 1) at 0 and sets
pixel (row 1, column 0) to 9: `x` is passed to `SetPixel` as the row index,
so column 0 is filled at rows 0..4, not row 0 at columns 0..4. -/
theorem DrawLine_fills_column :
    ((DrawLine 0 0 4 0 9 gridFive).bind fun g => g.GetPixel 0 1) = some 0 ∧
    ((DrawLine 0 0 4 0 9 gridFive).bind fun g => g.GetPixel 1 0) = some 9 := by
  constructor <;> decide

/-- C11, amended. For every grid that contains `(x0, y)` and `(x1, y)` as
passed to `SetPixel(x, y)` (`x` the row index, `y` the column index), with
`x0 ≤ x1` and `x1 - x0 ≤ 46340`, `DrawLine` from `(x0, y)` to `(x1, y)` with
color `c` completes, keeps the dimensions and the ceiling, sets to `c` exactly
the pixels of column `y` at rows `x0..x1`, and leaves every other pixel
untouched. -/
theorem DrawLine_fixed_y (x0 x1 y color : Int) (img : Image)
    (hi : IsInt32 x1 ∧ IsInt32 y) (hle : x0 ≤ x1) (hlen : x1 - x0 ≤ 46340)
    (h0 : InGrid img x0 y) (h1 : InGrid img x1 y) :
    ∃ g, DrawLine x0 y x1 y color img = some g ∧
      g.num_rows_ = img.num_rows_ ∧ g.num_columns_ = img.num_columns_ ∧
      g.num_gray_levels_ = img.num_gray_levels_ ∧
      ∀ i j : Nat, g.GetPixel i j =
        if x0 ≤ (i : Int) ∧ (i : Int) ≤ x1 ∧ (j : Int) = y then some color
        else img.GetPixel i j := by
  have hi' : IsInt32 x0 ∧ IsInt32 y ∧ IsInt32 x1 ∧ IsInt32 y := by
    unfold IsInt32 InGrid at *
    omega
  have hrun := (DrawLine.run x0 y x1 y color img hi').2
  have hpts := DrawLine.points_fixed_y x0 x1 y hi' hle hlen
  unfold InGrid at h0 h1
  have hsome : ∃ g, drawPoints color (DrawLine.points x0 y x1 y) img = some g := by
    rw [drawPoints_some_iff, hpts]
    intro p hp
    rw [List.mem_map] at hp
    obtain ⟨i, hir, rfl⟩ := hp
    rw [List.mem_range] at hir
    exact ⟨toSizeT_lt_of_nonneg _ _ (by omega) (by omega),
      toSizeT_lt_of_nonneg _ _ (by omega) (by omega)⟩
  obtain ⟨g, hg⟩ := hsome
  obtain ⟨r1, r2, r3, r4⟩ := drawPoints_result color _ img g hg
  refine ⟨g, by rw [hrun, hg], r1, r2, r3, ?_⟩
  intro i j
  have hiff : (∃ p ∈ DrawLine.points x0 y x1 y, toSizeT p.1 = i ∧ toSizeT p.2 = j) ↔
      (x0 ≤ (i : Int) ∧ (i : Int) ≤ x1 ∧ (j : Int) = y) := by
    rw [hpts]
    constructor
    · rintro ⟨p, hp, e1, e2⟩
      rw [List.mem_map] at hp
      obtain ⟨k, hk, rfl⟩ := hp
      rw [List.mem_range] at hk
      rw [toSizeT_of_nonneg _ (by omega)] at e1 e2
      dsimp only at e1 e2
      omega
    · rintro ⟨a1, a2, a3⟩
      refine ⟨(x0 + (((i : Int) - x0).toNat : Int), y), ?_, ?_, ?_⟩
      · rw [List.mem_map]
        exact ⟨((i : Int) - x0).toNat, by rw [List.mem_range]; omega, rfl⟩
      · rw [toSizeT_of_nonneg _ (by omega)]
        dsimp only
        omega
      · rw [toSizeT_of_nonneg _ (by omega)]
        dsimp only
        omega
  unfold Image.GetPixel
  rw [r1, r2, r4 i j]
  by_cases hc : x0 ≤ (i : Int) ∧ (i : Int) ≤ x1 ∧ (j : Int) = y
  · have hin : ¬ (i ≥ img.num_rows_ ∨ j ≥ img.num_columns_) := by omega
    rw [if_neg hin, if_pos (hiff.2 hc), if_pos hc]
  · rw [if_neg (fun h => hc (hiff.1 h)), if_neg hc]

/-- Witness for C11 (amended): the segment from (0, 0) to (4, 0) with color 9
on the 5 x 5 grid. -/
theorem DrawLine_fixed_y_witness :
    ∃ g, DrawLine 0 0 4 0 9 gridFive = some g ∧
      g.num_rows_ = gridFive.num_rows_ ∧ g.num_columns_ = gridFive.num_columns_ ∧
      g.num_gray_levels_ = gridFive.num_gray_levels_ ∧
      ∀ i j : Nat, g.GetPixel i j =
        if (0 : Int) ≤ (i : Int) ∧ (i : Int) ≤ 4 ∧ (j : Int) = 0 then some 9
        else gridFive.GetPixel i j :=
  DrawLine_fixed_y 0 4 0 9 gridFive ⟨by unfold IsInt32; decide, by unfold IsInt32; decide⟩
    (by decide) (by decide) (by unfold InGrid; decide) (by unfold InGrid; decide)

/-- C12, as stated, fails: the call `DrawLine(0, 0, 50000, 0, 9, image)` on
the 1 x 1 grid completes, writing pixel (0, 0), although the end point
(50000, 0) is outside the grid: `dx * dx` overflows to a negative `int`, a
vertical scan from row 0 to row 0 is chosen, and only (0, 0) is written. -/
theorem DrawLine_completes_outside :
    ((DrawLine 0 0 50000 0 9 gridOne).bind fun g => g.GetPixel 0 0) = some 9 ∧
    ¬ InGrid gridOne 50000 0 := by
  constructor
  · decide
  · unfold InGrid; decide

/-- C12, amended. For `int` end points with `|x1 - x0| ≤ 46340` and
`|y1 - y0| ≤ 46340` (so that `dx * dx` and `dy * dy` do not overflow) and a
grid of at most `2^63` rows and columns, `DrawLine` completes without
faulting if and only if both end points are inside the grid as passed to
`SetPixel(x, y)` (`0 ≤ x < rows` and `0 ≤ y < cols`); and when both are
inside, every point of the scan is inside the grid. -/
theorem DrawLine_completes_iff (x0 y0 x1 y1 color : Int) (img : Image)
    (hi : IsInt32 x0 ∧ IsInt32 y0 ∧ IsInt32 x1 ∧ IsInt32 y1)
    (hx : |x1 - x0| ≤ 46340) (hy : |y1 - y0| ≤ 46340)
    (hrows : img.num_rows_ ≤ 9223372036854775808)
    (hcols : img.num_columns_ ≤ 9223372036854775808) :
    ((∃ g, DrawLine x0 y0 x1 y1 color img = some g) ↔
      InGrid img x0 y0 ∧ InGrid img x1 y1) ∧
    (InGrid img x0 y0 → InGrid img x1 y1 →
      ∀ p ∈ DrawLine.points x0 y0 x1 y1, InGrid img p.1 p.2) := by
  refine ⟨?_, DrawLine.points_in_grid x0 y0 x1 y1 img hi hx hy⟩
  rw [(DrawLine.run x0 y0 x1 y1 color img hi).2, drawPoints_some_iff]
  constructor
  · intro hall
    obtain ⟨n, pt, _, hpts, hfirst, hlast, _, _, hid, _⟩ :=
      DrawLine.points_spec x0 y0 x1 y1 hi hx hy
    have m0 : pt 0 ∈ DrawLine.points x0 y0 x1 y1 := by
      rw [hpts]; exact List.mem_map.2 ⟨0, List.mem_range.2 (by omega), rfl⟩
    have mn : pt n ∈ DrawLine.points x0 y0 x1 y1 := by
      rw [hpts]; exact List.mem_map.2 ⟨n, List.mem_range.2 (by omega), rfl⟩
    have a0 := hall _ m0
    have an := hall _ mn
    rw [hfirst] at a0
    rw [hlast] at an
    obtain ⟨i0, i1, i2, i3⟩ := hi
    have key : ∀ x y, IsInt32 x → IsInt32 y →
        (toSizeT x < img.num_rows_ ∧ toSizeT y < img.num_columns_) → InGrid img x y := by
      intro x y ix iy hxy
      have hx' := (toSizeT_lt_iff x _ ix hrows).1 hxy.1
      have hy' := (toSizeT_lt_iff y _ iy hcols).1 hxy.2
      exact ⟨hx'.1, hx'.2, hy'.1, hy'.2⟩
    rcases hid with ⟨e1, e2, e3, e4⟩ | ⟨e1, e2, e3, e4⟩
    · rw [e1, e2] at a0
      rw [e3, e4] at an
      exact ⟨key _ _ i0 i1 a0, key _ _ i2 i3 an⟩
    · rw [e1, e2] at a0
      rw [e3, e4] at an
      exact ⟨key _ _ i0 i1 an, key _ _ i2 i3 a0⟩
  · rintro ⟨h0, h1⟩ p hp
    have hin := DrawLine.points_in_grid x0 y0 x1 y1 img hi hx hy h0 h1 p hp
    exact ⟨toSizeT_lt_of_nonneg _ _ hin.1 hin.2.1, toSizeT_lt_of_nonneg _ _ hin.2.2.1 hin.2.2.2⟩

/-- Witness for C12 (amended): the segment from (0, 0) to (4, 2) on the 5 x 5
grid. -/
theorem DrawLine_completes_iff_witness :
    ((∃ g, DrawLine 0 0 4 2 9 gridFive = some g) ↔
      InGrid gridFive 0 0 ∧ InGrid gridFive 4 2) ∧
    (InGrid gridFive 0 0 → InGrid gridFive 4 2 →
      ∀ p ∈ DrawLine.points 0 0 4 2, InGrid gridFive p.1 p.2) :=
  DrawLine_completes_iff 0 0 4 2 9 gridFive
    ⟨by unfold IsInt32; decide, by unfold IsInt32; decide, by unfold IsInt32; decide,
      by unfold IsInt32; decide⟩
    (by decide) (by decide) (by decide) (by decide)

/-- C17, as stated, fails: both end points of `DrawLine(0, 0, 50000, 1, ...)`
are inside the grid of 50001 rows and 2 columns and `|dx| > |dy|`, yet
`dx * dx` overflows, a vertical scan is made and the pixel (1, 1) is written;
with start (0, 0) and deltas `dx = 50000`, `dy = 1` its scaled distance to the
exact line is 99998, above both `dx` and `dy`. -/
theorem DrawLine_off_line :
    InGrid gridLong 0 0 ∧ InGrid gridLong 50000 1 ∧
    |(1 : Int) - 0| < |(50000 : Int) - 0| ∧
    (DrawLine.setup 0 0 50000 1).dir = DrawLine.DIR_Y ∧
    ((DrawLine.setup 0 0 50000 1).xmin, (DrawLine.setup 0 0 50000 1).ymin,
      (DrawLine.setup 0 0 50000 1).xmax, (DrawLine.setup 0 0 50000 1).ymax) = (0, 0, 50000, 1) ∧
    DrawLine.points 0 0 50000 1 = [(0, 0), (1, 1)] ∧
    ((DrawLine 0 0 50000 1 9 gridLong).bind fun g => g.GetPixel 1 1) = some 9 ∧
    ¬ (|2 * (50000 : Int) * (1 - 0) - 2 * 1 * (1 - 0)| ≤ 50000) ∧
    ¬ (|2 * (1 : Int) * (1 - 0) - 2 * 50000 * (1 - 0)| ≤ 1) := by
  refine ⟨?_, ?_, ?_, ?_, ?_, ?_, ?_, ?_, ?_⟩
  · unfold InGrid; decide
  · unfold InGrid; decide
  · decide
  · decide
  · decide
  · decide
  · decide
  · decide
  · decide

/-- C17, amended. For `int` end points with `|x1 - x0| ≤ 46340` and
`|y1 - y0| ≤ 46340` (so that `dx * dx` and `dy * dy` do not overflow), with
`(xmin, ymin)` the normalised start point, `(xmax, ymax)` the normalised end
point (the two end points, exchanged when the scan would run backwards) and
`dx = xmax - xmin`, `dy = ymax - ymin` the normalised deltas: a horizontal
scan (`|dx| > |dy|`) writes only points `(x, y)` with
`|2*dx*(y - ymin) - 2*dy*(x - xmin)| ≤ dx`, and a vertical scan writes only
points with `|2*dy*(x - xmin) - 2*dx*(y - ymin)| ≤ dy`. -/
theorem DrawLine_midpoint_accuracy (x0 y0 x1 y1 : Int)
    (hi : IsInt32 x0 ∧ IsInt32 y0 ∧ IsInt32 x1 ∧ IsInt32 y1)
    (hx : |x1 - x0| ≤ 46340) (hy : |y1 - y0| ≤ 46340) :
    (((DrawLine.setup x0 y0 x1 y1).xmin = x0 ∧ (DrawLine.setup x0 y0 x1 y1).ymin = y0 ∧
        (DrawLine.setup x0 y0 x1 y1).xmax = x1 ∧ (DrawLine.setup x0 y0 x1 y1).ymax = y1) ∨
      ((DrawLine.setup x0 y0 x1 y1).xmin = x1 ∧ (DrawLine.setup x0 y0 x1 y1).ymin = y1 ∧
        (DrawLine.setup x0 y0 x1 y1).xmax = x0 ∧ (DrawLine.setup x0 y0 x1 y1).ymax = y0)) ∧
    (|y1 - y0| < |x1 - x0| →
      (DrawLine.setup x0 y0 x1 y1).dir = DrawLine.DIR_X ∧
      ∀ p ∈ DrawLine.points x0 y0 x1 y1,
        |2 * ((DrawLine.setup x0 y0 x1 y1).xmax - (DrawLine.setup x0 y0 x1 y1).xmin) *
            (p.2 - (DrawLine.setup x0 y0 x1 y1).ymin) -
          2 * ((DrawLine.setup x0 y0 x1 y1).ymax - (DrawLine.setup x0 y0 x1 y1).ymin) *
            (p.1 - (DrawLine.setup x0 y0 x1 y1).xmin)| ≤
          (DrawLine.setup x0 y0 x1 y1).xmax - (DrawLine.setup x0 y0 x1 y1).xmin) ∧
    (|x1 - x0| ≤ |y1 - y0| →
      (DrawLine.setup x0 y0 x1 y1).dir = DrawLine.DIR_Y ∧
      ∀ p ∈ DrawLine.points x0 y0 x1 y1,
        |2 * ((DrawLine.setup x0 y0 x1 y1).ymax - (DrawLine.setup x0 y0 x1 y1).ymin) *
            (p.1 - (DrawLine.setup x0 y0 x1 y1).xmin) -
          2 * ((DrawLine.setup x0 y0 x1 y1).xmax - (DrawLine.setup x0 y0 x1 y1).xmin) *
            (p.2 - (DrawLine.setup x0 y0 x1 y1).ymin)| ≤
          (DrawLine.setup x0 y0 x1 y1).ymax - (DrawLine.setup x0 y0 x1 y1).ymin) := by
  obtain ⟨n, pt, hn, hpts, hfirst, hlast, hdx, hdy, hid, hall⟩ :=
    DrawLine.points_spec x0 y0 x1 y1 hi hx hy
  refine ⟨hid, fun ht => ⟨hdx.2 ht, ?_⟩, fun ht => ⟨hdy.2 ht, ?_⟩⟩
  · intro p hp
    rw [hpts, List.mem_map] at hp
    obtain ⟨i, hi', rfl⟩ := hp
    exact ((hall i (by rw [List.mem_range] at hi'; omega)).2.2.2.2.1 ht).2
  · intro p hp
    rw [hpts, List.mem_map] at hp
    obtain ⟨i, hi', rfl⟩ := hp
    exact ((hall i (by rw [List.mem_range] at hi'; omega)).2.2.2.2.2 ht).2

/-- Witness for C17 (amended): the segment from (0, 0) to (4, 2). -/
theorem DrawLine_midpoint_accuracy_witness :
    (((DrawLine.setup 0 0 4 2).xmin = 0 ∧ (DrawLine.setup 0 0 4 2).ymin = 0 ∧
        (DrawLine.setup 0 0 4 2).xmax = 4 ∧ (DrawLine.setup 0 0 4 2).ymax = 2) ∨
      ((DrawLine.setup 0 0 4 2).xmin = 4 ∧ (DrawLine.setup 0 0 4 2).ymin = 2 ∧
        (DrawLine.setup 0 0 4 2).xmax = 0 ∧ (DrawLine.setup 0 0 4 2).ymax = 0)) ∧
    (|(2 : Int) - 0| < |(4 : Int) - 0| →
      (DrawLine.setup 0 0 4 2).dir = DrawLine.DIR_X ∧
      ∀ p ∈ DrawLine.points 0 0 4 2,
        |2 * ((DrawLine.setup 0 0 4 2).xmax - (DrawLine.setup 0 0 4 2).xmin) *
            (p.2 - (DrawLine.setup 0 0 4 2).ymin) -
          2 * ((DrawLine.setup 0 0 4 2).ymax - (DrawLine.setup 0 0 4 2).ymin) *
            (p.1 - (DrawLine.setup 0 0 4 2).xmin)| ≤
          (DrawLine.setup 0 0 4 2).xmax - (DrawLine.setup 0 0 4 2).xmin) ∧
    (|(4 : Int) - 0| ≤ |(2 : Int) - 0| →
      (DrawLine.setup 0 0 4 2).dir = DrawLine.DIR_Y ∧
      ∀ p ∈ DrawLine.points 0 0 4 2,
        |2 * ((DrawLine.setup 0 0 4 2).ymax - (DrawLine.setup 0 0 4 2).ymin) *
            (p.1 - (DrawLine.setup 0 0 4 2).xmin) -
          2 * ((DrawLine.setup 0 0 4 2).xmax - (DrawLine.setup 0 0 4 2).xmin) *
            (p.2 - (DrawLine.setup 0 0 4 2).ymin)| ≤
          (DrawLine.setup 0 0 4 2).ymax - (DrawLine.setup 0 0 4 2).ymin) :=
  DrawLine_midpoint_accuracy 0 0 4 2
    ⟨by unfold IsInt32; decide, by unfold IsInt32; decide, by unfold IsInt32; decide,
      by unfold IsInt32; decide⟩
    (by decide) (by decide)

/-- C18, as stated, fails: both end points of `DrawLine(0, 0, 50000, 0, ...)`
are inside the grid of 50001 rows and 2 columns, yet a single pixel, (0, 0),
is written instead of 50001, and the end point (50000, 0) is never written:
`dx * dx` overflows to a negative `int` and a vertical scan over `dy = 0` is
chosen. -/
theorem DrawLine_single_write :
    InGrid gridLong 0 0 ∧ InGrid gridLong 50000 0 ∧
    DrawLine.points 0 0 50000 0 = [(0, 0)] ∧
    ((DrawLine 0 0 50000 0 9 gridLong).bind fun g => g.GetPixel 50000 0) = some 0 := by
  refine ⟨?_, ?_, ?_, ?_⟩
  · unfold InGrid; decide
  · unfold InGrid; decide
  · decide
  · decide

/-- C18, amended. For all `int` end points the loop of `DrawLine` ends, and
the call performs the writes `SetPixel(x, y, color)` for its list of points,
in order.  When moreover `|x1 - x0| ≤ 46340` and `|y1 - y0| ≤ 46340` (so that
`dx * dx` and `dy * dy` do not overflow), the scan is horizontal iff
`|dx| > |dy|` and vertical otherwise, the list has exactly
`max(|x1 - x0|, |y1 - y0|) + 1` points, one for each integer value of the
dominant-axis coordinate between the two end points, the first being one end
point and the last the other; and for end points inside the grid all these
writes are performed. -/
theorem DrawLine_write_count (x0 y0 x1 y1 color : Int) (img : Image)
    (hi : IsInt32 x0 ∧ IsInt32 y0 ∧ IsInt32 x1 ∧ IsInt32 y1) :
    DrawLine.loop (DrawLine.fuel (DrawLine.setup x0 y0 x1 y1)) (DrawLine.setup x0 y0 x1 y1) color
      (DrawLine.Vars.mk (DrawLine.setup x0 y0 x1 y1).xmin (DrawLine.setup x0 y0 x1 y1).ymin
        (DrawLine.setup x0 y0 x1 y1).d) img ≠ none ∧
    DrawLine x0 y0 x1 y1 color img = drawPoints color (DrawLine.points x0 y0 x1 y1) img ∧
    (|x1 - x0| ≤ 46340 → |y1 - y0| ≤ 46340 →
      ((DrawLine.setup x0 y0 x1 y1).dir = DrawLine.DIR_X ↔ |y1 - y0| < |x1 - x0|) ∧
      ((DrawLine.setup x0 y0 x1 y1).dir = DrawLine.DIR_Y ↔ |x1 - x0| ≤ |y1 - y0|) ∧
      ((DrawLine.points x0 y0 x1 y1).length : Int) = max |x1 - x0| |y1 - y0| + 1 ∧
      (((DrawLine.points x0 y0 x1 y1).head? = some (x0, y0) ∧
          (DrawLine.points x0 y0 x1 y1).getLast? = some (x1, y1)) ∨
        ((DrawLine.points x0 y0 x1 y1).head? = some (x1, y1) ∧
          (DrawLine.points x0 y0 x1 y1).getLast? = some (x0, y0))) ∧
      (|y1 - y0| < |x1 - x0| →
        (DrawLine.points x0 y0 x1 y1).map Prod.fst =
          (List.range (DrawLine.points x0 y0 x1 y1).length).map fun (i : Nat) => min x0 x1 + (i : Int)) ∧
      (|x1 - x0| ≤ |y1 - y0| →
        (DrawLine.points x0 y0 x1 y1).map Prod.snd =
          (List.range (DrawLine.points x0 y0 x1 y1).length).map fun (i : Nat) => min y0 y1 + (i : Int)) ∧
      (InGrid img x0 y0 → InGrid img x1 y1 →
        ∃ g, DrawLine x0 y0 x1 y1 color img = some g)) := by
  obtain ⟨hloop, hrun⟩ := DrawLine.run x0 y0 x1 y1 color img hi
  refine ⟨by rw [hloop]; exact Option.some_ne_none _, hrun, ?_⟩
  intro hx hy
  obtain ⟨n, pt, hn, hpts, hfirst, hlast, hdx, hdy, hid, hall⟩ :=
    DrawLine.points_spec x0 y0 x1 y1 hi hx hy
  have hlen : (DrawLine.points x0 y0 x1 y1).length = n + 1 := by
    rw [hpts, List.length_map, List.length_range]
  have hhead : (DrawLine.points x0 y0 x1 y1).head? = some (pt 0) := by
    rw [hpts, List.range_succ_eq_map]; rfl
  have hgl : (DrawLine.points x0 y0 x1 y1).getLast? = some (pt n) := by
    rw [hpts, List.range_succ, List.map_append, List.map_cons, List.map_nil,
      List.getLast?_append_cons, List.getLast?_singleton]
  have hmin : ∀ u v w z : Int, ((u = w ∧ v = z) ∨ (u = z ∧ v = w)) → u ≤ v → u = min w z := by
    intro u v w z h hle
    rw [min_def]; split_ifs <;> omega
  refine ⟨hdx, hdy, by rw [hlen]; push_cast; rw [hn], ?_, ?_, ?_, ?_⟩
  · rw [hhead, hgl, hfirst, hlast]
    rcases hid with ⟨e1, e2, e3, e4⟩ | ⟨e1, e2, e3, e4⟩
    · left; rw [e1, e2, e3, e4]; exact ⟨rfl, rfl⟩
    · right; rw [e1, e2, e3, e4]; exact ⟨rfl, rfl⟩
  · intro ht
    rw [hlen]
    nth_rewrite 1 [hpts]
    rw [List.map_map]
    apply List.map_congr_left
    intro i hi'
    have hin : i ≤ n := by rw [List.mem_range] at hi'; omega
    have hi1 := ((hall i hin).2.2.2.2.1 ht).1
    have hn1 := ((hall n (le_refl n)).2.2.2.2.1 ht).1
    rw [hlast] at hn1
    have hxm : (DrawLine.setup x0 y0 x1 y1).xmin = min x0 x1 := by
      apply hmin _ (DrawLine.setup x0 y0 x1 y1).xmax
      · rcases hid with ⟨e1, e2, e3, e4⟩ | ⟨e1, e2, e3, e4⟩
        · exact Or.inl ⟨e1, e3⟩
        · exact Or.inr ⟨e1, e3⟩
      · have : (DrawLine.setup x0 y0 x1 y1).xmax = (DrawLine.setup x0 y0 x1 y1).xmin + n := hn1
        omega
    show (pt i).1 = min x0 x1 + (i : Int)
    rw [hi1, hxm]
  · intro ht
    rw [hlen]
    nth_rewrite 1 [hpts]
    rw [List.map_map]
    apply List.map_congr_left
    intro i hi'
    have hin : i ≤ n := by rw [List.mem_range] at hi'; omega
    have hi1 := ((hall i hin).2.2.2.2.2 ht).1
    have hn1 := ((hall n (le_refl n)).2.2.2.2.2 ht).1
    rw [hlast] at hn1
    have hym : (DrawLine.setup x0 y0 x1 y1).ymin = min y0 y1 := by
      apply hmin _ (DrawLine.setup x0 y0 x1 y1).ymax
      · rcases hid with ⟨e1, e2, e3, e4⟩ | ⟨e1, e2, e3, e4⟩
        · exact Or.inl ⟨e2, e4⟩
        · exact Or.inr ⟨e2, e4⟩
      · have : (DrawLine.setup x0 y0 x1 y1).ymax = (DrawLine.setup x0 y0 x1 y1).ymin + n := hn1
        omega
    show (pt i).2 = min y0 y1 + (i : Int)
    rw [hi1, hym]
  · intro h0 h1
    rw [hrun, drawPoints_some_iff]
    intro p hp
    have hin := DrawLine.points_in_grid x0 y0 x1 y1 img hi hx hy h0 h1 p hp
    exact ⟨toSizeT_lt_of_nonneg _ _ hin.1 hin.2.1, toSizeT_lt_of_nonneg _ _ hin.2.2.1 hin.2.2.2⟩

/-- Witness for C18 (amended): the segment from (0, 0) to (4, 2) on the 5 x 5
grid. -/
theorem DrawLine_write_count_witness :
    DrawLine.loop (DrawLine.fuel (DrawLine.setup 0 0 4 2)) (DrawLine.setup 0 0 4 2) 9
      (DrawLine.Vars.mk (DrawLine.setup 0 0 4 2).xmin (DrawLine.setup 0 0 4 2).ymin
        (DrawLine.setup 0 0 4 2).d) gridFive ≠ none ∧
    DrawLine 0 0 4 2 9 gridFive = drawPoints 9 (DrawLine.points 0 0 4 2) gridFive ∧
    (|(4 : Int) - 0| ≤ 46340 → |(2 : Int) - 0| ≤ 46340 →
      ((DrawLine.setup 0 0 4 2).dir = DrawLine.DIR_X ↔ |(2 : Int) - 0| < |(4 : Int) - 0|) ∧
      ((DrawLine.setup 0 0 4 2).dir = DrawLine.DIR_Y ↔ |(4 : Int) - 0| ≤ |(2 : Int) - 0|) ∧
      ((DrawLine.points 0 0 4 2).length : Int) = max |(4 : Int) - 0| |(2 : Int) - 0| + 1 ∧
      (((DrawLine.points 0 0 4 2).head? = some (0, 0) ∧
          (DrawLine.points 0 0 4 2).getLast? = some (4, 2)) ∨
        ((DrawLine.points 0 0 4 2).head? = some (4, 2) ∧
          (DrawLine.points 0 0 4 2).getLast? = some (0, 0))) ∧
      (|(2 : Int) - 0| < |(4 : Int) - 0| →
        (DrawLine.points 0 0 4 2).map Prod.fst =
          (List.range (DrawLine.points 0 0 4 2).length).map fun (i : Nat) => min 0 4 + (i : Int)) ∧
      (|(4 : Int) - 0| ≤ |(2 : Int) - 0| →
        (DrawLine.points 0 0 4 2).map Prod.snd =
          (List.range (DrawLine.points 0 0 4 2).length).map fun (i : Nat) => min 0 2 + (i : Int)) ∧
      (InGrid gridFive 0 0 → InGrid gridFive 4 2 →
        ∃ g, DrawLine 0 0 4 2 9 gridFive = some g)) :=
  DrawLine_write_count 0 0 4 2 9 gridFive
    ⟨by unfold IsInt32; decide, by unfold IsInt32; decide, by unfold IsInt32; decide,
      by unfold IsInt32; decide⟩

/-- The column sum of an accumulator is the sum of its cells in that column. -/
theorem columnSum_eq (acc : List (List Int)) (t : Nat) :
    columnSum acc t = ∑ rho ∈ Finset.range acc.length, cellAt acc rho t := by
  induction acc with
  | nil => simp [columnSum]
  | cons a acc ih =>
    have hstep : columnSum (a :: acc) t = a.getD t 0 + columnSum acc t := by
      simp [columnSum]
    rw [hstep, ih, List.length_cons, Finset.sum_range_succ']
    have h0 : cellAt (a :: acc) 0 t = a.getD t 0 := by simp [cellAt]
    have hs : ∀ i, cellAt (a :: acc) (i + 1) t = cellAt acc i t := by
      intro i; simp [cellAt]
    simp only [h0, hs]
    ring

/-- For the angle bins 0..180 the radius of every pixel is non-negative. -/
theorem HoughTransform.radius_nonneg (x y t : Nat) (ht : t ≤ 180) :
    0 ≤ HoughTransform.radius x y t := by
  have hpi := Real.pi_pos
  have h0 : (0 : ℝ) ≤ (t : ℝ) := Nat.cast_nonneg t
  have h1 : (t : ℝ) ≤ 180 := by exact_mod_cast ht
  have hθ0 : (0 : ℝ) ≤ (t : ℝ) * (Real.pi / 360) := by positivity
  have hθ1 : (t : ℝ) * (Real.pi / 360) ≤ Real.pi / 2 := by nlinarith
  have hc : 0 ≤ Real.cos ((t : ℝ) * (Real.pi / 360)) :=
    Real.cos_nonneg_of_mem_Icc ⟨by linarith, hθ1⟩
  have hs : 0 ≤ Real.sin ((t : ℝ) * (Real.pi / 360)) :=
    Real.sin_nonneg_of_nonneg_of_le_pi hθ0 (by linarith)
  unfold HoughTransform.radius
  positivity

/-- The votes a pixel inside the grid casts into the cells of one angle bin,
summed over the radius indices of the accumulator: 1 when the pixel is
non-zero and its radius is non-negative, 0 otherwise. -/
theorem votesFor_sum (g : Image) (t y x : Nat) (hy : y < g.num_rows_)
    (hx : x < g.num_columns_) :
    ∑ rho ∈ Finset.range
        (Nat.sqrt (g.num_rows_ * g.num_rows_ + g.num_columns_ * g.num_columns_)),
      votesFor g rho t y x =
      if g.pixels_ y x ≠ 0 ∧ 0 ≤ HoughTransform.radius x y t then 1 else 0 := by
  have hlt := HoughTransform.index_lt g.num_rows_ g.num_columns_ x y t hx hy
  by_cases hp : g.pixels_ y x ≠ 0 ∧ 0 ≤ HoughTransform.radius x y t
  · rw [if_pos hp]
    have : ∀ rho, votesFor g rho t y x =
        if ⌊HoughTransform.radius x y t⌋₊ = rho then 1 else 0 := by
      intro rho
      unfold votesFor
      simp only [hp.1, hp.2, ne_eq, not_false_eq_true, true_and]
    simp only [this, Finset.sum_ite_eq, Finset.mem_range, hlt, if_true]
  · rw [if_neg hp]
    apply Finset.sum_eq_zero
    intro rho _
    unfold votesFor
    rw [if_neg]
    rintro ⟨h1, h2, _⟩
    exact hp ⟨h1, h2⟩

/-- The votes of one angle bin, summed over the radius indices: the number of
non-zero pixels with a non-negative radius. -/
theorem voteCount_sum (g : Image) (t : Nat) :
    ∑ rho ∈ Finset.range
        (Nat.sqrt (g.num_rows_ * g.num_rows_ + g.num_columns_ * g.num_columns_)),
      voteCount g rho t =
      ∑ y ∈ Finset.range g.num_rows_, ∑ x ∈ Finset.range g.num_columns_,
        if g.pixels_ y x ≠ 0 ∧ 0 ≤ HoughTransform.radius x y t then 1 else 0 := by
  unfold voteCount
  rw [Finset.sum_comm]
  apply Finset.sum_congr rfl
  intro y hy
  rw [Finset.sum_comm]
  apply Finset.sum_congr rfl
  intro x hx
  exact votesFor_sum g t y x (Finset.mem_range.1 hy) (Finset.mem_range.1 hx)

/-- The column sums of the accumulator that `HoughTransform` builds. -/
theorem HoughTransform.columnSum_result (g : Image)
    (hov : g.num_rows_ * g.num_rows_ + g.num_columns_ * g.num_columns_ < 2147483648) :
    ∃ acc, HoughTransform.accumulate g = some acc ∧
      ∀ t, t < 360 → columnSum acc t =
        ((∑ y ∈ Finset.range g.num_rows_, ∑ x ∈ Finset.range g.num_columns_,
          if g.pixels_ y x ≠ 0 ∧ 0 ≤ HoughTransform.radius x y t then 1 else 0 : Nat) : Int) := by
  obtain ⟨acc, h1, h2, h3⟩ := HoughTransform.accumulate_result g hov
  refine ⟨acc, h1, ?_⟩
  intro t ht
  rw [columnSum_eq, h2.1, ← voteCount_sum, Nat.cast_sum]
  apply Finset.sum_congr rfl
  intro rho _
  exact h3 rho t ht

/-- C21, amended. For every edge grid with `rows^2 + cols^2 < 2^31` (so that
the `int` arithmetic behind the accumulator height does not overflow),
`HoughTransform` completes its voting, and for every angle bin `t` with
`0 ≤ t ≤ 180` the sum over all radius indices of `accumulator[rho][t]` equals
the number of non-zero pixels of the grid; for every bin below 360 the column
sum is at most that number. -/
theorem HoughTransform_vote_conservation (g : Image)
    (hov : g.num_rows_ * g.num_rows_ + g.num_columns_ * g.num_columns_ < 2147483648) :
    ∃ acc, HoughTransform.accumulate g = some acc ∧
      (∀ t, t ≤ 180 → columnSum acc t = (nonZeroPixels g : Int)) ∧
      (∀ t, t < 360 → columnSum acc t ≤ (nonZeroPixels g : Int)) := by
  obtain ⟨acc, h1, h2⟩ := HoughTransform.columnSum_result g hov
  refine ⟨acc, h1, ?_, ?_⟩
  · intro t ht
    have he : (∑ y ∈ Finset.range g.num_rows_, ∑ x ∈ Finset.range g.num_columns_,
        if g.pixels_ y x ≠ 0 ∧ 0 ≤ HoughTransform.radius x y t then 1 else 0) =
        nonZeroPixels g := by
      unfold nonZeroPixels
      apply Finset.sum_congr rfl
      intro y _
      apply Finset.sum_congr rfl
      intro x _
      have hr := HoughTransform.radius_nonneg x y t ht
      simp only [hr, and_true]
    rw [h2 t (by omega), he]
  · intro t ht
    rw [h2 t ht]
    apply Int.ofNat_le.2
    unfold nonZeroPixels
    apply Finset.sum_le_sum
    intro y _
    apply Finset.sum_le_sum
    intro x _
    by_cases hp : g.pixels_ y x ≠ 0
    · rw [if_pos hp]; split <;> omega
    · rw [if_neg hp, if_neg (fun h => hp h.1)]

/-- Witness for C21 (amended): the 5 x 5 grid with a diagonal of ones. -/
theorem HoughTransform_vote_conservation_witness :
    ∃ acc, HoughTransform.accumulate gridDiag = some acc ∧
      (∀ t, t ≤ 180 → columnSum acc t = (nonZeroPixels gridDiag : Int)) ∧
      (∀ t, t < 360 → columnSum acc t ≤ (nonZeroPixels gridDiag : Int)) :=
  HoughTransform_vote_conservation gridDiag (by decide)

theorem nonZeroPixels_gridTall : nonZeroPixels gridTall = 1 := by
  have hp : ∀ y x, (if gridTall.pixels_ y x ≠ 0 then 1 else 0) = if y = 1 then 1 else 0 := by
    intro y x
    unfold gridTall
    by_cases h : y = 1 <;> simp [h]
  have hr : gridTall.num_rows_ = 65536 := rfl
  have hc : gridTall.num_columns_ = 1 := rfl
  have hm : 1 ∈ Finset.range 65536 := Finset.mem_range.2 (by omega)
  unfold nonZeroPixels
  rw [hr, hc]
  simp only [hp, Finset.sum_const, Finset.card_range, smul_eq_mul, one_mul]
  rw [Finset.sum_ite_eq', if_pos hm]

theorem voteCount_gridTall_zero : voteCount gridTall 0 180 = 0 := by
  unfold voteCount
  apply Finset.sum_eq_zero
  intro y _
  apply Finset.sum_eq_zero
  intro x hx
  have hx0 : x = 0 := by
    have hc : gridTall.num_columns_ = 1 := rfl
    rw [hc, Finset.mem_range] at hx; omega
  subst hx0
  unfold votesFor
  rw [if_neg]
  rintro ⟨h1, _, h3⟩
  have hy : y = 1 := by
    by_contra hne
    apply h1
    simp [gridTall, hne]
  subst hy
  rw [radius_gridTall_180] at h3
  simp at h3

/-- C21, as stated, fails for grids so tall that `row*row` overflows: the
grid of 65536 rows and 1 column has exactly one non-zero pixel, its
accumulator is allocated with a single row, and in the angle bin 180 that row
receives no vote: the vote of the pixel goes to radius index 1, outside the
accumulator, and the voting loops of `HoughTransform` fault. -/
theorem HoughTransform_votes_lost :
    nonZeroPixels gridTall = 1 ∧
    HoughTransform.accu_row gridTall.num_rows_ gridTall.num_columns_ = 1 ∧
    voteCount gridTall 0 180 = 0 ∧
    HoughTransform.accumulate gridTall = none :=
  ⟨nonZeroPixels_gridTall, accu_row_gridTall, voteCount_gridTall_zero, accumulate_gridTall⟩

/-- Without overflow both orders of the end points give the same fixed
variables: the same direction, start, end, case, start value of `d` and
increments. -/
theorem DrawLine.setup_swap (x0 y0 x1 y1 : Int)
    (hx : |x1 - x0| ≤ 46340) (hy : |y1 - y0| ≤ 46340) :
    DrawLine.setup x0 y0 x1 y1 = DrawLine.setup x1 y1 x0 y0 := by
  have hx' : |x0 - x1| ≤ 46340 := by rw [abs_sub_comm]; exact hx
  have hy' : |y0 - y1| ≤ 46340 := by rw [abs_sub_comm]; exact hy
  have t1 := DrawLine.setup_test x0 y0 x1 y1 hx hy
  have t2 := DrawLine.setup_test x1 y1 x0 y0 hx' hy'
  rw [abs_sub_comm y0 y1, abs_sub_comm x0 x1] at t2
  by_cases ht : |y1 - y0| < |x1 - x0|
  · have h1 := t1.2 ht
    have h2 := t2.2 ht
    have hne : x0 ≠ x1 := by
      intro h
      rw [h, sub_self, abs_zero] at ht
      exact absurd ht (not_lt.mpr (abs_nonneg _))
    simp only [DrawLine.setup, if_pos h1, if_pos h2]
    rcases lt_or_gt_of_ne hne with h | h
    · simp only [if_neg (not_lt.mpr (le_of_lt h)), if_pos h]
    · simp only [if_pos h, if_neg (not_lt.mpr (le_of_lt h))]
  · have h1 : ¬ _ := fun h => ht (t1.1 h)
    have h2 : ¬ _ := fun h => ht (t2.1 h)
    simp only [DrawLine.setup, if_neg h1, if_neg h2]
    rcases lt_trichotomy y0 y1 with h | h | h
    · simp only [if_neg (not_lt.mpr (le_of_lt h)), if_pos h]
    · subst h
      have hxe : x0 = x1 := by
        rw [sub_self, abs_zero] at ht
        have := abs_nonneg (x1 - x0)
        have h0 : |x1 - x0| = 0 := by omega
        have := abs_eq_zero.1 h0
        omega
      subst hxe
      rfl
    · simp only [if_pos h, if_neg (not_lt.mpr (le_of_lt h))]

/-- C23, as stated, fails: on the 1 x 1 grid `DrawLine(0, 0, 0, 50000, ...)`
completes, writing pixel (0, 0), while `DrawLine(0, 50000, 0, 0, ...)` faults:
`dy * dy` overflows to a negative `int`, so a horizontal scan with `dx = 0` is
chosen, which does not exchange the end points and writes only the first one. -/
theorem DrawLine_order_matters :
    ((DrawLine 0 0 0 50000 9 gridOne).bind fun g => g.GetPixel 0 0) = some 9 ∧
    DrawLine.points 0 0 0 50000 = [(0, 0)] ∧
    DrawLine.points 0 50000 0 0 = [(0, 50000)] ∧
    (DrawLine 0 50000 0 0 9 gridOne).isNone = true := by
  refine ⟨?_, ?_, ?_, ?_⟩ <;> decide

/-- C23, amended. For end points with `|x1 - x0| ≤ 46340` and
`|y1 - y0| ≤ 46340` (so that `dx * dx` and `dy * dy` do not overflow), every
grid and every color, `DrawLine(x0, y0, x1, y1)` and `DrawLine(x1, y1, x0, y0)`
normalise to the same start point, end point, scan direction, decision case,
start value of `d` and increments, pass the same points to `SetPixel` in the
same order, fault on the same grids and otherwise produce the same grid. -/
theorem DrawLine_order_independent (x0 y0 x1 y1 : Int)
    (hx : |x1 - x0| ≤ 46340) (hy : |y1 - y0| ≤ 46340) :
    DrawLine.setup x0 y0 x1 y1 = DrawLine.setup x1 y1 x0 y0 ∧
    DrawLine.points x0 y0 x1 y1 = DrawLine.points x1 y1 x0 y0 ∧
    ∀ (color : Int) (img : Image),
      DrawLine x0 y0 x1 y1 color img = DrawLine x1 y1 x0 y0 color img := by
  have h := DrawLine.setup_swap x0 y0 x1 y1 hx hy
  refine ⟨h, ?_, ?_⟩
  · simp only [DrawLine.points, h]
  · intro color img
    simp only [DrawLine, h]

/-- Witness for C23 (amended): the end points (0, 0) and (4, 2). -/
theorem DrawLine_order_independent_witness :
    DrawLine.setup 0 0 4 2 = DrawLine.setup 4 2 0 0 ∧
    DrawLine.points 0 0 4 2 = DrawLine.points 4 2 0 0 ∧
    ∀ (color : Int) (img : Image),
      DrawLine 0 0 4 2 color img = DrawLine 4 2 0 0 color img :=
  DrawLine_order_independent 0 0 4 2 (by decide) (by decide)

/-- The start and the end of a horizontal scan. -/
theorem DrawLine.setup_fields_X (x0 y0 x1 y1 : Int)
    (ht : wrap32 (wrap32 (x1 - x0) * wrap32 (x1 - x0)) >
      wrap32 (wrap32 (y1 - y0) * wrap32 (y1 - y0))) :
    (DrawLine.setup x0 y0 x1 y1).dir = DrawLine.DIR_X ∧
    (DrawLine.setup x0 y0 x1 y1).xmin = min x0 x1 ∧
    (DrawLine.setup x0 y0 x1 y1).xmax = max x0 x1 := by
  simp only [DrawLine.setup, if_pos ht, true_and]
  rw [min_def, max_def]
  constructor <;> split_ifs <;> omega

/-- The start and the end of a vertical scan. -/
theorem DrawLine.setup_fields_Y (x0 y0 x1 y1 : Int)
    (ht : ¬ (wrap32 (wrap32 (x1 - x0) * wrap32 (x1 - x0)) >
      wrap32 (wrap32 (y1 - y0) * wrap32 (y1 - y0)))) :
    (DrawLine.setup x0 y0 x1 y1).dir = DrawLine.DIR_Y ∧
    (DrawLine.setup x0 y0 x1 y1).ymin = min y0 y1 ∧
    (DrawLine.setup x0 y0 x1 y1).ymax = max y0 y1 := by
  simp only [DrawLine.setup, if_neg ht, true_and]
  rw [min_def, max_def]
  constructor <;> split_ifs <;> omega

/-- A call of `DrawLine` that completes has passed the bounds check at the
start of its scan and at the end of its dominant axis. -/
theorem DrawLine.some_bounds (x0 y0 x1 y1 color : Int) (img g : Image)
    (hi : IsInt32 x0 ∧ IsInt32 y0 ∧ IsInt32 x1 ∧ IsInt32 y1)
    (h : DrawLine x0 y0 x1 y1 color img = some g) :
    toSizeT (DrawLine.setup x0 y0 x1 y1).xmin < img.num_rows_ ∧
    toSizeT (DrawLine.setup x0 y0 x1 y1).ymin < img.num_columns_ ∧
    ((DrawLine.setup x0 y0 x1 y1).dir = DrawLine.DIR_X →
      toSizeT (DrawLine.setup x0 y0 x1 y1).xmax < img.num_rows_) ∧
    ((DrawLine.setup x0 y0 x1 y1).dir = DrawLine.DIR_Y →
      toSizeT (DrawLine.setup x0 y0 x1 y1).ymax < img.num_columns_) := by
  have hb := DrawLine.setup_bounds x0 y0 x1 y1 hi
  obtain ⟨n, hn, hmore, hstop⟩ := DrawLine.scan_conditions _ hb
  have htrace := DrawLine.trace_eq_map (DrawLine.setup x0 y0 x1 y1) n _ hmore hstop
  rw [(DrawLine.run x0 y0 x1 y1 color img hi).2] at h
  have hall := (drawPoints_some_iff color _ img).1 ⟨g, h⟩
  have hne : DrawLine.DIR_Y ≠ DrawLine.DIR_X := by decide
  generalize hs : DrawLine.setup x0 y0 x1 y1 = s at *
  have hpts : DrawLine.points x0 y0 x1 y1 = (List.range (n + 1)).map fun i =>
      ((DrawLine.state s (DrawLine.Vars.mk s.xmin s.ymin s.d) i).x,
        (DrawLine.state s (DrawLine.Vars.mk s.xmin s.ymin s.d) i).y) := by
    rw [DrawLine.points, hs, hn]; exact htrace
  have hmem : ∀ i, i ≤ n →
      toSizeT (DrawLine.state s (DrawLine.Vars.mk s.xmin s.ymin s.d) i).x < img.num_rows_ ∧
      toSizeT (DrawLine.state s (DrawLine.Vars.mk s.xmin s.ymin s.d) i).y < img.num_columns_ := by
    intro i hin
    exact hall ((DrawLine.state s (DrawLine.Vars.mk s.xmin s.ymin s.d) i).x,
      (DrawLine.state s (DrawLine.Vars.mk s.xmin s.ymin s.d) i).y)
      (by rw [hpts]; exact List.mem_map.2 ⟨i, List.mem_range.2 (by omega), rfl⟩)
  have h0 := hmem 0 (Nat.zero_le n)
  have hlast := hmem n (le_refl n)
  refine ⟨h0.1, h0.2, ?_, ?_⟩
  · intro hdir
    rcases hb with ⟨_, hle, hlo, hhi⟩ | ⟨hd, _⟩
    · have hnn : (n : Int) = s.xmax - s.xmin := by
        simp only [DrawLine.fuel, hdir, if_true] at hn
        omega
      have hx := DrawLine.state_x s (DrawLine.Vars.mk s.xmin s.ymin s.d) hdir hlo hhi n
        (by show s.xmin + (n : Int) ≤ s.xmax; omega)
      have hx' : (DrawLine.state s (DrawLine.Vars.mk s.xmin s.ymin s.d) n).x = s.xmax := by
        rw [hx]; show s.xmin + (n : Int) = s.xmax; omega
      rw [← hx']; exact hlast.1
    · exact absurd (hd.symm.trans hdir) hne
  · intro hdir
    rcases hb with ⟨hd, _⟩ | ⟨_, hle, hlo, hhi⟩
    · exact absurd (hdir.symm.trans hd) hne
    · obtain ⟨hnx, hf⟩ := DrawLine.dir_cases s hdir
      have hnn : (n : Int) = s.ymax - s.ymin := by
        simp only [DrawLine.fuel, hnx, if_false] at hn
        omega
      have hx := DrawLine.state_x s.flip (DrawLine.Vars.mk s.xmin s.ymin s.d).flip hf hlo hhi n
        (by show s.ymin + (n : Int) ≤ s.ymax; omega)
      have hy' : (DrawLine.state s (DrawLine.Vars.mk s.xmin s.ymin s.d) n).y = s.ymax := by
        rw [DrawLine.state_flip s _ hdir n]
        show (DrawLine.state s.flip (DrawLine.Vars.mk s.xmin s.ymin s.d).flip n).x = s.ymax
        rw [hx]; show s.ymin + (n : Int) = s.ymax; omega
      rw [← hy']; exact hlast.2

/-- A call of `DrawLine` faults when the start or the end of its dominant
axis fails the bounds check. -/
theorem DrawLine.none_of_overshoot (x0 y0 x1 y1 color : Int) (img : Image)
    (hi : IsInt32 x0 ∧ IsInt32 y0 ∧ IsInt32 x1 ∧ IsInt32 y1)
    (hX : wrap32 (wrap32 (x1 - x0) * wrap32 (x1 - x0)) >
        wrap32 (wrap32 (y1 - y0) * wrap32 (y1 - y0)) →
      img.num_rows_ ≤ toSizeT (min x0 x1) ∨ img.num_rows_ ≤ toSizeT (max x0 x1))
    (hY : ¬ (wrap32 (wrap32 (x1 - x0) * wrap32 (x1 - x0)) >
        wrap32 (wrap32 (y1 - y0) * wrap32 (y1 - y0))) →
      img.num_columns_ ≤ toSizeT (min y0 y1) ∨ img.num_columns_ ≤ toSizeT (max y0 y1)) :
    DrawLine x0 y0 x1 y1 color img = none := by
  cases hres : DrawLine x0 y0 x1 y1 color img with
  | none => rfl
  | some g =>
    exfalso
    obtain ⟨b1, b2, b3, b4⟩ := DrawLine.some_bounds x0 y0 x1 y1 color img g hi hres
    by_cases ht : wrap32 (wrap32 (x1 - x0) * wrap32 (x1 - x0)) >
        wrap32 (wrap32 (y1 - y0) * wrap32 (y1 - y0))
    · obtain ⟨f1, f2, f3⟩ := DrawLine.setup_fields_X x0 y0 x1 y1 ht
      have b3' := b3 f1
      rw [f2] at b1
      rw [f3] at b3'
      rcases hX ht with h | h <;> omega
    · obtain ⟨f1, f2, f3⟩ := DrawLine.setup_fields_Y x0 y0 x1 y1 ht
      have b4' := b4 f1
      rw [f2] at b2
      rw [f3] at b4'
      rcases hY ht with h | h <;> omega

theorem toSizeT_natCast (n : Nat) : toSizeT (n : Int) = n := by
  rw [toSizeT_of_nonneg _ (Int.natCast_nonneg n), Int.toNat_natCast]

/-- Two coordinates that both pass the bounds check of an `N x N` grid,
`N ≤ 46340`, differ by less than `N`, and the square of their difference does
not overflow. -/
theorem DrawLine.test_of_inside (N : Nat) (hN : N ≤ 46340) (a b : Int)
    (ha : IsInt32 a) (hb : IsInt32 b)
    (h1 : toSizeT (min a b) < N) (h2 : toSizeT (max a b) < N) :
    wrap32 (wrap32 ((N : Int) - 0) * wrap32 ((N : Int) - 0)) >
      wrap32 (wrap32 (b - a) * wrap32 (b - a)) := by
  have imin : IsInt32 (min a b) := by
    rw [min_def]; split_ifs <;> assumption
  have imax : IsInt32 (max a b) := by
    rw [max_def]; split_ifs <;> assumption
  have m1 := (toSizeT_lt_iff _ N imin (by omega)).1 h1
  have m2 := (toSizeT_lt_iff _ N imax (by omega)).1 h2
  have hab : 0 ≤ a ∧ a < N ∧ 0 ≤ b ∧ b < N := by
    rw [min_def] at m1
    rw [max_def] at m2
    split_ifs at m1 m2 <;> omega
  have hNi : (N : Int) ≤ 46340 := by exact_mod_cast hN
  have e1 : wrap32 ((N : Int) - 0) = N := by
    rw [sub_zero]; exact wrap32_id _ (by omega) (by omega)
  have e2 : wrap32 (b - a) = b - a := wrap32_id _ (by omega) (by omega)
  have q1 : (N : Int) * N ≤ 2147395600 := by nlinarith
  have q2 : (b - a) * (b - a) < (N : Int) * N := by nlinarith
  have q3 : 0 ≤ (b - a) * (b - a) := mul_self_nonneg _
  rw [e1, e2, wrap32_id _ (by omega) (by omega), wrap32_id _ (by omega) (by omega)]
  exact q2

/-- On an `N x N` grid with `N ≤ 46340`, a call of `DrawLine` between a point
with `x = 0` and a point with `x = N` faults. -/
theorem DrawLine.none_corner_x (N : Nat) (hN : N ≤ 46340) (ya yb color : Int) (img : Image)
    (hr : img.num_rows_ = N) (hc : img.num_columns_ = N) (ha : IsInt32 ya) (hb : IsInt32 yb) :
    DrawLine 0 ya N yb color img = none := by
  have i0 : IsInt32 (0 : Int) := by unfold IsInt32; omega
  have iN : IsInt32 (N : Int) := by unfold IsInt32; omega
  apply DrawLine.none_of_overshoot 0 ya N yb color img ⟨i0, ha, iN, hb⟩
  · intro _
    right
    rw [max_eq_right (Int.natCast_nonneg N), toSizeT_natCast, hr]
  · intro hnt
    by_contra hcon
    rw [hc] at hcon
    exact hnt (DrawLine.test_of_inside N hN ya yb ha hb (by omega) (by omega))

/-- On an `N x N` grid with `N ≤ 46340`, a call of `DrawLine` between a point
with `y = 0` and a point with `y = N` faults. -/
theorem DrawLine.none_corner_y (N : Nat) (hN : N ≤ 46340) (xa xb color : Int) (img : Image)
    (hr : img.num_rows_ = N) (hc : img.num_columns_ = N) (ha : IsInt32 xa) (hb : IsInt32 xb) :
    DrawLine xa 0 xb N color img = none := by
  have i0 : IsInt32 (0 : Int) := by unfold IsInt32; omega
  have iN : IsInt32 (N : Int) := by unfold IsInt32; omega
  apply DrawLine.none_of_overshoot xa 0 xb N color img ⟨ha, i0, hb, iN⟩
  · intro ht
    by_contra hcon
    rw [hr] at hcon
    exact absurd ht (not_lt.mpr (le_of_lt
      (DrawLine.test_of_inside N hN xa xb ha hb (by omega) (by omega))))
  · intro _
    right
    rw [max_eq_right (Int.natCast_nonneg N), toSizeT_natCast, hc]

theorem absInt_isInt32 (z : Int) : IsInt32 (absInt z) := wrap32_isInt32 _

theorem absInt_natCast (n : Nat) (hn : n ≤ 46340) : absInt (n : Int) = n := by
  unfold absInt
  rw [abs_of_nonneg (Int.natCast_nonneg n)]
  exact wrap32_id _ (by omega) (by omega)

/-- On an `N x N` grid with `N ≤ 46340`, drawing a segment computed in the
sin branch (from `x = 0` to `x = numColumns`) faults. -/
theorem DrawDetectedLines.draw_sin_none (N : Nat) (hN : N ≤ 46340) (ya yb : Int) (img : Image)
    (hr : img.num_rows_ = N) (hc : img.num_columns_ = N) :
    DrawDetectedLines.draw N ((0, ya), ((N : Int), yb)) img = none := by
  have a0 : absInt 0 = 0 := by decide
  have aN := absInt_natCast N hN
  have iN : IsInt32 (N : Int) := by unfold IsInt32; omega
  unfold DrawDetectedLines.draw
  dsimp only
  rw [a0, aN]
  split_ifs
  · exact DrawLine.none_corner_x N hN _ _ _ img hr hc iN (absInt_isInt32 _)
  · exact DrawLine.none_corner_x N hN _ _ _ img hr hc (absInt_isInt32 _) iN
  · exact DrawLine.none_corner_x N hN _ _ _ img hr hc iN iN
  · exact DrawLine.none_corner_x N hN _ _ _ img hr hc (absInt_isInt32 _) (absInt_isInt32 _)

/-- On an `N x N` grid with `N ≤ 46340`, drawing a segment computed in the
cos branch (from `y = 0` to `y = numRows`) faults. -/
theorem DrawDetectedLines.draw_cos_none (N : Nat) (hN : N ≤ 46340) (xa xb : Int) (img : Image)
    (hr : img.num_rows_ = N) (hc : img.num_columns_ = N) :
    DrawDetectedLines.draw N ((xa, 0), (xb, (N : Int))) img = none := by
  have a0 : absInt 0 = 0 := by decide
  have aN := absInt_natCast N hN
  have h1 : ¬ ((0 : Int) > N) := by omega
  have h2 : ¬ ((N : Int) > N) := by omega
  unfold DrawDetectedLines.draw
  dsimp only
  rw [a0, aN, if_neg h1, if_neg h2, if_neg (fun h => h2 h.1)]
  exact DrawLine.none_corner_y N hN _ _ _ img hr hc (absInt_isInt32 _) (absInt_isInt32 _)

/-- On an `N x N` grid with `N ≤ 46340`, drawing the segment of any peak
faults. -/
theorem DrawDetectedLines.draw_segment_none (N : Nat) (hN : N ≤ 46340) (r t : Nat)
    (img : Image) (hr : img.num_rows_ = N) (hc : img.num_columns_ = N) :
    DrawDetectedLines.draw N (DrawDetectedLines.segment N N r t) img = none := by
  unfold DrawDetectedLines.segment
  split
  · exact DrawDetectedLines.draw_sin_none N hN _ _ img hr hc
  · exact DrawDetectedLines.draw_cos_none N hN _ _ img hr hc

/-- The peaks of the accumulator `[[0, 7]]` with threshold 5: cell (0, 1). -/
theorem detect_peak_01 {α : Type} (segment : Nat → Nat → α) :
    DrawDetectedLines.detect segment [[0, 7]] 1 2 5 = some [segment 0 1] := by
  rw [DrawDetectedLines.detect_map]
  have h : DrawDetectedLines.detect (fun r t => (r, t)) [[0, 7]] 1 2 5 = some [(0, 1)] := by
    decide
  rw [h]
  rfl

theorem readAccumulator_peakText :
    DrawDetectedLines.readAccumulator 0 "1 2\n0 7 \n".toList = some (1, 2, [[0, 7]]) := by
  decide

/-- C22, amended. On a square image (rows = cols) of at most 46340 rows,
whenever the accumulator read from the file and the threshold yield at least
one accepted peak, every segment handed to `DrawLine` makes it fault (the
segment has an end point with a coordinate equal to `numColumns = numRows`,
and the scan reaches it unless it has already faulted), so `DrawDetectedLines`
faults instead of returning an image. -/
theorem DrawDetectedLines_square_faults (indet threshold_value : Int) (file : List Char)
    (an_image : Image) (R C : Int) (A : List (List Int))
    (lines : List ((Int × Int) × (Int × Int)))
    (hsq : an_image.num_rows_ = an_image.num_columns_)
    (hN : an_image.num_columns_ ≤ 46340)
    (hread : DrawDetectedLines.readAccumulator indet file = some (R, C, A))
    (hdet : DrawDetectedLines.detect
      (DrawDetectedLines.segment an_image.GetNumberOfRows an_image.GetNumberOfColumns)
      A R C threshold_value = some lines)
    (hne : lines ≠ []) :
    (∀ ln ∈ lines, DrawDetectedLines.draw an_image.GetNumberOfColumns ln an_image = none) ∧
    DrawDetectedLines indet (some file) threshold_value an_image = none := by
  have hrow : an_image.GetNumberOfRows = an_image.num_columns_ := hsq
  have hcol : an_image.GetNumberOfColumns = an_image.num_columns_ := rfl
  rw [hrow, hcol] at hdet
  rw [hcol]
  have hall : ∀ ln ∈ lines,
      DrawDetectedLines.draw an_image.num_columns_ ln an_image = none := by
    intro ln hln
    rw [DrawDetectedLines.detect_map] at hdet
    simp only [Option.map_eq_some'] at hdet
    obtain ⟨cells, _, hcells⟩ := hdet
    rw [← hcells, List.mem_map] at hln
    obtain ⟨p, _, rfl⟩ := hln
    exact DrawDetectedLines.draw_segment_none _ hN p.1 p.2 an_image hsq rfl
  refine ⟨hall, ?_⟩
  simp only [DrawDetectedLines, Option.some_bind, hread, hrow, hcol, hdet]
  cases lines with
  | nil => exact absurd rfl hne
  | cons ln rest =>
    rw [DrawDetectedLines.drawAll, hall ln (List.mem_cons_self ln rest)]
    rfl

/-- Witness for C22 (amended): the accumulator `[[0, 7]]` with threshold 5 on
the 5 x 5 grid of zeros. -/
theorem DrawDetectedLines_square_faults_witness :
    (∀ ln ∈ [DrawDetectedLines.segment gridFive.GetNumberOfRows gridFive.GetNumberOfColumns 0 1],
      DrawDetectedLines.draw gridFive.GetNumberOfColumns ln gridFive = none) ∧
    DrawDetectedLines 0 (some "1 2\n0 7 \n".toList) 5 gridFive = none :=
  DrawDetectedLines_square_faults 0 5 "1 2\n0 7 \n".toList gridFive 1 2 [[0, 7]]
    [DrawDetectedLines.segment gridFive.GetNumberOfRows gridFive.GetNumberOfColumns 0 1]
    rfl (by decide) readAccumulator_peakText (detect_peak_01 _) (List.cons_ne_nil _ _)

/-- The tangent of the angle `pi/360` of bin 1, scaled by 65536, lies between
571 and 572. -/
theorem tan_first_bin_scaled :
    0 < Real.cos (((1 : Nat) : ℝ) * (Real.pi / 360)) ∧
    571 * Real.cos (((1 : Nat) : ℝ) * (Real.pi / 360)) ≤
      65536 * Real.sin (((1 : Nat) : ℝ) * (Real.pi / 360)) ∧
    65536 * Real.sin (((1 : Nat) : ℝ) * (Real.pi / 360)) <
      572 * Real.cos (((1 : Nat) : ℝ) * (Real.pi / 360)) := by
  have hlo := Real.pi_gt_d6
  have hhi := Real.pi_lt_d6
  generalize hθ : ((1 : Nat) : ℝ) * (Real.pi / 360) = θ
  have e : θ = Real.pi / 360 := by rw [← hθ]; push_cast; ring
  have h1 : (0.0087266 : ℝ) < θ := by rw [e]; linarith
  have h2 : θ < (0.0087267 : ℝ) := by rw [e]; linarith
  have hpos : 0 < θ := by linarith
  have hs_hi := Real.sin_lt hpos
  have hs_lo := Real.sin_gt_sub_cube hpos (by linarith)
  have hc_lo := Real.one_sub_sq_div_two_le_cos (x := θ)
  have hc_hi := Real.cos_le_one θ
  have hsq : θ ^ 2 < 0.0001 := by nlinarith
  have hcu : θ ^ 3 < 0.000001 := by nlinarith
  refine ⟨by linarith, by linarith, by linarith⟩

theorem segment_huge :
    DrawDetectedLines.segment 65536 65536 0 1 = ((0, 0), (-571, 65536)) := by
  have hb : ¬ DrawDetectedLines.sinBranch 1 := by decide
  obtain ⟨hc, hlo, hhi⟩ := tan_first_bin_scaled
  have hne : Real.cos (((1 : Nat) : ℝ) * (Real.pi / 360)) ≠ 0 := ne_of_gt hc
  have hq : -572 < -(65536 * Real.sin (((1 : Nat) : ℝ) * (Real.pi / 360))) /
      Real.cos (((1 : Nat) : ℝ) * (Real.pi / 360)) ∧
      -(65536 * Real.sin (((1 : Nat) : ℝ) * (Real.pi / 360))) /
      Real.cos (((1 : Nat) : ℝ) * (Real.pi / 360)) ≤ -571 := by
    constructor
    · rw [lt_div_iff₀ hc]; linarith
    · rw [div_le_iff₀ hc]; linarith
  have hceil : ⌈-(65536 * Real.sin (((1 : Nat) : ℝ) * (Real.pi / 360))) /
      Real.cos (((1 : Nat) : ℝ) * (Real.pi / 360))⌉ = -571 := by
    rw [Int.ceil_eq_iff]
    constructor
    · push_cast; linarith [hq.1]
    · push_cast; linarith [hq.2]
  have hnn : ¬ (0 ≤ -(65536 * Real.sin (((1 : Nat) : ℝ) * (Real.pi / 360))) /
      Real.cos (((1 : Nat) : ℝ) * (Real.pi / 360))) := by
    intro h; linarith [hq.2]
  simp only [Nat.cast_one, one_mul] at hnn hceil hne
  simp only [DrawDetectedLines.segment, if_neg hb, divToInt, truncToInt,
    Nat.cast_zero, Int.cast_zero, zero_mul, sub_zero, zero_div, le_refl, if_true, Int.floor_zero,
    Nat.cast_one, one_mul, zero_sub, Prod.mk.injEq, true_and, and_true,
    Nat.cast_ofNat, Int.cast_ofNat, if_neg hne, if_neg hnn, hceil, and_self]

theorem draw_huge (img : Image) :
    DrawDetectedLines.draw 65536 ((0, 0), (-571, 65536)) img = DrawLine 0 0 571 65536 255 img := by
  rfl

set_option maxRecDepth 100000 in
theorem points_huge_inside :
    ∀ p ∈ DrawLine.points 0 0 571 65536, toSizeT p.1 < 65536 ∧ toSizeT p.2 < 65536 := by
  decide

/-- C22, as stated, fails on a square image so large that `dy * dy`
overflows: on the grid of 65536 x 65536 zeros, the accumulator `[[0, 7]]` with
threshold 5 yields the accepted peak (0, 1), whose segment runs from (0, 0) to
(-571, 65536); `DrawLine(0, 0, 571, 65536, 255)` computes `dy * dy = 2^32` as
0, makes a horizontal scan over `x = 0..571`, never reaches `y = 65536`, and
`DrawDetectedLines` returns an image. -/
theorem DrawDetectedLines_square_completes :
    gridHuge.num_rows_ = gridHuge.num_columns_ ∧
    DrawDetectedLines.readAccumulator 0 "1 2\n0 7 \n".toList = some (1, 2, [[0, 7]]) ∧
    DrawDetectedLines.detect
      (DrawDetectedLines.segment gridHuge.GetNumberOfRows gridHuge.GetNumberOfColumns)
      [[0, 7]] 1 2 5 = some [((0, 0), (-571, 65536))] ∧
    (DrawLine.setup 0 0 571 65536).dir = DrawLine.DIR_X ∧
    ∃ g, DrawDetectedLines 0 (some "1 2\n0 7 \n".toList) 5 gridHuge = some g := by
  have hrow : gridHuge.GetNumberOfRows = 65536 := rfl
  have hcol : gridHuge.GetNumberOfColumns = 65536 := rfl
  have hdet : DrawDetectedLines.detect (DrawDetectedLines.segment 65536 65536)
      [[0, 7]] 1 2 5 = some [((0, 0), (-571, 65536))] := by
    rw [detect_peak_01, segment_huge]
  have hi : IsInt32 (0 : Int) ∧ IsInt32 (0 : Int) ∧ IsInt32 (571 : Int) ∧ IsInt32 (65536 : Int) := by
    unfold IsInt32; omega
  obtain ⟨g, hg⟩ : ∃ g, DrawLine 0 0 571 65536 255 gridHuge = some g := by
    rw [(DrawLine.run 0 0 571 65536 255 gridHuge hi).2, drawPoints_some_iff]
    exact points_huge_inside
  refine ⟨rfl, readAccumulator_peakText, by rw [hrow, hcol]; exact hdet, by decide, g, ?_⟩
  simp only [DrawDetectedLines, Option.some_bind, readAccumulator_peakText, hrow, hcol, hdet,
    DrawDetectedLines.drawAll, Nat.cast_ofNat, draw_huge, hg]

end ComputerVisionProjects
